import Mathlib

/-!
# Simple Prompt Manager: data layer (`src/js/data.js`, `src/js/utils.js`)

A shallow embedding of the storage, CRUD, search, settings and import/export
functions of the prompt manager, and theorems about them.

Modelling conventions.

* `JVal` is a JSON value: everything that is read from `localStorage` went through
  `JSON.parse`, and every document handed to `importData` was parsed from JSON text
  (a file or the remote gist).  Numbers are integers (the program only stores
  `Date.now()` readings).  Objects are field lists in which the last field with a
  given key counts.
* `undefined` is not a JSON value.  It is the `none` of `Option JVal`: the value of
  an absent property or of an omitted argument.
* A thrown exception is `Except.error msg`; `try { .. } catch` is a `match` on the
  `Except` result.  The text of an engine-raised `TypeError` is not modelled.
* Strings are Lean strings (sequences of code points; JavaScript's are UTF-16).
  `String.prototype.toLowerCase` is a parameter `lower` of the one function that
  calls it.
* `localStorage` is abstracted to the parsed content of the four keys the program
  uses (`Store`); whether a `setItem` call succeeds is decided by the browser
  (`Quota`).
* `generateId()` and `Date.now()` are oracles: their results are passed in.
-/

namespace PromptManager

/-! ## JSON values and the JavaScript primitives the program uses -/

/-- A JSON value. -/
inductive JVal where
  | null : JVal
  | bool (b : Bool) : JVal
  | num (n : Int) : JVal
  | str (s : String) : JVal
  | arr (items : List JVal) : JVal
  | obj (fields : List (String × JVal)) : JVal
  deriving Inhabited

/-- The message used for an engine-raised `TypeError`. -/
def typeError : String := "TypeError"

/-- JavaScript truthiness (`!!v`); `none` is `undefined`. -/
def truthy : Option JVal → Bool
  | none => false
  | some .null => false
  | some (.bool b) => b
  | some (.num n) => n != 0
  | some (.str s) => s != ""
  | some (.arr _) => true
  | some (.obj _) => true

/-- The expression `Array.isArray(v)`. -/
def isArray : Option JVal → Bool
  | some (.arr _) => true
  | _ => false

/-- The expression `typeof v === 'object'` (true of `null`, arrays and objects). -/
def typeofObject : Option JVal → Bool
  | some .null => true
  | some (.arr _) => true
  | some (.obj _) => true
  | _ => false

/-- The value of key `k` in an object's field list.  When a key occurs more than
once the last occurrence counts, as in JSON text. -/
def lookup (k : String) : List (String × JVal) → Option JVal
  | [] => none
  | (k', v) :: rest => (lookup k rest).or (if k' = k then some v else none)

/-- Whether the field list has key `k`. -/
def hasKey (k : String) (fs : List (String × JVal)) : Bool := fs.any (fun kv => kv.1 == k)

/-- Property assignment `o[k] = v`: replaces the value of an existing key in place,
appends a new key at the end. -/
def setField (k : String) (v : JVal) (fs : List (String × JVal)) : List (String × JVal) :=
  if hasKey k fs then fs.map (fun kv => (kv.1, if kv.1 = k then v else kv.2)) else fs ++ [(k, v)]

/-- Property read `v.k` for the data property names the program uses (`id`,
`title`, `content`, `tags`, `createTime`, `prompts`, `settings`, `presetTags`):
a `TypeError` on `undefined` and `null`, the field of an object, `undefined` on
anything else. -/
def getProp (v : Option JVal) (k : String) : Except String (Option JVal) :=
  match v with
  | none => .error typeError
  | some .null => .error typeError
  | some (.obj fs) => .ok (lookup k fs)
  | some _ => .ok none

/-- Strict equality `a === b`.  Two arrays or objects are equal only when they are
the same reference, which values parsed from different JSON texts, or sitting at
different places of one document, never are. -/
def strictEq : Option JVal → Option JVal → Bool
  | none, none => true
  | some .null, some .null => true
  | some (.bool a), some (.bool b) => a == b
  | some (.num a), some (.num b) => a == b
  | some (.str a), some (.str b) => a == b
  | _, _ => false

/-- WhiteSpace and LineTerminator code points, the ones `String.prototype.trim`
strips. -/
def isTrimChar (c : Char) : Bool :=
  let n := c.toNat
  n = 0x09 || n = 0x0A || n = 0x0B || n = 0x0C || n = 0x0D || n = 0x20 || n = 0xA0 ||
  n = 0x1680 || (0x2000 ≤ n && n ≤ 0x200A) || n = 0x2028 || n = 0x2029 || n = 0x202F ||
  n = 0x205F || n = 0x3000 || n = 0xFEFF

/-- Drop the leading trim characters. -/
def trimStartChars : List Char → List Char
  | [] => []
  | c :: cs => if isTrimChar c then trimStartChars cs else c :: cs

/-- Drop the leading and the trailing trim characters. -/
def trimChars (cs : List Char) : List Char :=
  (trimStartChars (trimStartChars cs).reverse).reverse

/-- The method `String.prototype.trim`. -/
def trim (s : String) : String := String.mk (trimChars s.data)

/-- The call `v.trim()`: a `TypeError` unless `v` is a string. -/
def jsTrim : Option JVal → Except String String
  | some (.str s) => .ok (trim s)
  | _ => .error typeError

/-- Whether `pat` is a prefix of `cs`. -/
def startsWithChars : List Char → List Char → Bool
  | _, [] => true
  | [], _ :: _ => false
  | c :: cs, p :: ps => c == p && startsWithChars cs ps

/-- Whether `pat` occurs in `cs` as a contiguous run. -/
def includesChars : List Char → List Char → Bool
  | [], pat => startsWithChars [] pat
  | c :: cs, pat => startsWithChars (c :: cs) pat || includesChars cs pat

/-- The method `String.prototype.includes` on two strings. -/
def strIncludes (s pat : String) : Bool := includesChars s.data pat.data

mutual
/-- The abstract operation `ToString` on a JSON value. -/
def toJsString : JVal → String
  | .null => "null"
  | .bool true => "true"
  | .bool false => "false"
  | .num n => toString n
  | .str s => s
  | .arr xs => joinJs xs
  | .obj _ => "[object Object]"
/-- The method `Array.prototype.join` with the default separator: `null` elements
give the empty string. -/
def joinJs : List JVal → String
  | [] => ""
  | [x] => elemJs x
  | x :: y :: rest => elemJs x ++ "," ++ joinJs (y :: rest)
/-- The text of one array element inside `join`. -/
def elemJs : JVal → String
  | .null => ""
  | .bool true => "true"
  | .bool false => "false"
  | .num n => toString n
  | .str s => s
  | .arr xs => joinJs xs
  | .obj _ => "[object Object]"
end

/-- The call `recv.includes(x)`: `Array.prototype.includes` (SameValueZero, which
on JSON values is `===`) on an array, `String.prototype.includes` of `ToString(x)`
on a string, a `TypeError` on anything else. -/
def jsIncludes (recv : Option JVal) (x : JVal) : Except String Bool :=
  match recv with
  | some (.arr xs) => .ok (xs.any (fun y => strictEq (some y) (some x)))
  | some (.str s) => .ok (strIncludes s (toJsString x))
  | _ => .error typeError

/-- Index keys `"0"`, `"1"`, ... paired with the elements, from index `i` on. -/
def indexed (i : Nat) : List JVal → List (String × JVal)
  | [] => []
  | x :: xs => (toString i, x) :: indexed (i + 1) xs

/-- The own enumerable properties copied by an object spread `{...v}`: the fields
of an object, the index properties of an array or a string, nothing otherwise. -/
def ownEntries : Option JVal → List (String × JVal)
  | some (.obj fs) => fs
  | some (.arr xs) => indexed 0 xs
  | some (.str s) => indexed 0 (s.data.map (fun c => JVal.str (String.singleton c)))
  | _ => []

/-- Define the given properties one after the other on top of `base`, as an object
literal does. -/
def assignAll (base : List (String × JVal)) (entries : List (String × JVal)) :
    List (String × JVal) :=
  entries.foldl (fun acc kv => setField kv.1 kv.2 acc) base

/-! ## Storage adapter -/

/-- The four `localStorage` keys of the program. -/
inductive Key where
  | data
  | settings
  | syncState
  | pat
  deriving DecidableEq, Repr

/-- The parsed content of `localStorage`: for each key `none` when the item is
absent, empty or not JSON text (the cases in which `getStorageData` answers its
default), and the parsed value otherwise. -/
structure Store where
  data : Option JVal
  settings : Option JVal
  syncState : Option JVal
  pat : Option JVal

/-- Read one key. -/
def Store.get (st : Store) : Key → Option JVal
  | .data => st.data
  | .settings => st.settings
  | .syncState => st.syncState
  | .pat => st.pat

/-- Overwrite one key. -/
def Store.set (st : Store) (k : Key) (v : JVal) : Store :=
  match k with
  | .data => { st with data := some v }
  | .settings => { st with settings := some v }
  | .syncState => { st with syncState := some v }
  | .pat => { st with pat := some v }

/-- The browser's answer to `localStorage.setItem(key, text)`: `true` when the item
is stored, `false` when the call throws (quota exceeded, storage disabled). -/
abbrev Quota := Store → Key → JVal → Bool

/-- The store with nothing in it. -/
def Store.empty : Store := { data := none, settings := none, syncState := none, pat := none }

/-- A browser that accepts every write. -/
def Quota.unlimited : Quota := fun _ _ _ => true

/-- A browser that refuses every write. -/
def Quota.full : Quota := fun _ _ _ => false

/-- Function `getStorageData(key, defaultValue)`. -/
def getStorageData (st : Store) (key : Key) (defaultValue : JVal) : JVal :=
  match st.get key with
  | some v => v
  | none => defaultValue

/-- Function `setStorageData(key, data)`: the success flag and the store after. -/
def setStorageData (q : Quota) (st : Store) (key : Key) (data : JVal) : Bool × Store :=
  if q st key data then (true, st.set key data) else (false, st)

/-- Function `getAllPrompts()`. -/
def getAllPrompts (st : Store) : JVal := getStorageData st .data (.arr [])

/-- Function `saveAllPrompts(prompts)`. -/
def saveAllPrompts (q : Quota) (st : Store) (prompts : JVal) : Bool × Store :=
  if !isArray (some prompts) then (false, st) else setStorageData q st .data prompts

/-- Receiver of an array method call (`find`, `findIndex`, `filter`, `map`, `some`,
`unshift`): a `TypeError` unless the value is an array. -/
def arrayItems : JVal → Except String (List JVal)
  | .arr xs => .ok xs
  | _ => .error typeError

/-! ## Oracles -/

/-- Function `generateId()`: the fixed text `prompt_` followed by the base-36
clock reading and random digits, which are supplied from outside as `suffix`. -/
def generateId (suffix : String) : String := "prompt_" ++ suffix

/-- What one incoming record may draw from the outside world while it is imported:
the random part of a generated id and two successive readings of `Date.now()`. -/
structure Oracle where
  idSuffix : String
  createNow : Int
  updateNow : Int

/-! ## Prompt repository -/

/-- The loop of `prompts.find((prompt) => prompt.id === id)`. -/
def findById (id : Option JVal) : List JVal → Except String (Option JVal)
  | [] => .ok none
  | p :: ps => do
    let pid ← getProp (some p) "id"
    if strictEq pid id then pure (some p) else findById id ps

/-- Function `getPromptById(id)`; it has no `try`, so an exception escapes. -/
def getPromptById (st : Store) (id : Option JVal) : Except String JVal := do
  let prompts ← arrayItems (getAllPrompts st)
  let found ← findById id prompts
  pure (if truthy found then found.getD .null else .null)

/-- The `try` block of `addPrompt`.  The three oracle arguments are the result of
`generateId()` and of the two calls of `getCurrentTimestamp()`, in that order. -/
def addPromptBody (q : Quota) (st : Store) (promptData : Option JVal)
    (idSuffix : String) (t1 t2 : Int) : Except String (JVal × Store) := do
  let title ← getProp promptData "title"
  if !truthy title then throw "标题和内容不能为空"
  let content ← getProp promptData "content"
  if !truthy content then throw "标题和内容不能为空"
  let id := generateId idSuffix
  let title ← jsTrim title
  let content ← jsTrim content
  let tags ← getProp promptData "tags"
  let prompt := JVal.obj [
    ("id", .str id),
    ("title", .str title),
    ("content", .str content),
    ("tags", if isArray tags then tags.getD (.arr []) else .arr []),
    ("createTime", .num t1),
    ("updateTime", .num t2)]
  let prompts ← arrayItems (getAllPrompts st)
  let saved := saveAllPrompts q st (.arr (prompt :: prompts))
  if saved.1 then pure (prompt, saved.2) else throw "保存提示词失败"

/-- Function `addPrompt(promptData)`: the created record, or `null`, and the store
after the call. -/
def addPrompt (q : Quota) (st : Store) (promptData : Option JVal)
    (idSuffix : String) (t1 t2 : Int) : JVal × Store :=
  match addPromptBody q st promptData idSuffix t1 t2 with
  | .ok r => r
  | .error _ => (.null, st)

/-- The loop of `prompts.findIndex((prompt) => prompt.id === id)`; `none` is `-1`. -/
def findIndexById (id : Option JVal) : List JVal → Except String (Option Nat)
  | [] => .ok none
  | p :: ps => do
    let pid ← getProp (some p) "id"
    if strictEq pid id then pure (some 0) else do
      let r ← findIndexById id ps
      pure (r.map (fun i => i + 1))

/-- The check `v !== undefined && !v.trim()` of `updatePrompt`, raising `msg`. -/
def checkNotBlank (v : Option JVal) (msg : String) : Except String Unit :=
  match v with
  | none => pure ()
  | some _ => do
    let t ← jsTrim v
    if t = "" then throw msg else pure ()

/-- The statement `if (o.k) o.k = o.k.trim()` of `updatePrompt`. -/
def trimField (k : String) (fs : List (String × JVal)) : Except String (List (String × JVal)) :=
  if truthy (lookup k fs) then do
    let t ← jsTrim (lookup k fs)
    pure (setField k (.str t) fs)
  else pure fs

/-- The `try` block of `updatePrompt`; `now` is the reading of `Date.now()`. -/
def updatePromptBody (q : Quota) (st : Store) (id : Option JVal) (updateData : Option JVal)
    (now : Int) : Except String (JVal × Store) := do
  let prompts ← arrayItems (getAllPrompts st)
  let index ← findIndexById id prompts
  match index with
  | none => throw "提示词不存在"
  | some i =>
    let title ← getProp updateData "title"
    checkNotBlank title "标题不能为空"
    let content ← getProp updateData "content"
    checkNotBlank content "内容不能为空"
    let merged := assignAll []
      (ownEntries (prompts.get? i) ++ ownEntries updateData ++ [("updateTime", .num now)])
    let merged ← trimField "title" merged
    let merged ← trimField "content" merged
    let updatedPrompt := JVal.obj merged
    let saved := saveAllPrompts q st (.arr (prompts.set i updatedPrompt))
    if saved.1 then pure (updatedPrompt, saved.2) else throw "保存提示词失败"

/-- Function `updatePrompt(id, updateData)`: the updated record, or `null`, and the
store after the call. -/
def updatePrompt (q : Quota) (st : Store) (id : Option JVal) (updateData : Option JVal)
    (now : Int) : JVal × Store :=
  match updatePromptBody q st id updateData now with
  | .ok r => r
  | .error _ => (.null, st)

/-- The loop of `prompts.filter((prompt) => prompt.id !== id)`. -/
def filterNotId (id : Option JVal) : List JVal → Except String (List JVal)
  | [] => .ok []
  | p :: ps => do
    let pid ← getProp (some p) "id"
    let rest ← filterNotId id ps
    pure (if strictEq pid id then rest else p :: rest)

/-- The `try` block of `deletePrompt`. -/
def deletePromptBody (q : Quota) (st : Store) (id : Option JVal) : Except String (Bool × Store) := do
  let prompts ← arrayItems (getAllPrompts st)
  let filteredPrompts ← filterNotId id prompts
  if filteredPrompts.length = prompts.length then throw "提示词不存在"
  pure (saveAllPrompts q st (.arr filteredPrompts))

/-- Function `deletePrompt(id)`: the success flag and the store after the call. -/
def deletePrompt (q : Quota) (st : Store) (id : Option JVal) : Bool × Store :=
  match deletePromptBody q st id with
  | .ok r => r
  | .error _ => (false, st)

/-- The call `v.toLowerCase()`: a `TypeError` unless `v` is a string. -/
def jsLower (lower : String → String) : Option JVal → Except String String
  | some (.str s) => .ok (lower s)
  | _ => .error typeError

/-- The filter callback of `searchPrompts`: the content is looked at only when the
title does not match. -/
def searchMatches (lower : String → String) (searchTerm : String) (prompt : JVal) :
    Except String Bool := do
  let title ← getProp (some prompt) "title"
  let title ← jsLower lower title
  if strIncludes title searchTerm then pure true else do
    let content ← getProp (some prompt) "content"
    let content ← jsLower lower content
    pure (strIncludes content searchTerm)

/-- The method `Array.prototype.filter` with a callback that may throw. -/
def filterE (f : JVal → Except String Bool) : List JVal → Except String (List JVal)
  | [] => .ok []
  | p :: ps => do
    let keep ← f p
    let rest ← filterE f ps
    pure (if keep then p :: rest else rest)

/-- The method `Array.prototype.map` with a callback that may throw. -/
def mapE (f : JVal → Except String JVal) : List JVal → Except String (List JVal)
  | [] => .ok []
  | p :: ps => do
    let y ← f p
    let rest ← mapE f ps
    pure (y :: rest)

/-- Function `searchPrompts(keyword)`; it has no `try`, so an exception escapes. -/
def searchPrompts (lower : String → String) (st : Store) (keyword : Option JVal) :
    Except String JVal :=
  match keyword with
  | some (.str s) =>
    if !truthy keyword then .ok (getAllPrompts st) else
      let searchTerm := trim (lower s)
      if searchTerm = "" then .ok (getAllPrompts st) else do
        let prompts ← arrayItems (getAllPrompts st)
        let hits ← filterE (searchMatches lower searchTerm) prompts
        pure (.arr hits)
  | _ => .ok (getAllPrompts st)

/-- The filter callback of `filterPromptsByTag`. -/
def hasTag (tag : JVal) (prompt : JVal) : Except String Bool := do
  let tags ← getProp (some prompt) "tags"
  if isArray tags then jsIncludes tags tag else pure false

/-- Function `filterPromptsByTag(tag)`; it has no `try`, so an exception escapes. -/
def filterPromptsByTag (st : Store) (tag : Option JVal) : Except String JVal :=
  match tag with
  | none => .ok (getAllPrompts st)
  | some t =>
    if !truthy tag || strictEq tag (some (.str "all")) then .ok (getAllPrompts st) else do
      let prompts ← arrayItems (getAllPrompts st)
      let hits ← filterE (hasTag t) prompts
      pure (.arr hits)

/-! ## Settings store -/

/-- Constant `DEFAULT_SETTINGS.presetTags`. -/
def defaultPresetTags : JVal :=
  .arr [.str "工作", .str "学习", .str "编程", .str "写作", .str "生活"]

/-- Constant `DEFAULT_SETTINGS`. -/
def DEFAULT_SETTINGS : JVal :=
  .obj [("presetTags", defaultPresetTags), ("version", .str "1.0.0")]

/-- Function `isEmpty(str)` of `utils.js`. -/
def isEmpty (v : JVal) : Bool :=
  match v with
  | .str s => !truthy (some v) || trim s == ""
  | _ => true

/-- The spread `[...new Set(arr)]`: the first occurrence of every value, in order
(a `Set` compares with SameValueZero, which on JSON values is `===`). -/
def dedupFirst : List JVal → List JVal → List JVal
  | seen, [] => seen.reverse
  | seen, x :: xs =>
    if seen.any (fun y => strictEq (some y) (some x)) then dedupFirst seen xs
    else dedupFirst (x :: seen) xs

/-- Function `uniqueArray(arr)` of `utils.js`. -/
def uniqueArray (v : Option JVal) : List JVal :=
  match v with
  | some (.arr xs) => dedupFirst [] xs
  | _ => []

/-- Function `getSettings()`. -/
def getSettings (st : Store) : JVal := getStorageData st .settings DEFAULT_SETTINGS

/-- Function `saveSettings(settings)`: the success flag and the store after. -/
def saveSettings (q : Quota) (st : Store) (settings : Option JVal) : Bool × Store :=
  let validSettings := assignAll [] (ownEntries (some DEFAULT_SETTINGS) ++ ownEntries settings)
  let validSettings :=
    match lookup "presetTags" validSettings with
    | some (.arr tags) =>
      setField "presetTags"
        (.arr (uniqueArray (some (.arr (tags.filter (fun tag => !isEmpty tag)))))) validSettings
    | _ => setField "presetTags" defaultPresetTags validSettings
  setStorageData q st .settings (.obj validSettings)

/-- Function `getPresetTags()`; it has no `try`, so an exception escapes. -/
def getPresetTags (st : Store) : Except String JVal := do
  let presetTags ← getProp (some (getSettings st)) "presetTags"
  pure (if truthy presetTags then presetTags.getD defaultPresetTags else defaultPresetTags)

/-- Function `updatePresetTags(tags)`; it has no `try`, so the `TypeError` of the
assignment `settings.presetTags = tags` on a stored `null` escapes, before any
write. The script runs in sloppy mode, where the assignment to a number, a
boolean or a string is ignored. An array receives the property, and is handed on
as the object of its own enumerable properties, which is all that `saveSettings`
reads of it. -/
def updatePresetTags (q : Quota) (st : Store) (tags : JVal) : Except String (Bool × Store) :=
  match getSettings st with
  | .null => .error typeError
  | .obj fs => .ok (saveSettings q st (some (.obj (setField "presetTags" tags fs))))
  | .arr xs => .ok (saveSettings q st (some (.obj (setField "presetTags" tags (indexed 0 xs)))))
  | v => .ok (saveSettings q st (some v))

/-! ## Import / export engine -/

/-- The callback of `prompts.map` in `exportData`: `{...prompt, tags: ..}`. -/
def exportPrompt (prompt : JVal) : Except String JVal := do
  let tags ← getProp (some prompt) "tags"
  pure (.obj (assignAll [] (ownEntries (some prompt) ++
    [("tags", if isArray tags then tags.getD (.arr []) else .arr [])])))

/-- The `try` block of `exportData`; `now` is the reading of `Date.now()`. -/
def exportDataBody (st : Store) (now : Int) : Except String JVal := do
  let prompts ← arrayItems (getAllPrompts st)
  let settings := getSettings st
  let processedPrompts ← mapE exportPrompt prompts
  pure (.obj [
    ("prompts", .arr processedPrompts),
    ("settings", settings),
    ("exportTime", .num now),
    ("version", .str "1.0.0")])

/-- Function `exportData()`: the export document, or `null`. -/
def exportData (st : Store) (now : Int) : JVal :=
  match exportDataBody st now with
  | .ok doc => doc
  | .error _ => .null

/-- The counters of `importData`. -/
structure Stats where
  imported : Nat
  skipped : Nat
  errors : Nat
  deriving DecidableEq, Repr

/-- The result object of `importData`. -/
structure ImportResult where
  success : Bool
  message : String
  stats : Stats
  deriving DecidableEq, Repr

/-- The working variables of the import loop. -/
structure ImportState where
  existingPrompts : List JVal
  importedCount : Nat
  skippedCount : Nat
  errorCount : Nat

/-- How the body of the import loop ends for one incoming record. -/
inductive Outcome where
  | accepted (prompt : JVal)
  | skipped
  | invalid

/-- The loop of `existingPrompts.some((p) => p.title === title)`. -/
def someTitleEq (title : Option JVal) : List JVal → Except String Bool
  | [] => .ok false
  | p :: ps => do
    let t ← getProp (some p) "title"
    if strictEq t title then pure true else someTitleEq title ps

/-- The expression `existingPrompts.map((p) => p.id)` that fills `existingIds`. -/
def idsOf : List JVal → Except String (List (Option JVal))
  | [] => .ok []
  | p :: ps => do
    let pid ← getProp (some p) "id"
    let rest ← idsOf ps
    pure (pid :: rest)

/-- The expression `promptData.tags.filter((tag) => currentPresetTags.includes(tag))`. -/
def filterTags (currentPresetTags : JVal) : List JVal → Except String (List JVal)
  | [] => .ok []
  | tag :: tags => do
    let keep ← jsIncludes (some currentPresetTags) tag
    let rest ← filterTags currentPresetTags tags
    pure (if keep then tag :: rest else rest)

/-- The test `existingIds.has(id) || existingPrompts.some((p) => p.title === title)`;
the titles are not looked at when the id is found. -/
def isDuplicate (existingIds : List (Option JVal)) (existingPrompts : List JVal)
    (id title : Option JVal) : Except String Bool :=
  if existingIds.any (fun x => strictEq x id) then .ok true
  else someTitleEq title existingPrompts

/-- The expression `Array.isArray(tags) ? tags.filter(..) : []`. -/
def validTagsOf (currentPresetTags : JVal) (tags : Option JVal) : Except String (List JVal) :=
  match tags with
  | some (.arr ts) => filterTags currentPresetTags ts
  | _ => .ok []

/-- The inner `try` block of the import loop for one incoming record.
`existingIds` is the set built before the loop; it is not extended while the loop
runs.  `existingPrompts` is the working collection at this iteration. -/
def importOneBody (st : Store) (existingIds : List (Option JVal)) (existingPrompts : List JVal)
    (o : Oracle) (promptData : JVal) : Except String Outcome := do
  let title ← getProp (some promptData) "title"
  if !truthy title then pure .invalid else
  let content ← getProp (some promptData) "content"
  if !truthy content then pure .invalid else
  let id ← getProp (some promptData) "id"
  let dup ← isDuplicate existingIds existingPrompts id title
  if dup then pure .skipped else
  let currentPresetTags ← getPresetTags st
  let tags ← getProp (some promptData) "tags"
  let validTags ← validTagsOf currentPresetTags tags
  let newId := if truthy id then id.getD .null else .str (generateId o.idSuffix)
  let title ← jsTrim title
  let content ← jsTrim content
  let createTime ← getProp (some promptData) "createTime"
  pure (.accepted (.obj [
    ("id", newId),
    ("title", .str title),
    ("content", .str content),
    ("tags", .arr validTags),
    ("createTime", if truthy createTime then createTime.getD .null else .num o.createNow),
    ("updateTime", .num o.updateNow)]))

/-- One iteration of the import loop: the inner `try` and its `catch`. -/
def importOne (st : Store) (existingIds : List (Option JVal)) (o : Oracle)
    (s : ImportState) (promptData : JVal) : ImportState :=
  match importOneBody st existingIds s.existingPrompts o promptData with
  | .ok (.accepted prompt) =>
    { s with existingPrompts := prompt :: s.existingPrompts, importedCount := s.importedCount + 1 }
  | .ok .skipped => { s with skippedCount := s.skippedCount + 1 }
  | .ok .invalid => { s with errorCount := s.errorCount + 1 }
  | .error _ => { s with errorCount := s.errorCount + 1 }

/-- The loop `for (const promptData of data.prompts)`; the record at position `k` of
the document draws from `orc k`. -/
def importLoop (st : Store) (existingIds : List (Option JVal)) (orc : Nat → Oracle) :
    Nat → ImportState → List JVal → ImportState
  | _, s, [] => s
  | k, s, promptData :: rest =>
    importLoop st existingIds orc (k + 1) (importOne st existingIds (orc k) s promptData) rest

/-- The success message of `importData`. -/
def importMessage (s : ImportState) : String :=
  "导入完成：成功" ++ toString s.importedCount ++ "条，跳过" ++ toString s.skippedCount ++
    "条，错误" ++ toString s.errorCount ++ "条"

/-- The working variables before the loop. -/
def ImportState.init (existingPrompts : List JVal) : ImportState :=
  { existingPrompts := existingPrompts, importedCount := 0, skippedCount := 0, errorCount := 0 }

/-- The expression `merge ? getAllPrompts() : []`, as the receiver of `.map`. -/
def startingPrompts (st : Store) (merge : Bool) : Except String (List JVal) :=
  if merge then arrayItems (getAllPrompts st) else .ok []

/-- The statement `if (Array.isArray(data.prompts)) { .. }` of `importData`: the
loop over the incoming records and the one write of the working collection. -/
def importPrompts (q : Quota) (st : Store) (prompts : Option JVal) (merge : Bool)
    (orc : Nat → Oracle) : Except String (ImportState × Store) :=
  match prompts with
  | some (.arr incoming) => do
    let existingPrompts ← startingPrompts st merge
    let existingIds ← idsOf existingPrompts
    let s := importLoop st existingIds orc 0 (ImportState.init existingPrompts) incoming
    let saved := saveAllPrompts q st (.arr s.existingPrompts)
    if saved.1 then pure (s, saved.2) else throw "保存导入的提示词失败"
  | _ => pure (ImportState.init [], st)

/-- The statement `if (!merge && data.settings) saveSettings(data.settings)`. -/
def importSettings (q : Quota) (st : Store) (data : Option JVal) (merge : Bool) :
    Except String Store :=
  if !merge then do
    let settings ← getProp data "settings"
    pure (if truthy settings then (saveSettings q st settings).2 else st)
  else pure st

/-- The outer `try` block of `importData`. -/
def importDataBody (q : Quota) (st : Store) (data : Option JVal) (merge : Bool)
    (orc : Nat → Oracle) : Except String (ImportResult × Store) :=
  if !truthy data || !typeofObject data then throw "无效的数据格式" else do
    let prompts ← getProp data "prompts"
    let r ← importPrompts q st prompts merge orc
    let st2 ← importSettings q r.2 data merge
    pure ({ success := true, message := importMessage r.1,
            stats := { imported := r.1.importedCount, skipped := r.1.skippedCount,
                       errors := r.1.errorCount } }, st2)

/-- Function `importData(data, merge)`: the result object and the store after. -/
def importData (q : Quota) (st : Store) (data : Option JVal) (merge : Bool)
    (orc : Nat → Oracle) : ImportResult × Store :=
  match importDataBody q st data merge orc with
  | .ok r => r
  | .error msg =>
    ({ success := false, message := if msg = "" then "导入失败" else msg,
       stats := { imported := 0, skipped := 0, errors := 0 } }, st)

/-- The filter callback of `validateImportData`:
`!prompt || !prompt.title || !prompt.content`. -/
def isInvalidPrompt (prompt : JVal) : Except String Bool := do
  if !truthy (some prompt) then pure true else
  let title ← getProp (some prompt) "title"
  if !truthy title then pure true else
  let content ← getProp (some prompt) "content"
  pure (!truthy content)

/-- The result object of `validateImportData`. -/
structure Validation where
  valid : Bool
  message : String
  deriving DecidableEq, Repr

/-- The `try` block of `validateImportData`. -/
def validateImportDataBody (data : Option JVal) : Except String Validation := do
  if !truthy data || !typeofObject data then
    pure { valid := false, message := "数据格式无效" }
  else
  let prompts ← getProp data "prompts"
  match prompts with
  | some (.arr ps) =>
    if ps.length = 0 then pure { valid := false, message := "没有可导入的提示词" } else
    let invalidPrompts ← filterE isInvalidPrompt ps
    if invalidPrompts.length > 0 then
      pure { valid := false,
             message := "发现" ++ toString invalidPrompts.length ++ "个无效的提示词（缺少标题或内容）" }
    else pure { valid := true, message := "数据格式有效" }
  | _ => pure { valid := false, message := "缺少有效的提示词数据" }

/-- Function `validateImportData(data)`.  It reads and writes no storage, so it is
a function of the document alone. -/
def validateImportData (data : Option JVal) : Validation :=
  match validateImportDataBody data with
  | .ok r => r
  | .error _ => { valid := false, message := "数据验证失败" }

/-! ## Cloud sync (`sync.js`) -/

/-- One call of `fetch` as the program issues it. The JSON text of a request body
is represented by the payload it encodes (`payload`, `none` when the request has
no body); `authorization` and `ifNoneMatch` are the headers of these names. -/
structure Request where
  method : String
  url : String
  authorization : Option String
  ifNoneMatch : Option String
  payload : Option JVal

/-- What the program reads of a response: `res.status`, `res.statusText`,
`res.headers.get('ETag')`, and the outcomes of `res.text()` and `res.json()`
(`error` when the promise rejects). -/
structure Response where
  status : Nat
  statusText : String
  etag : Option String
  text : Except String String
  json : Except String JVal

/-- The property `res.ok`. -/
def Response.ok (res : Response) : Bool := 200 ≤ res.status && res.status ≤ 299

/-- The surroundings of the sync engine: the answers of `localStorage.setItem`,
the tail of the n-th device id that `Date.now()` and `Math.random()` produce,
`JSON.parse` on a text (`none` when it throws), and `fetch`, which answers a
request in a state `σ` of the outside world with a response, or rejects, and
leaves a new state. -/
structure SyncEnv (σ : Type) where
  quota : Quota
  deviceSuffix : Nat → String
  parse : String → Option JVal
  fetch : σ → Request → Except String Response × σ

/-- The state a sync operation runs in: `localStorage`, the outside world, the
number of device ids generated so far, and the record of the requests issued so
far, latest first, each with the content of `localStorage` at that moment. -/
structure World (σ : Type) where
  store : Store
  remote : σ
  generated : Nat
  sent : List (Request × Store)

/-- A computation of `sync.js`: it ends with a value or with a thrown error
message, and leaves a world in both cases. -/
def SyncM (σ α : Type) : Type := World σ → Except String α × World σ

/-- Sequencing: a thrown error skips the rest and keeps the world reached. -/
def SyncM.bind {σ α β : Type} (x : SyncM σ α) (f : α → SyncM σ β) : SyncM σ β :=
  fun w =>
    match x w with
    | (.ok a, w1) => f a w1
    | (.error e, w1) => (.error e, w1)

instance {σ : Type} : Monad (SyncM σ) where
  pure a := fun w => (.ok a, w)
  bind := SyncM.bind

/-- The statement `throw new Error(msg)`. -/
def SyncM.fail {σ α : Type} (msg : String) : SyncM σ α := fun w => (.error msg, w)

/-- An expression that may throw and touches nothing. -/
def SyncM.ofExcept {σ α : Type} (x : Except String α) : SyncM σ α := fun w => (x, w)

/-- The content of `localStorage`. -/
def SyncM.readStore {σ : Type} : SyncM σ Store := fun w => (.ok w.store, w)

/-- The statement `try { x } catch (_) {}`. -/
def SyncM.attempt {σ α : Type} (x : SyncM σ α) : SyncM σ Unit := fun w => (.ok (), (x w).2)

/-- The statement `try { x } catch (e) { handler }`; `e` is the message of the
error. -/
def SyncM.tryCatch {σ α : Type} (x : SyncM σ α) (handler : String → SyncM σ α) : SyncM σ α :=
  fun w =>
    match x w with
    | (.ok a, w1) => (.ok a, w1)
    | (.error e, w1) => handler e w1

/-- Function `readLocal(key, defaultValue)`. -/
def readLocal (st : Store) (key : Key) (defaultValue : JVal) : JVal :=
  match st.get key with
  | some v => v
  | none => defaultValue

/-- Function `writeLocal(key, value)`: the success flag, with the store after. -/
def writeLocal {σ : Type} (env : SyncEnv σ) (key : Key) (value : JVal) : SyncM σ Bool :=
  fun w =>
    if env.quota w.store key value then (.ok true, { w with store := w.store.set key value })
    else (.ok false, w)

/-- The expression `v || d`. -/
def orElse (v : Option JVal) (d : JVal) : JVal := if truthy v then v.getD d else d

/-- Function `ensureDeviceId(existing)`. The assignment `state.deviceId = id`
defines the property on an object; on an array it adds a property that
`JSON.stringify` leaves out, and on a number, a string or `true` it does nothing
(the script runs in sloppy mode). -/
def ensureDeviceId {σ : Type} (env : SyncEnv σ) (existing : Option JVal) : SyncM σ JVal :=
  fun w =>
    if truthy existing then (.ok (existing.getD .null), w) else
    let id := "device_" ++ env.deviceSuffix w.generated
    let w1 := { w with generated := w.generated + 1 }
    let state := orElse (some (readLocal w1.store .syncState (.obj []))) (.obj [])
    let state :=
      match state with
      | .obj fs => .obj (setField "deviceId" (.str id) fs)
      | v => v
    (.ok (.str id), (writeLocal env .syncState state w1).2)

/-- Function `getSyncState()`. -/
def getSyncState {σ : Type} (env : SyncEnv σ) : SyncM σ JVal := do
  let st ← SyncM.readStore
  let state := readLocal st .syncState (.obj [])
  let gistId ← SyncM.ofExcept (getProp (some state) "gistId")
  let lastETag ← SyncM.ofExcept (getProp (some state) "lastETag")
  let lastSyncAt ← SyncM.ofExcept (getProp (some state) "lastSyncAt")
  let deviceId ← SyncM.ofExcept (getProp (some state) "deviceId")
  let deviceId ← if truthy deviceId then pure (deviceId.getD .null)
    else ensureDeviceId env deviceId
  let status ← SyncM.ofExcept (getProp (some state) "status")
  let lastError ← SyncM.ofExcept (getProp (some state) "lastError")
  pure (.obj [
    ("gistId", orElse gistId (.str "")),
    ("lastETag", orElse lastETag (.str "")),
    ("lastSyncAt", orElse lastSyncAt (.num 0)),
    ("deviceId", deviceId),
    ("status", orElse status (.str "idle")),
    ("lastError", orElse lastError (.str ""))])

/-- The object `{ ...current, ...patch }` as `JSON.stringify` writes it: a key of
the patch replaces the value in place, or is added at the end; a key whose value
is `undefined` is left out of the text. -/
def patched (current : List (String × JVal)) :
    List (String × Option JVal) → List (String × JVal)
  | [] => current
  | (k, some v) :: rest => patched (setField k v current) rest
  | (k, none) :: rest => patched (current.filter (fun kv => kv.1 != k)) rest

/-- Function `saveSyncState(patch)`; no caller uses the object it returns. -/
def saveSyncState {σ : Type} (env : SyncEnv σ) (patch : List (String × Option JVal)) :
    SyncM σ Unit := do
  let current ← getSyncState env
  let next := patched (ownEntries (some current)) patch
  let _ ← writeLocal env .syncState (.obj next)
  pure ()

/-- Function `getPat()`. -/
def getPat (st : Store) : JVal := orElse (some (readLocal st .pat (.str ""))) (.str "")

/-- Function `buildPayload()`; `exportNow` is the reading of the clock inside
`exportData()`, `updatedAt` the one of `nowTs()` after it. -/
def buildPayload {σ : Type} (env : SyncEnv σ) (exportNow updatedAt : Int) : SyncM σ JVal := do
  let state ← getSyncState env
  let st ← SyncM.readStore
  let data := exportData st exportNow
  let deviceId ← SyncM.ofExcept (getProp (some state) "deviceId")
  pure (.obj [
    ("version", .num 1),
    ("updatedAt", .num updatedAt),
    ("deviceId", deviceId.getD .null),
    ("data", data)])

/-- The call `fetch(..)`: the request goes on record with the content of
`localStorage` at that moment, and the outside world answers. -/
def send {σ : Type} (env : SyncEnv σ) (req : Request) : SyncM σ Response := fun w =>
  ((env.fetch w.remote req).1,
    { w with remote := (env.fetch w.remote req).2, sent := (req, w.store) :: w.sent })

/-- The expression `t || res.statusText || '未知错误'` on texts. -/
def firstNonEmpty (t statusText : String) : String :=
  if t ≠ "" then t else if statusText ≠ "" then statusText else "未知错误"

/-- Function `safeReadError(res)`. -/
def safeReadError (res : Response) : String :=
  match res.text with
  | .ok t => firstNonEmpty t res.statusText
  | .error _ => firstNonEmpty "" res.statusText

/-- The address `https://api.github.com/gists/${gistId}`. -/
def gistUrl (gistId : JVal) : String := "https://api.github.com/gists/" ++ toJsString gistId

/-- The header value `'token ' + pat`. -/
def tokenHeader (pat : JVal) : String := "token " ++ toJsString pat

/-- The request of `fetchRemote`: the header `If-None-Match` is sent when
`lastETag` is truthy. -/
def getRequest (pat gistId : JVal) (lastETag : Option JVal) : Request :=
  { method := "GET", url := gistUrl gistId, authorization := some (tokenHeader pat),
    ifNoneMatch := if truthy lastETag then some (toJsString (lastETag.getD .null)) else none,
    payload := none }

/-- The request `fetch(file.raw_url, ..)` of `fetchRemote`. -/
def rawRequest (rawUrl : JVal) : Request :=
  { method := "GET", url := toJsString rawUrl, authorization := none, ifNoneMatch := none,
    payload := none }

/-- The request of `updateRemote`. -/
def patchRequest (pat gistId payload : JVal) : Request :=
  { method := "PATCH", url := gistUrl gistId, authorization := some (tokenHeader pat),
    ifNoneMatch := none, payload := some payload }

/-- The request of `createPrivateGist`. -/
def postRequest (pat payload : JVal) : Request :=
  { method := "POST", url := "https://api.github.com/gists",
    authorization := some (tokenHeader pat), ifNoneMatch := none, payload := some payload }

/-- The object `fetchRemote` returns: `{ status, etag, data }`. -/
structure Fetched where
  status : Nat
  etag : Option JVal
  data : Option JVal

/-- The part of `fetchRemote` that reads the text of the file `data.json`. -/
def readContent {σ : Type} (env : SyncEnv σ) (file : Option JVal) : SyncM σ String := do
  let rawUrl ← SyncM.ofExcept (getProp file "raw_url")
  if truthy rawUrl then do
    let rawRes ← send env (rawRequest (rawUrl.getD .null))
    if !rawRes.ok then
      SyncM.fail ("读取 Gist 原始内容失败: " ++
        (match rawRes.text with
         | .ok t => t
         | .error _ => ""))
    else SyncM.ofExcept rawRes.text
  else do
    let content ← SyncM.ofExcept (getProp file "content")
    if truthy content then pure (toJsString (content.getD .null))
    else SyncM.fail "无法获取 Gist 文件内容"

/-- The part of `fetchRemote` after the status tests. -/
def readRemote {σ : Type} (env : SyncEnv σ) (res : Response) : SyncM σ Fetched := do
  let json ← SyncM.ofExcept res.json
  let files ← SyncM.ofExcept (getProp (some json) "files")
  let file ← if truthy files then SyncM.ofExcept (getProp files "data.json") else pure files
  if !truthy file then SyncM.fail "Gist 中缺少 data.json" else do
  let contentText ← readContent env file
  let etag := res.etag.getD ""
  let data := (env.parse contentText).getD .null
  if !truthy (some data) then SyncM.fail "远端数据解析失败" else
  pure { status := 200, etag := some (.str etag), data := some data }

/-- Function `fetchRemote(pat, gistId, lastETag)`. -/
def fetchRemote {σ : Type} (env : SyncEnv σ) (pat gistId : JVal) (lastETag : Option JVal) :
    SyncM σ Fetched := do
  let res ← send env (getRequest pat gistId lastETag)
  if res.status = 304 then pure { status := 304, etag := lastETag, data := none }
  else if res.status = 404 then SyncM.fail "找不到对应 Gist（404）"
  else if !res.ok then
    SyncM.fail ("拉取失败: " ++ toString res.status ++ " " ++ safeReadError res)
  else readRemote env res

/-- Function `updateRemote(pat, gistId, payload)`: the field `etag` of its result. -/
def updateRemote {σ : Type} (env : SyncEnv σ) (pat gistId payload : JVal) : SyncM σ String := do
  let res ← send env (patchRequest pat gistId payload)
  if !res.ok then SyncM.fail ("更新 Gist 失败: " ++ safeReadError res)
  else pure (res.etag.getD "")

/-- Function `createPrivateGist(pat)`: the fields `gistId` and `etag` of its
result. -/
def createPrivateGist {σ : Type} (env : SyncEnv σ) (pat : JVal) (exportNow updatedAt : Int) :
    SyncM σ (Option JVal × String) := do
  let payload ← buildPayload env exportNow updatedAt
  let res ← send env (postRequest pat payload)
  if !res.ok then SyncM.fail ("创建 Gist 失败: " ++ safeReadError res) else do
  let json ← SyncM.ofExcept res.json
  let gistId ← SyncM.ofExcept (getProp (some json) "id")
  pure (gistId, res.etag.getD "")

/-- Function `updateSyncStatusUI()`: of its `try` block only the call of
`getSyncState()` touches the state; the page is not part of the model. -/
def updateSyncStatusUI {σ : Type} (env : SyncEnv σ) : SyncM σ Unit :=
  SyncM.attempt (getSyncState env)

/-- The call `importData(data.data, false)` on the local store. -/
def importLocal {σ : Type} (env : SyncEnv σ) (data : Option JVal) (orc : Nat → Oracle) :
    SyncM σ ImportResult := fun w =>
  (.ok (importData env.quota w.store data false orc).1,
    { w with store := (importData env.quota w.store data false orc).2 })

/-- The part of `pullOverrideLocal` that applies a fresh body. -/
def applyRemote {σ : Type} (env : SyncEnv σ) (r : Fetched) (now : Int) (orc : Nat → Oracle) :
    SyncM σ JVal := do
  if !truthy r.data then SyncM.fail "远端数据结构无效" else do
  let inner ← SyncM.ofExcept (getProp r.data "data")
  if !truthy inner then SyncM.fail "远端数据结构无效" else do
  let result ← importLocal env inner orc
  if !result.success then
    SyncM.fail (if result.message ≠ "" then result.message else "导入失败")
  else do
  saveSyncState env [("lastETag", some (orElse r.etag (.str ""))),
    ("lastSyncAt", some (.num now)), ("status", some (.str "ok"))]
  updateSyncStatusUI env
  pure (.obj [("updated", .bool true)])

/-- The part of `pullOverrideLocal()` after the configuration check; `now` is
the reading of `nowTs()`, and `orc` feeds the import. The notification
`showToast` is not part of the model. -/
def pullConfigured {σ : Type} (env : SyncEnv σ) (pat : JVal) (gistId lastETag : Option JVal)
    (now : Int) (orc : Nat → Oracle) : SyncM σ JVal := do
  saveSyncState env [("status", some (.str "syncing")), ("lastError", some (.str ""))]
  updateSyncStatusUI env
  let r ← fetchRemote env pat (gistId.getD .null) lastETag
  if r.status = 304 then do
    saveSyncState env [("status", some (.str "ok")), ("lastSyncAt", some (.num now))]
    updateSyncStatusUI env
    pure (.obj [("updated", .bool false)])
  else applyRemote env r now orc

/-- Function `pullOverrideLocal()`. -/
def pullOverrideLocal {σ : Type} (env : SyncEnv σ) (now : Int) (orc : Nat → Oracle) :
    SyncM σ JVal := do
  let st ← SyncM.readStore
  let pat := getPat st
  let state ← getSyncState env
  let gistId ← SyncM.ofExcept (getProp (some state) "gistId")
  let lastETag ← SyncM.ofExcept (getProp (some state) "lastETag")
  if !truthy (some pat) || !truthy gistId then SyncM.fail "请先配置 Token 与 Gist ID"
  else pullConfigured env pat gistId lastETag now orc

/-- The part of `pushOverrideRemote()` after the configuration check;
`exportNow` and `updatedAt` are the clock readings inside `buildPayload()`, `now`
the one of the last `nowTs()`. -/
def pushConfigured {σ : Type} (env : SyncEnv σ) (pat : JVal) (gistId : Option JVal)
    (exportNow updatedAt now : Int) : SyncM σ JVal := do
  saveSyncState env [("status", some (.str "syncing")), ("lastError", some (.str ""))]
  updateSyncStatusUI env
  let payload ← buildPayload env exportNow updatedAt
  let etag ← updateRemote env pat (gistId.getD .null) payload
  saveSyncState env [("lastETag", some (.str etag)), ("lastSyncAt", some (.num now)),
    ("status", some (.str "ok"))]
  updateSyncStatusUI env
  pure (.obj [("pushed", .bool true)])

/-- Function `pushOverrideRemote()`. -/
def pushOverrideRemote {σ : Type} (env : SyncEnv σ) (exportNow updatedAt now : Int) :
    SyncM σ JVal := do
  let st ← SyncM.readStore
  let pat := getPat st
  let state ← getSyncState env
  let gistId ← SyncM.ofExcept (getProp (some state) "gistId")
  if !truthy (some pat) || !truthy gistId then SyncM.fail "请先配置 Token 与 Gist ID"
  else pushConfigured env pat gistId exportNow updatedAt now

/-- Function `createAndBindGist()`: the field `gistId` of the object it returns. -/
def createAndBindGist {σ : Type} (env : SyncEnv σ) (exportNow updatedAt : Int) :
    SyncM σ (Option JVal) := do
  let st ← SyncM.readStore
  let pat := getPat st
  if !truthy (some pat) then SyncM.fail "请先填写 Token" else do
  let created ← createPrivateGist env pat exportNow updatedAt
  saveSyncState env [("gistId", created.1), ("lastETag", some (.str created.2)),
    ("status", some (.str "ok")), ("lastError", some (.str ""))]
  updateSyncStatusUI env
  pure created.1

/-- The expression `String(e.message || e)` for a caught error with the message
`msg`: the message, or, when the message is empty, the text of the error itself,
which for an `Error` without a message is its name. -/
def errorText (msg : String) : String := if msg ≠ "" then msg else "Error"

/-- Function `initOnLoad()`; `now` and `orc` feed the pull. The notification
`showToast` is not part of the model. -/
def initOnLoad {σ : Type} (env : SyncEnv σ) (now : Int) (orc : Nat → Oracle) : SyncM σ Unit := do
  let st ← SyncM.readStore
  let pat := getPat st
  let state ← getSyncState env
  let gistId ← SyncM.ofExcept (getProp (some state) "gistId")
  if !truthy (some pat) || !truthy gistId then pure ()
  else
    SyncM.tryCatch
      (do
        let _ ← pullOverrideLocal env now orc
        pure ())
      (fun e => do
        saveSyncState env [("status", some (.str "error")),
          ("lastError", some (.str (errorText e)))]
        updateSyncStatusUI env)

/-! ## Specification-level vocabulary and sample inputs -/

/-- Whether some element of the persisted collection has the given id. -/
def hasRecordWithId (st : Store) (id : Option JVal) : Bool :=
  match getAllPrompts st with
  | .arr ps => ps.any (fun p =>
      match getProp (some p) "id" with
      | .ok v => strictEq v id
      | .error _ => false)
  | _ => false

/-- The fields of a stored prompt record with one preset tag. -/
def sampleFields (id title content : String) : List (String × JVal) :=
  [("id", .str id), ("title", .str title), ("content", .str content),
    ("tags", .arr [.str "工作"]), ("createTime", .num 5), ("updateTime", .num 6)]

/-- A stored prompt record with one preset tag. -/
def sampleRecord (id title content : String) : JVal := .obj (sampleFields id title content)

/-- A store holding two prompts, `b` in front of `a`. -/
def sampleStore : Store :=
  { Store.empty with data := some (.arr [sampleRecord "b" "B" "y", sampleRecord "a" "A" "x"]) }

/-- The documents the specification calls valid: an object whose `prompts` field is
a non-empty sequence of objects with a non-empty (truthy) title and content. -/
def ValidDocument (data : Option JVal) : Prop :=
  ∃ fs ps, data = some (.obj fs) ∧ lookup "prompts" fs = some (.arr ps) ∧ ps ≠ [] ∧
    ∀ p ∈ ps, ∃ pf, p = .obj pf ∧ truthy (lookup "title" pf) = true ∧
      truthy (lookup "content" pf) = true

/-- The value of `!prompt || !prompt.title || !prompt.content`, computed without
exceptions. -/
def lacksTitleOrContent : JVal → Bool
  | .obj pf => !truthy (lookup "title" pf) || !truthy (lookup "content" pf)
  | _ => true

/-- Whether the record's `tags` field is a sequence that contains `tag`. -/
def carriesTag (tag : JVal) : JVal → Bool
  | .obj fs =>
    match lookup "tags" fs with
    | some (.arr ts) => ts.any (fun y => strictEq (some y) (some tag))
    | _ => false
  | _ => false

/-- Whether the record's title and content are both strings. -/
def isTextRecord : JVal → Bool
  | .obj fs =>
    (match lookup "title" fs with
     | some (.str _) => true
     | _ => false) &&
    (match lookup "content" fs with
     | some (.str _) => true
     | _ => false)
  | _ => false

/-- Whether the lower-cased text of field `k` contains `term` as a substring. -/
def fieldContains (lower : String → String) (term : String) (k : String)
    (fs : List (String × JVal)) : Bool :=
  match lookup k fs with
  | some (.str t) => decide (term.data <:+: (lower t).data)
  | _ => false

/-- Whether the lower-cased title or the lower-cased content of the record contains
`term` as a substring. -/
def titleOrContentContains (lower : String → String) (term : String) : JVal → Bool
  | .obj fs => fieldContains lower term "title" fs || fieldContains lower term "content" fs
  | _ => false

/-- Lower-casing of the ASCII letters, the part of `toLowerCase` used in examples. -/
def asciiLower (s : String) : String := String.mk (s.data.map Char.toLower)

/-- An oracle that answers the same at every position: id suffix `k`, clock 1000. -/
def fixedOracle : Nat → Oracle := fun _ => { idSuffix := "k", createNow := 1000, updateNow := 1000 }

/-- The title of a record. -/
def titleOf : JVal → Option JVal
  | .obj fs => lookup "title" fs
  | _ => none

/-- The (title, content) pair of a record. -/
def pairOf : JVal → Option JVal × Option JVal
  | .obj fs => (lookup "title" fs, lookup "content" fs)
  | _ => (none, none)

/-- The (title, content) pairs of a collection, in order. -/
def titleContentPairs : JVal → List (Option JVal × Option JVal)
  | .arr ps => ps.map pairOf
  | _ => []

/-- The data-model invariant of a stored record: title and content are non-empty,
trimmed strings. -/
def isCleanRecord : JVal → Bool
  | .obj fs =>
    match lookup "title" fs, lookup "content" fs with
    | some (.str t), some (.str c) => t != "" && c != "" && trim t == t && trim c == c
    | _, _ => false
  | _ => false

/-- The ids of a collection, in order. -/
def idList : JVal → List (Option JVal)
  | .arr ps => ps.map (fun p =>
      match p with
      | .obj fs => lookup "id" fs
      | _ => none)
  | _ => []

/-- A store holding two prompts with the same title, as two `addPrompt` calls with
that title leave it. -/
def sameTitleStore : Store :=
  { Store.empty with data := some (.arr [sampleRecord "b" "A" "y", sampleRecord "a" "A" "x"]) }

/-- An import document whose two records carry the same id and different titles. -/
def sameIdDocument : JVal :=
  .obj [("prompts", .arr [
    .obj [("id", .str "x"), ("title", .str "A"), ("content", .str "c")],
    .obj [("id", .str "x"), ("title", .str "B"), ("content", .str "d")]])]

/-- An `addPrompt` input whose title is whitespace only. -/
def blankTitleInput : JVal := .obj [("title", .str "   "), ("content", .str "x")]

/-- A valid `addPrompt` input. -/
def plainInput : JVal := .obj [("title", .str " T "), ("content", .str "C")]

/-- A patch that changes the title only. -/
def samplePatch : JVal := .obj [("title", .str " T2 ")]

/-- The record `r` comes from a valid incoming record of `incoming` (string title
and content, both non-empty) that duplicates no record of `old`, neither by id nor
by title; its title and content are the trimmed incoming ones. -/
def AddedFrom (old incoming : List JVal) (r : JVal) : Prop :=
  ∃ d ∈ incoming, ∃ (t c : String) (id : Option JVal),
    getProp (some d) "title" = .ok (some (.str t)) ∧ t ≠ "" ∧
    getProp (some d) "content" = .ok (some (.str c)) ∧ c ≠ "" ∧
    getProp (some d) "id" = .ok id ∧
    getProp (some r) "title" = .ok (some (.str (trim t))) ∧
    getProp (some r) "content" = .ok (some (.str (trim c))) ∧
    (∀ p ∈ old, ∃ v, getProp (some p) "id" = .ok v ∧ strictEq v id = false) ∧
    (∀ p ∈ old, ∃ v, getProp (some p) "title" = .ok v ∧ strictEq v (some (.str t)) = false)

/-- An import document with a record whose title is already stored, a record
without content and a new record. -/
def mergeDocument : JVal :=
  .obj [("prompts", .arr [
    .obj [("title", .str "A"), ("content", .str "other")],
    .obj [("title", .str "E")],
    .obj [("id", .str "n"), ("title", .str " N "), ("content", .str "c")]])]

/-- An import document whose two records carry the same id and titles that the
sample store does not hold. -/
def repeatedIdDocument : JVal :=
  .obj [("prompts", .arr [
    .obj [("id", .str "x"), ("title", .str "P"), ("content", .str "c")],
    .obj [("id", .str "x"), ("title", .str "Q"), ("content", .str "d")]])]

/-- The records the import loop accepts, in document order, each with the incoming
record it was built from.  `ex` is the working collection when the loop reaches
the first of `ds`, which draws from `orc k`. -/
def acceptedPairs (st : Store) (ids : List (Option JVal)) (orc : Nat → Oracle) :
    Nat → List JVal → List JVal → List (JVal × JVal)
  | _, _, [] => []
  | k, ex, d :: ds =>
    match importOneBody st ids ex (orc k) d with
    | .ok (.accepted r) => (d, r) :: acceptedPairs st ids orc (k + 1) (r :: ex) ds
    | _ => acceptedPairs st ids orc (k + 1) ex ds

/-- The stored records that an import adds, in the order in which they were
accepted. -/
def acceptedRecords (st : Store) (ids : List (Option JVal)) (orc : Nat → Oracle)
    (k : Nat) (ex ds : List JVal) : List JVal :=
  (acceptedPairs st ids orc k ex ds).map Prod.snd

/-- The document of the import scenario: one record with a title and a content. -/
def singleRecordDocument : JVal :=
  .obj [("prompts", .arr [.obj [("title", .str "X"), ("content", .str "Y")]])]

/-- A browser that accepts every write except a write of the prompt collection. -/
def Quota.noData : Quota := fun _ k _ => k != .data

/-- The stored record `r` is the record `p` as an import keeps it: the same title,
the same content, and the same id when `p` has one. -/
def KeptAs (p r : JVal) : Prop :=
  getProp (some r) "title" = getProp (some p) "title" ∧
  getProp (some r) "content" = getProp (some p) "content" ∧
  (∀ v, getProp (some p) "id" = .ok v → truthy v = true → getProp (some r) "id" = .ok v)

/-- The incoming record `e` is the export of the stored record `p`: both are
objects and agree on every field but `tags`. -/
def ExportOf (p e : JVal) : Prop :=
  ∃ fs ef, p = .obj fs ∧ e = .obj ef ∧ ∀ k, k ≠ "tags" → lookup k ef = lookup k fs

/-- The tags of the incoming record `d` that the preset list `pt` contains, in
order; the empty list when the `tags` field of `d` is not a sequence. -/
def presetFiltered (pt : List JVal) (d : JVal) : List JVal :=
  match d with
  | .obj df =>
    match lookup "tags" df with
    | some (.arr ts) => ts.filter (fun t => pt.any (fun y => strictEq (some y) (some t)))
    | _ => []
  | _ => []

/-- An import document that brings its own settings: the preset list `zzz`, and a
record tagged with `zzz` and with a default tag. -/
def ownSettingsDocument : JVal :=
  .obj [("prompts", .arr [.obj [("title", .str "X"), ("content", .str "Y"),
      ("tags", .arr [.str "zzz", .str "工作"])]]),
    ("settings", .obj [("presetTags", .arr [.str "zzz"])])]

/-- The entries of a sequence that are non-blank strings, in order: a string is
blank when only white space is left of it (the empty string is blank). -/
def nonBlankStrings : List JVal → List String
  | [] => []
  | .str s :: xs => if trim s = "" then nonBlankStrings xs else s :: nonBlankStrings xs
  | _ :: xs => nonBlankStrings xs

/-- Remove the duplicates of a list of strings, keeping the first occurrence of
each in its original place. -/
def firstOccurrences : List String → List String
  | [] => []
  | x :: xs => x :: (firstOccurrences xs).filter (fun y => y != x)

/-- The preset list a successful `saveSettings` is to persist for the supplied
`presetTags` value. -/
def expectedPresetTags (supplied : Option JVal) : JVal :=
  match supplied with
  | some (.arr tags) => .arr ((firstOccurrences (nonBlankStrings tags)).map JVal.str)
  | _ => defaultPresetTags

/-- A settings object with blank, repeated and non-string tags and an extra key. -/
def untidySettings : JVal :=
  .obj [("presetTags", .arr [.str "b", .str " ", .str "a", .num 3, .str "b", .str "", .str "a ",
    .str "a"]), ("theme", .str "dark")]

/-- The invariant on one record: `createTime` and `updateTime` are numbers and
`updateTime >= createTime`. -/
def timeOrdered (r : JVal) : Bool :=
  match r with
  | .obj fs =>
    match lookup "createTime" fs, lookup "updateTime" fs with
    | some (.num c), some (.num u) => decide (c ≤ u)
    | _, _ => false
  | _ => false

/-- The invariant on the persisted collection: it is a sequence, and every record
of it is `timeOrdered`. -/
def timesOrdered (st : Store) : Bool :=
  match getAllPrompts st with
  | .arr ps => ps.all timeOrdered
  | _ => false

/-- The record `p` was created no later than the clock reading `now`. -/
def createdBy (now : Int) (p : JVal) : Bool :=
  match p with
  | .obj fs =>
    match lookup "createTime" fs with
    | some (.num c) => decide (c ≤ now)
    | _ => false
  | _ => false

/-- The `createTime` that the incoming record `d` supplies, if it supplies a truthy
one, is a number no later than the clock reading `now`. -/
def suppliedCreateTimeBy (now : Int) (d : JVal) : Bool :=
  match d with
  | .obj fs =>
    match lookup "createTime" fs with
    | some (.num c) => c == 0 || decide (c ≤ now)
    | v => !truthy v
  | _ => true

/-- An import document whose record supplies a `createTime` later than the clock
of `fixedOracle`. -/
def futureDocument : JVal :=
  .obj [("prompts", .arr [.obj [("title", .str "X"), ("content", .str "Y"),
    ("createTime", .num 5000)]])]

/-- Modelled from the spec: the remote document store of the abstract transport
contract (section 4.4), which is an external service and not code of the
repository. It keeps one document: its id, its content (the payload last
written) and a revision counter. -/
structure Remote where
  docId : String
  payload : JVal
  rev : Nat

/-- Modelled from the spec: the revision tag of the current content. -/
def Remote.tag (r : Remote) : String := "rev" ++ toString r.rev

/-- Modelled from the spec: the three operations of the abstract transport
contract, with no other writer. (a) Create-document stores the payload under a new
id and returns the id and a revision tag. (b) Conditional get-by-id answers "not
modified" (status 304, no body) when the request carries the current revision
tag, and the full content with the revision tag otherwise. (c) Replace-by-id
stores the payload as the new content and returns a fresh revision tag. A request
without a credential is refused, one for another id is not found. The text of a
payload is `render payload`. -/
def contractFetch (render : JVal → String) (r : Remote) (req : Request) :
    Except String Response × Remote :=
  if req.authorization = none then
    (.ok { status := 401, statusText := "Unauthorized", etag := none, text := .ok "",
           json := .error "no body" }, r)
  else if req.method = "POST" then
    let r1 : Remote :=
      { docId := "doc" ++ toString (r.rev + 1), payload := req.payload.getD .null,
        rev := r.rev + 1 }
    (.ok { status := 201, statusText := "Created", etag := some r1.tag, text := .ok "",
           json := .ok (.obj [("id", .str r1.docId)]) }, r1)
  else if req.url ≠ gistUrl (.str r.docId) then
    (.ok { status := 404, statusText := "Not Found", etag := none, text := .ok "",
           json := .error "no body" }, r)
  else if req.method = "PATCH" then
    let r1 : Remote := { r with payload := req.payload.getD .null, rev := r.rev + 1 }
    (.ok { status := 200, statusText := "OK", etag := some r1.tag, text := .ok "",
           json := .ok (.obj [("id", .str r1.docId)]) }, r1)
  else if req.ifNoneMatch = some r.tag then
    (.ok { status := 304, statusText := "Not Modified", etag := some r.tag, text := .ok "",
           json := .error "no body" }, r)
  else
    (.ok { status := 200, statusText := "OK", etag := some r.tag, text := .ok "",
           json := .ok (.obj [("files", .obj [("data.json",
             .obj [("content", .str (render r.payload))])])]) }, r)

/-- Surroundings for the examples: every write is accepted, the n-th device id
ends in `d` and `n`, no text is parsed, and the outside world is the contract
store. -/
def sampleEnv : SyncEnv Remote :=
  { quota := Quota.unlimited, deviceSuffix := fun n => "d" ++ toString n,
    parse := fun _ => none, fetch := contractFetch (fun _ => "") }

/-- The sample store with the credential `tok`, bound to the document `g1`. -/
def boundStore : Store :=
  { sampleStore with pat := some (.str "tok"), syncState := some (.obj [("gistId", .str "g1")]) }

/-- The sample store with the credential `tok` and no sync state. -/
def unboundStore : Store := { sampleStore with pat := some (.str "tok") }

/-- A world with the given store, the contract store holding the document `g1`,
and no request issued yet. -/
def sampleWorld (st : Store) : World Remote :=
  { store := st, remote := { docId := "g1", payload := .null, rev := 0 }, generated := 0,
    sent := [] }

/-- The persisted sync status as `getSyncState` reads it, for a store whose sync
state is an object or absent. -/
def persistedStatus (st : Store) : JVal :=
  match readLocal st .syncState (.obj []) with
  | .obj fs => orElse (lookup "status" fs) (.str "idle")
  | _ => .str "idle"

/-- The object `getSyncState()` returns for the stored fields `fs`, once the
device id is known. -/
def viewOf (fs : List (String × JVal)) (deviceId : JVal) : List (String × JVal) :=
  [("gistId", orElse (lookup "gistId" fs) (.str "")),
   ("lastETag", orElse (lookup "lastETag" fs) (.str "")),
   ("lastSyncAt", orElse (lookup "lastSyncAt" fs) (.num 0)),
   ("deviceId", deviceId),
   ("status", orElse (lookup "status" fs) (.str "idle")),
   ("lastError", orElse (lookup "lastError" fs) (.str ""))]

/-- The world `w` with another content of `localStorage`. -/
def World.withStore {σ : Type} (w : World σ) (st : Store) : World σ := { w with store := st }

/-- A sync state that `getSyncState()` reads without writing: an object with a
device id. -/
def Settled (st : Store) (fs : List (String × JVal)) : Prop :=
  st.syncState = some (.obj fs) ∧ truthy (lookup "deviceId" fs) = true

/-- The worlds `w` and `w1` differ at most in the sync state and in the count of
generated device ids. -/
def SameOutside {σ : Type} (w w1 : World σ) : Prop :=
  w1.store.data = w.store.data ∧ w1.store.settings = w.store.settings ∧
  w1.store.pat = w.store.pat ∧ w1.remote = w.remote ∧ w1.sent = w.sent

/-- The fields of a settled sync state after the patch
`{ status: 'syncing', lastError: '' }`. -/
def syncingFields (fs : List (String × JVal)) (dev : JVal) : List (String × JVal) :=
  [("gistId", orElse (lookup "gistId" fs) (.str "")),
   ("lastETag", orElse (lookup "lastETag" fs) (.str "")),
   ("lastSyncAt", orElse (lookup "lastSyncAt" fs) (.num 0)),
   ("deviceId", dev), ("status", .str "syncing"), ("lastError", .str "")]

/-- The sample store with the credential `tok`, bound to the document `g1` and
holding the revision tag `rev0` of an earlier sync that ended in an error. -/
def syncedStore : Store :=
  { sampleStore with
    pat := some (.str "tok"),
    syncState := some (.obj [("gistId", .str "g1"), ("lastETag", .str "rev0"),
      ("lastSyncAt", .num 3), ("status", .str "error"), ("lastError", .str "old")]) }

/-- The request methods issued so far, oldest first, each with the sync status
persisted when the request was issued. -/
def sentStatuses {σ : Type} (w : World σ) : List (String × JVal) :=
  w.sent.reverse.map (fun x => (x.1.method, persistedStatus x.2))

/-- The payload `buildPayload()` makes on a store whose device id is `d`. -/
def payloadOf (st : Store) (d : JVal) (exportNow updatedAt : Int) : JVal :=
  .obj [("version", .num 1), ("updatedAt", .num updatedAt), ("deviceId", d),
    ("data", exportData st exportNow)]

/-- The world `w` after a local edit that leaves the prompt collection `data` and
the settings `settings`. -/
def World.edited {σ : Type} (w : World σ) (data settings : Option JVal) : World σ :=
  { w with store := { w.store with data := data, settings := settings } }

/-- The field `prompts` of the export document inside a payload. -/
def pushedPrompts (payload : JVal) : Option JVal :=
  match payload with
  | .obj fs =>
    match lookup "data" fs with
    | some (.obj doc) => lookup "prompts" doc
    | _ => none
  | _ => none

/-- An import document whose two records have titles that differ only by a
trailing blank. -/
def paddedTitleDocument : JVal :=
  .obj [("prompts", .arr [
    .obj [("title", .str "A"), ("content", .str "x")],
    .obj [("title", .str "A "), ("content", .str "y")]])]

/-- The titles of a collection, in order. -/
def titleList : JVal → List (Option JVal)
  | .arr ps => ps.map titleOf
  | _ => []

/-- The titles of the collection are pairwise different values. -/
def TitlesDistinct (ps : List JVal) : Prop := (ps.map titleOf).Nodup

/-- The world `w` with another value, or none, under the credential key. -/
def World.withPat {σ : Type} (w : World σ) (pat : Option JVal) : World σ :=
  { w with store := { w.store with pat := pat } }

/-- The fields of an object, none for any other value. -/
def fieldsOf : JVal → List (String × JVal)
  | .obj fs => fs
  | _ => []

/-- The fields of the stored sync state, none when it is absent or not an object. -/
def storedFields (st : Store) : List (String × JVal) :=
  fieldsOf (readLocal st .syncState (.obj []))

/-- Both a credential and a bound gist id are stored. -/
def Configured (st : Store) : Bool :=
  truthy (some (getPat st)) && truthy (lookup "gistId" (storedFields st))

/-- The sample store with the credential `tok`, bound to a document `zz` that the
contract store of the examples does not hold. -/
def lostStore : Store :=
  { sampleStore with pat := some (.str "tok"), syncState := some (.obj [("gistId", .str "zz")]) }

/-- The stored sync state is not the JSON value `null`. -/
def Readable (st : Store) : Prop := st.syncState ≠ some .null

/-- The stored sync state is an object. -/
def HoldsObject (st : Store) : Prop := ∃ fs, st.syncState = some (.obj fs)

/-- From `w` to `w1` the sync state stays readable and stays an object if it was
one, the credential is the same, and no request was taken off the record. -/
def Advances {σ : Type} (w w1 : World σ) : Prop :=
  (Readable w.store → Readable w1.store) ∧
  (HoldsObject w.store → HoldsObject w1.store) ∧
  w1.store.pat = w.store.pat ∧
  w.sent.length ≤ w1.sent.length

/-- Every run of `x` advances the world, whether it returns or throws. -/
def Advancing {σ α : Type} (x : SyncM σ α) : Prop := ∀ w, Advances w (x w).2

/-- Every run of `x` issues at least one request. -/
def Sending {σ α : Type} (x : SyncM σ α) : Prop :=
  ∀ w, Advances w (x w).2 ∧ w.sent.length < (x w).2.sent.length

/-! ## Theorems -/

/-! ### Unknown ids (C5) -/

theorem findIndexById_absent (id : Option JVal) (ps : List JVal)
    (h : ps.any (fun p => match getProp (some p) "id" with
      | .ok v => strictEq v id
      | .error _ => false) = false) :
    (∃ e, findIndexById id ps = .error e) ∨ findIndexById id ps = .ok none := by
  induction ps with
  | nil => right; rfl
  | cons p ps ih =>
    simp only [List.any_cons, Bool.or_eq_false_iff] at h
    obtain ⟨hp, hps⟩ := h
    cases hg : getProp (some p) "id" with
    | error e => left; exact ⟨e, by simp [findIndexById, hg, bind, Except.bind]⟩
    | ok v =>
      rw [hg] at hp
      simp only at hp
      rcases ih hps with ⟨e, he⟩ | hn
      · left; exact ⟨e, by simp [findIndexById, hg, bind, Except.bind, hp, he]⟩
      · right; simp [findIndexById, hg, bind, Except.bind, hp, hn, pure, Except.pure]

theorem filterNotId_absent (id : Option JVal) (ps : List JVal)
    (h : ps.any (fun p => match getProp (some p) "id" with
      | .ok v => strictEq v id
      | .error _ => false) = false) :
    (∃ e, filterNotId id ps = .error e) ∨ filterNotId id ps = .ok ps := by
  induction ps with
  | nil => right; rfl
  | cons p ps ih =>
    simp only [List.any_cons, Bool.or_eq_false_iff] at h
    obtain ⟨hp, hps⟩ := h
    cases hg : getProp (some p) "id" with
    | error e => left; exact ⟨e, by simp [filterNotId, hg, bind, Except.bind]⟩
    | ok v =>
      rw [hg] at hp
      simp only at hp
      rcases ih hps with ⟨e, he⟩ | hn
      · left; exact ⟨e, by simp [filterNotId, hg, bind, Except.bind, he]⟩
      · right; simp [filterNotId, hg, bind, Except.bind, hp, hn, pure, Except.pure]

theorem updatePrompt_absent (q : Quota) (st : Store) (id updateData : Option JVal) (now : Int)
    (h : hasRecordWithId st id = false) : updatePrompt q st id updateData now = (.null, st) := by
  unfold updatePrompt updatePromptBody
  cases hps : getAllPrompts st with
  | arr ps =>
    simp only [hasRecordWithId, hps] at h
    rcases findIndexById_absent id ps h with ⟨e, he⟩ | hn
    · simp [arrayItems, bind, Except.bind, he]
    · simp [arrayItems, bind, Except.bind, hn, throw, throwThe, MonadExceptOf.throw]
  | _ => simp [arrayItems, bind, Except.bind]

theorem deletePrompt_absent (q : Quota) (st : Store) (id : Option JVal)
    (h : hasRecordWithId st id = false) : deletePrompt q st id = (false, st) := by
  unfold deletePrompt deletePromptBody
  cases hps : getAllPrompts st with
  | arr ps =>
    simp only [hasRecordWithId, hps] at h
    rcases filterNotId_absent id ps h with ⟨e, he⟩ | hn
    · simp [arrayItems, bind, Except.bind, he]
    · simp [arrayItems, bind, Except.bind, hn, throw, throwThe, MonadExceptOf.throw]
  | _ => simp [arrayItems, bind, Except.bind]

/-- C5: for an id that no record of the persisted collection carries,
`updatePrompt` returns `null`, `deletePrompt` returns `false`, and both leave the
store exactly as it was.  This holds for every store content, every patch and
every behaviour of the browser's quota. -/
theorem C5_update_delete_unknown_id (q : Quota) (st : Store) (id updateData : Option JVal)
    (now : Int) (h : hasRecordWithId st id = false) :
    updatePrompt q st id updateData now = (.null, st) ∧ deletePrompt q st id = (false, st) :=
  ⟨updatePrompt_absent q st id updateData now h, deletePrompt_absent q st id h⟩

/-- C5 at the sample store: no record has id `zzz`, so updating or deleting it
fails and changes nothing. -/
theorem C5_update_delete_unknown_id_witness :
    hasRecordWithId sampleStore (some (.str "zzz")) = false ∧
    updatePrompt Quota.unlimited sampleStore (some (.str "zzz"))
      (some (.obj [("title", .str "T")])) 9 = (.null, sampleStore) ∧
    deletePrompt Quota.unlimited sampleStore (some (.str "zzz")) = (false, sampleStore) :=
  ⟨by decide, C5_update_delete_unknown_id _ _ _ _ _ (by decide)⟩

/-! ### Validation of import documents (C10) -/

theorem filterE_pure (f : JVal → Except String Bool) (g : JVal → Bool) (ps : List JVal)
    (h : ∀ p ∈ ps, f p = .ok (g p)) : filterE f ps = .ok (ps.filter g) := by
  induction ps with
  | nil => rfl
  | cons p ps ih =>
    have hp := h p (List.mem_cons_self _ _)
    have ih' := ih (fun x hx => h x (List.mem_cons_of_mem _ hx))
    simp only [filterE, hp, ih', bind, Except.bind, pure, Except.pure, List.filter_cons]

theorem isInvalidPrompt_eq (p : JVal) : isInvalidPrompt p = .ok (lacksTitleOrContent p) := by
  cases p with
  | obj pf =>
    have ht : truthy (some (JVal.obj pf)) = true := rfl
    simp only [isInvalidPrompt, ht, getProp, lacksTitleOrContent, bind, Except.bind, pure,
      Except.pure]
    cases truthy (lookup "title" pf) <;> cases truthy (lookup "content" pf) <;> simp
  | null => simp [isInvalidPrompt, truthy, lacksTitleOrContent, pure, Except.pure]
  | bool b =>
    cases b <;> simp [isInvalidPrompt, truthy, getProp, lacksTitleOrContent, bind, Except.bind,
      pure, Except.pure]
  | num n =>
    by_cases hn : n = 0 <;> simp [isInvalidPrompt, truthy, getProp, lacksTitleOrContent, bind,
      Except.bind, pure, Except.pure, hn]
  | str s =>
    by_cases hs : s = "" <;> simp [isInvalidPrompt, truthy, getProp, lacksTitleOrContent, bind,
      Except.bind, pure, Except.pure, hs]
  | arr xs =>
    simp [isInvalidPrompt, truthy, getProp, lacksTitleOrContent, bind, Except.bind, pure,
      Except.pure]

theorem lacksTitleOrContent_false (p : JVal) :
    lacksTitleOrContent p = false ↔
      ∃ pf, p = .obj pf ∧ truthy (lookup "title" pf) = true ∧ truthy (lookup "content" pf) = true := by
  cases p <;> simp [lacksTitleOrContent]

theorem validateImportDataBody_eq (data : Option JVal) :
    validateImportDataBody data = .ok
      (match data with
       | some (.obj fs) =>
         match lookup "prompts" fs with
         | some (.arr ps) =>
           if ps.length = 0 then { valid := false, message := "没有可导入的提示词" }
           else if (ps.filter lacksTitleOrContent).length > 0 then
             { valid := false,
               message := "发现" ++ toString (ps.filter lacksTitleOrContent).length ++
                 "个无效的提示词（缺少标题或内容）" }
           else { valid := true, message := "数据格式有效" }
         | _ => { valid := false, message := "缺少有效的提示词数据" }
       | some (.arr _) => { valid := false, message := "缺少有效的提示词数据" }
       | _ => { valid := false, message := "数据格式无效" }) := by
  unfold validateImportDataBody
  rcases data with _ | d
  · simp [truthy, pure, Except.pure]
  · cases d with
    | obj fs =>
      simp only [truthy, typeofObject, getProp, bind, Except.bind, pure, Except.pure]
      rcases hl : lookup "prompts" fs with _ | v
      · simp
      · cases v with
        | arr ps =>
          simp only [filterE_pure isInvalidPrompt lacksTitleOrContent ps
            (fun p _ => isInvalidPrompt_eq p)]
          by_cases h0 : ps.length = 0
          · simp [h0]
          · by_cases h1 : (ps.filter lacksTitleOrContent).length > 0 <;> simp [h0, h1]
        | _ => simp
    | arr xs => simp [truthy, typeofObject, getProp, bind, Except.bind, pure, Except.pure]
    | null => simp [truthy, pure, Except.pure]
    | bool b => cases b <;> simp [truthy, typeofObject, pure, Except.pure]
    | num n => by_cases hn : n = 0 <;> simp [truthy, typeofObject, pure, Except.pure, hn]
    | str s => by_cases hs : s = "" <;> simp [truthy, typeofObject, pure, Except.pure, hs]

/-- C10: `validateImportData(doc)` answers `valid = true` exactly when `doc` is an
object whose `prompts` field is a non-empty sequence of objects that each have a
non-empty title and a non-empty content (non-empty in the sense of the source's
`!x` test: for a string, not the empty string).  For every input the `try` block
itself ends normally with a result object, so the `catch` is never reached; the
function takes and returns no storage. -/
theorem C10_validateImportData (data : Option JVal) :
    ((validateImportData data).valid = true ↔ ValidDocument data) ∧
    (∃ r, validateImportDataBody data = .ok r) := by
  refine ⟨?_, _, validateImportDataBody_eq data⟩
  unfold validateImportData
  rw [validateImportDataBody_eq]
  unfold ValidDocument
  rcases data with _ | d
  · simp
  · cases d with
    | obj fs =>
      rcases hl : lookup "prompts" fs with _ | v
      · simp [hl]
      · cases v with
        | arr ps =>
          simp only [Option.some.injEq, JVal.obj.injEq, JVal.arr.injEq, hl]
          constructor
          · intro h
            by_cases h0 : ps.length = 0
            · simp [h0] at h
            · by_cases h1 : (ps.filter lacksTitleOrContent).length > 0
              · simp [h0, h1] at h
              · refine ⟨fs, ps, rfl, hl, ?_, ?_⟩
                · intro hnil; exact h0 (by simp [hnil])
                · intro p hp
                  apply (lacksTitleOrContent_false p).1
                  by_contra hc
                  apply h1
                  apply List.length_pos_of_mem (a := p)
                  simp [List.mem_filter, hp, hc]
          · rintro ⟨fs', ps', rfl, hl', hne, hall⟩
            rw [hl] at hl'
            simp only [Option.some.injEq, JVal.arr.injEq] at hl'
            subst hl'
            have h0 : ¬ ps.length = 0 := by
              intro h; exact hne (List.length_eq_zero.1 h)
            have h1 : ¬ (ps.filter lacksTitleOrContent).length > 0 := by
              intro h
              obtain ⟨p, hp⟩ := List.exists_mem_of_length_pos h
              rw [List.mem_filter] at hp
              have := (lacksTitleOrContent_false p).2 (hall p hp.1)
              rw [this] at hp
              exact absurd hp.2 (by simp)
            simp [h0, h1]
        | _ => simp [hl]
    | _ => simp

/-! ### Filtering by tag (C9) -/

theorem hasTag_eq (tag p : JVal) (hp : p ≠ .null) : hasTag tag p = .ok (carriesTag tag p) := by
  cases p with
  | null => exact absurd rfl hp
  | obj fs =>
    simp only [hasTag, getProp, carriesTag, bind, Except.bind]
    rcases hl : lookup "tags" fs with _ | v
    · simp [isArray, pure, Except.pure]
    · cases v <;> simp [isArray, jsIncludes, pure, Except.pure]
  | _ => simp [hasTag, getProp, carriesTag, bind, Except.bind, isArray, pure, Except.pure]

theorem any_strictEq_str (s : String) (ts : List JVal) :
    ts.any (fun y => strictEq (some y) (some (.str s))) = true ↔ JVal.str s ∈ ts := by
  induction ts with
  | nil => simp
  | cons t ts ih =>
    simp only [List.any_cons, Bool.or_eq_true, ih, List.mem_cons]
    constructor
    · rintro (h | h)
      · left
        cases t <;> simp [strictEq] at h
        rw [h]
      · right; exact h
    · rintro (h | h)
      · left; rw [← h]; simp [strictEq]
      · right; exact h

/-- C9: `filterPromptsByTag(tag)` returns `getAllPrompts()` when `tag` is empty
(falsy: `undefined`, `""`, ...) or `"all"`.  For any other tag, on a collection
that is a sequence of records (no `null` element), it returns the collection
filtered, order preserved, by `carriesTag tag`; and for a string tag a record
passes that filter exactly when its `tags` field is a sequence containing the tag
(a record whose `tags` is not a sequence never passes). -/
theorem C9_filterPromptsByTag (st : Store) :
    (∀ tag : Option JVal, truthy tag = false ∨ tag = some (.str "all") →
      filterPromptsByTag st tag = .ok (getAllPrompts st)) ∧
    (∀ (tag : JVal) (ps : List JVal), truthy (some tag) = true → tag ≠ .str "all" →
      getAllPrompts st = .arr ps → (∀ p ∈ ps, p ≠ .null) →
      filterPromptsByTag st (some tag) = .ok (.arr (ps.filter (carriesTag tag)))) ∧
    (∀ (s : String) (p : JVal), carriesTag (.str s) p = true ↔
      ∃ fs ts, p = .obj fs ∧ lookup "tags" fs = some (.arr ts) ∧ JVal.str s ∈ ts) := by
  refine ⟨?_, ?_, ?_⟩
  · rintro tag (h | h)
    · rcases tag with _ | t
      · rfl
      · simp [filterPromptsByTag, h]
    · subst h
      simp [filterPromptsByTag, strictEq]
  · intro tag ps ht hall hps hnn
    have hne : strictEq (some tag) (some (.str "all")) = false := by
      cases tag <;> simp [strictEq]
      rename_i s
      intro h; exact hall (by rw [h])
    simp only [filterPromptsByTag, ht, hne, hps, arrayItems, bind, Except.bind, pure, Except.pure,
      filterE_pure (hasTag tag) (carriesTag tag) ps (fun p hp => hasTag_eq tag p (hnn p hp))]
    simp
  · intro s p
    cases p with
    | obj fs =>
      simp only [carriesTag]
      rcases hl : lookup "tags" fs with _ | v
      · simp [hl]
      · cases v with
        | arr ts =>
          simp only [any_strictEq_str, hl]
          constructor
          · intro h; exact ⟨fs, ts, rfl, hl, h⟩
          · rintro ⟨fs', ts', hfs, hts, h⟩
            cases hfs
            rw [hl] at hts
            cases hts
            exact h
        | _ => simp [hl]
    | _ => simp [carriesTag]

/-- C9 at the sample store: `"all"` returns everything, the tag both records carry
returns both in order, a tag none carries returns the empty sequence. -/
theorem C9_filterPromptsByTag_witness :
    filterPromptsByTag sampleStore (some (.str "all")) = .ok (getAllPrompts sampleStore) ∧
    filterPromptsByTag sampleStore (some (.str "工作")) =
      .ok (.arr [sampleRecord "b" "B" "y", sampleRecord "a" "A" "x"]) ∧
    filterPromptsByTag sampleStore (some (.str "学习")) = .ok (.arr []) :=
  ⟨(C9_filterPromptsByTag sampleStore).1 _ (Or.inr rfl),
   (C9_filterPromptsByTag sampleStore).2.1 (.str "工作") _ rfl (by simp) rfl
     (by simp [sampleRecord, sampleFields]),
   (C9_filterPromptsByTag sampleStore).2.1 (.str "学习") _ rfl (by simp) rfl
     (by simp [sampleRecord, sampleFields])⟩

/-! ### Search (C8) -/

theorem startsWithChars_iff (cs pat : List Char) : startsWithChars cs pat = true ↔ pat <+: cs := by
  induction cs generalizing pat with
  | nil => cases pat <;> simp [startsWithChars]
  | cons c cs ih =>
    cases pat with
    | nil => simp [startsWithChars]
    | cons p ps =>
      rw [List.cons_prefix_cons]
      simp only [startsWithChars, Bool.and_eq_true, beq_iff_eq, ih]
      constructor <;> rintro ⟨h1, h2⟩ <;> exact ⟨h1.symm, h2⟩

theorem includesChars_iff (cs pat : List Char) : includesChars cs pat = true ↔ pat <:+: cs := by
  induction cs with
  | nil => cases pat <;> simp [includesChars, startsWithChars]
  | cons c cs ih =>
    simp [includesChars, startsWithChars_iff, ih, List.infix_cons_iff]

theorem strIncludes_eq (s pat : String) : strIncludes s pat = decide (pat.data <:+: s.data) := by
  unfold strIncludes
  by_cases h : pat.data <:+: s.data
  · simp [h, (includesChars_iff _ _).2 h]
  · have : includesChars s.data pat.data = false := by
      cases hc : includesChars s.data pat.data
      · rfl
      · exact absurd ((includesChars_iff _ _).1 hc) h
    simp [h, this]

theorem trim_empty : trim "" = "" := rfl

theorem searchMatches_eq (lower : String → String) (term : String) (p : JVal)
    (hp : isTextRecord p = true) :
    searchMatches lower term p = .ok (titleOrContentContains lower term p) := by
  cases p with
  | obj fs =>
    simp only [isTextRecord, Bool.and_eq_true] at hp
    obtain ⟨h1, h2⟩ := hp
    rcases ht : lookup "title" fs with _ | vt
    · simp [ht] at h1
    rcases hc : lookup "content" fs with _ | vc
    · simp [hc] at h2
    cases vt <;> simp [ht] at h1
    cases vc <;> simp [hc] at h2
    rename_i t c
    simp only [searchMatches, getProp, jsLower, ht, hc, titleOrContentContains, fieldContains,
      bind, Except.bind, pure, Except.pure, strIncludes_eq]
    by_cases hin : term.data <:+: (lower t).data <;> simp [hin]
  | _ => simp [isTextRecord] at hp

theorem isTrimChar_toLower (c : Char) : isTrimChar c.toLower = isTrimChar c := by
  unfold Char.toLower
  by_cases h : c.toNat ≥ 65 ∧ c.toNat ≤ 90
  · have hc : isTrimChar c = false := by
      simp only [isTrimChar, Bool.or_eq_false_iff, decide_eq_false_iff_not, Bool.and_eq_false_imp,
        decide_eq_true_eq]
      omega
    simp only [h, and_self, ↓reduceIte, hc]
    obtain ⟨h1, h2⟩ := h
    generalize c.toNat = n at h1 h2
    interval_cases n <;> decide
  · simp [h]

theorem trimStartChars_map_toLower (cs : List Char) :
    trimStartChars (cs.map Char.toLower) = (trimStartChars cs).map Char.toLower := by
  induction cs with
  | nil => rfl
  | cons c cs ih =>
    simp only [List.map_cons, trimStartChars, isTrimChar_toLower]
    by_cases h : isTrimChar c = true <;> simp [h, ih]

theorem trimChars_map_toLower (cs : List Char) :
    trimChars (cs.map Char.toLower) = (trimChars cs).map Char.toLower := by
  simp [trimChars, trimStartChars_map_toLower, ← List.map_reverse]

theorem asciiLower_blank (s : String) : trim (asciiLower s) = "" ↔ trim s = "" := by
  rw [String.ext_iff, String.ext_iff]
  show trimChars (s.data.map Char.toLower) = [] ↔ trimChars s.data = []
  rw [trimChars_map_toLower]
  exact List.map_eq_nil_iff

/-- C8: `searchPrompts(keyword)`, for any lower-casing function that keeps blank
strings blank and non-blank strings non-blank.
(1) It returns `getAllPrompts()` when the keyword is `undefined`, not a string,
empty or whitespace only.
(2) Otherwise, on a collection of records with string title and content, it returns
the collection filtered, order preserved, to the records whose lower-cased title
or lower-cased content contains the lower-cased, trimmed keyword as a substring.
(3) With a record titled "B" in front of a record titled "A", `search("a")` returns
the one record titled "A", as long as the content of "B" does not contain the
letter. -/
theorem C8_searchPrompts (lower : String → String)
    (hlower : ∀ s, trim (lower s) = "" ↔ trim s = "") (st : Store) :
    (∀ keyword : Option JVal, (∀ s, keyword = some (.str s) → trim s = "") →
      searchPrompts lower st keyword = .ok (getAllPrompts st)) ∧
    (∀ (s : String) (ps : List JVal), trim s ≠ "" → getAllPrompts st = .arr ps →
      (∀ p ∈ ps, isTextRecord p = true) →
      searchPrompts lower st (some (.str s)) =
        .ok (.arr (ps.filter (titleOrContentContains lower (trim (lower s)))))) ∧
    (∀ (fA fB : List (String × JVal)) (cA cB : String),
      lookup "title" fA = some (.str "A") → lookup "content" fA = some (.str cA) →
      lookup "title" fB = some (.str "B") → lookup "content" fB = some (.str cB) →
      lower "a" = "a" → lower "A" = "a" → lower "B" = "b" →
      ¬ ("a".data <:+: (lower cB).data) →
      getAllPrompts st = .arr [.obj fB, .obj fA] →
      searchPrompts lower st (some (.str "a")) = .ok (.arr [.obj fA])) := by
  have main : ∀ (s : String) (ps : List JVal), trim s ≠ "" → getAllPrompts st = .arr ps →
      (∀ p ∈ ps, isTextRecord p = true) →
      searchPrompts lower st (some (.str s)) =
        .ok (.arr (ps.filter (titleOrContentContains lower (trim (lower s))))) := by
    intro s ps hs hps hall
    have hne : s ≠ "" := by
      intro h; apply hs; rw [h]; rfl
    have hl : trim (lower s) ≠ "" := fun h => hs ((hlower s).1 h)
    simp only [searchPrompts, truthy, bne_iff_ne, ne_eq, hne, not_false_eq_true, decide_True,
      Bool.not_true, Bool.false_eq_true, ↓reduceIte, hl, hps, arrayItems, bind, Except.bind, pure,
      Except.pure,
      filterE_pure _ _ ps (fun p hp => searchMatches_eq lower (trim (lower s)) p (hall p hp))]
    simp [hne]
  refine ⟨?_, main, ?_⟩
  · intro keyword hk
    rcases keyword with _ | v
    · rfl
    · cases v with
      | str s =>
        have hs := hk s rfl
        by_cases hne : s = ""
        · simp [searchPrompts, truthy, hne]
        · simp [searchPrompts, truthy, hne, (hlower s).2 hs]
      | _ => rfl
  · intro fA fB cA cB htA hcA htB hcB hla hlA hlB hcB' hps
    have ha : trim "a" ≠ "" := by decide
    have hta : trim "a" = "a" := by decide
    rw [main "a" _ ha hps]
    · have hB : titleOrContentContains lower "a" (.obj fB) = false := by
        simp only [titleOrContentContains, fieldContains, htB, hcB, hlB, hcB']
        decide
      have hA : titleOrContentContains lower "a" (.obj fA) = true := by
        simp only [titleOrContentContains, fieldContains, htA, hlA]
        simp
      simp [hla, hta, List.filter_cons, hA, hB]
    · intro p hp
      simp only [List.mem_cons, List.mem_singleton, List.not_mem_nil, or_false] at hp
      rcases hp with rfl | rfl
      · simp [isTextRecord, htB, hcB]
      · simp [isTextRecord, htA, hcA]

/-- C8 at the sample store with ASCII lower-casing: an absent and a blank keyword
return everything, `" Y "` finds the record whose content is `y`, `"a"` finds the
record titled `A`. -/
theorem C8_searchPrompts_witness :
    searchPrompts asciiLower sampleStore none = .ok (getAllPrompts sampleStore) ∧
    searchPrompts asciiLower sampleStore (some (.str "  ")) = .ok (getAllPrompts sampleStore) ∧
    searchPrompts asciiLower sampleStore (some (.str " Y ")) =
      .ok (.arr [sampleRecord "b" "B" "y"]) ∧
    searchPrompts asciiLower sampleStore (some (.str "a")) =
      .ok (.arr [sampleRecord "a" "A" "x"]) :=
  ⟨(C8_searchPrompts asciiLower asciiLower_blank sampleStore).1 none (by simp),
   (C8_searchPrompts asciiLower asciiLower_blank sampleStore).1 (some (.str "  "))
     (by intro s hs; cases hs; decide),
   (C8_searchPrompts asciiLower asciiLower_blank sampleStore).2.1 " Y " _ (by decide) rfl
     (by simp [sampleRecord, sampleFields, isTextRecord, lookup]),
   (C8_searchPrompts asciiLower asciiLower_blank sampleStore).2.2
     (sampleFields "a" "A" "x") (sampleFields "b" "B" "y") "x" "y" rfl rfl rfl rfl
     (by decide) (by decide) (by decide) (by decide) rfl⟩

/-! ### Objects, spreads and index keys -/

theorem toDigitsCore_chars (f n : Nat) (ds : List Char) :
    ∀ c ∈ Nat.toDigitsCore 10 f n ds, c ∈ ds ∨ c.isDigit = true := by
  induction f generalizing n ds with
  | zero => intro c hc; left; simpa [Nat.toDigitsCore] using hc
  | succ f ih =>
    intro c hc
    have hd : (Nat.digitChar (n % 10)).isDigit = true := by
      have : n % 10 < 10 := Nat.mod_lt _ (by decide)
      generalize n % 10 = m at this
      interval_cases m <;> decide
    simp only [Nat.toDigitsCore] at hc
    split at hc
    · rcases List.mem_cons.1 hc with h | h
      · right; rw [h]; exact hd
      · left; exact h
    · rcases ih _ _ c hc with h | h
      · rcases List.mem_cons.1 h with h | h
        · right; rw [h]; exact hd
        · left; exact h
      · right; exact h

theorem toString_nat_digits (i : Nat) : ∀ c ∈ (toString i).data, c.isDigit = true := by
  intro c hc
  have : toString i = (Nat.toDigits 10 i).asString := rfl
  rw [this] at hc
  simp only [List.asString, Nat.toDigits] at hc
  rcases toDigitsCore_chars _ _ _ c hc with h | h
  · simp at h
  · exact h

theorem lookup_indexed (k : String) (hk : ∃ c ∈ k.data, c.isDigit = false) (i : Nat)
    (xs : List JVal) : lookup k (indexed i xs) = none := by
  induction xs generalizing i with
  | nil => rfl
  | cons x xs ih =>
    simp only [indexed, lookup, ih]
    have : toString i ≠ k := by
      intro h
      obtain ⟨c, hc, hd⟩ := hk
      rw [← h] at hc
      rw [toString_nat_digits i c hc] at hd
      exact absurd hd (by simp)
    simp [this]

theorem getProp_eq_lookup_ownEntries (v : JVal) (k : String)
    (hk : ∃ c ∈ k.data, c.isDigit = false) (hv : v ≠ .null) :
    getProp (some v) k = .ok (lookup k (ownEntries (some v))) := by
  cases v with
  | null => exact absurd rfl hv
  | obj fs => rfl
  | arr xs => simp [getProp, ownEntries, lookup_indexed k hk]
  | str s => simp [getProp, ownEntries, lookup_indexed k hk]
  | _ => simp [getProp, ownEntries, lookup]

theorem lookup_append (k : String) (xs ys : List (String × JVal)) :
    lookup k (xs ++ ys) = (lookup k ys).or (lookup k xs) := by
  induction xs with
  | nil => simp [lookup, Option.or_none]
  | cons x xs ih =>
    obtain ⟨k', v⟩ := x
    rw [List.cons_append]
    simp only [lookup]
    rw [ih, Option.or_assoc]

theorem lookup_none_of_not_hasKey (k : String) (fs : List (String × JVal))
    (h : hasKey k fs = false) : lookup k fs = none := by
  induction fs with
  | nil => rfl
  | cons x xs ih =>
    obtain ⟨a, b⟩ := x
    simp only [hasKey, List.any_cons, Bool.or_eq_false_iff, beq_eq_false_iff_ne, ne_eq] at h
    simp [lookup, ih h.2, h.1]

theorem lookup_map_set (k k' : String) (v : JVal) (fs : List (String × JVal)) :
    lookup k' (fs.map (fun kv => (kv.1, if kv.1 = k then v else kv.2))) =
      if k' = k then (if hasKey k fs then some v else none) else lookup k' fs := by
  induction fs with
  | nil => simp [lookup, hasKey]
  | cons x xs ih =>
    obtain ⟨a, b⟩ := x
    simp only [List.map_cons, lookup, ih, hasKey, List.any_cons]
    by_cases h1 : k' = k
    · subst h1
      by_cases h2 : a = k'
      · subst h2
        by_cases h : xs.any (fun kv => kv.1 == a) = true <;> simp [h]
      · by_cases h : xs.any (fun kv => kv.1 == k') = true <;> simp [h, h2]
    · by_cases h2 : a = k
      · subst h2
        have : ¬ a = k' := fun h => h1 h.symm
        simp [h1, this]
      · simp [h1, h2]

theorem lookup_setField (k k' : String) (v : JVal) (fs : List (String × JVal)) :
    lookup k' (setField k v fs) = if k' = k then some v else lookup k' fs := by
  unfold setField
  by_cases h : hasKey k fs = true
  · simp only [h, ↓reduceIte, lookup_map_set]
  · have h' : hasKey k fs = false := by simpa using h
    have hn := lookup_none_of_not_hasKey k fs h'
    simp only [h', Bool.false_eq_true, ↓reduceIte, lookup_append, lookup]
    by_cases h1 : k' = k
    · subst h1; simp
    · have : ¬ k = k' := fun e => h1 e.symm
      simp [h1, this]

theorem lookup_assignAll (k : String) (base entries : List (String × JVal)) :
    lookup k (assignAll base entries) = lookup k (base ++ entries) := by
  unfold assignAll
  induction entries generalizing base with
  | nil => simp
  | cons e es ih =>
    obtain ⟨a, b⟩ := e
    simp only [List.foldl_cons, ih, lookup_append, lookup, lookup_setField]
    cases lookup k es with
    | some w => simp
    | none =>
      by_cases h : k = a
      · subst h; simp
      · have : ¬ a = k := fun e => h e.symm
        simp [h, this]

theorem trimField_lookup (k k' : String) (fs fs' : List (String × JVal))
    (h : trimField k fs = .ok fs') (hk : k' ≠ k) : lookup k' fs' = lookup k' fs := by
  unfold trimField at h
  split at h
  · cases ht : jsTrim (lookup k fs) with
    | error e => simp [ht, bind, Except.bind] at h
    | ok t =>
      simp only [ht, bind, Except.bind, pure, Except.pure, Except.ok.injEq] at h
      rw [← h, lookup_setField]
      simp [hk]
  · simp only [pure, Except.pure, Except.ok.injEq] at h
    rw [h]

theorem findIndexById_some (id : Option JVal) (ps : List JVal) (i : Nat)
    (h : findIndexById id ps = .ok (some i)) :
    ∃ p v, ps.get? i = some p ∧ getProp (some p) "id" = .ok v ∧ strictEq v id = true := by
  induction ps generalizing i with
  | nil => simp [findIndexById] at h
  | cons p ps ih =>
    cases hg : getProp (some p) "id" with
    | error e => simp [findIndexById, hg, bind, Except.bind] at h
    | ok v =>
      by_cases hs : strictEq v id = true
      · simp only [findIndexById, hg, bind, Except.bind, hs, ↓reduceIte, pure, Except.pure,
          Except.ok.injEq, Option.some.injEq] at h
        subst h
        exact ⟨p, v, rfl, hg, hs⟩
      · cases hr : findIndexById id ps with
        | error e => simp [findIndexById, hg, bind, Except.bind, hs, hr] at h
        | ok r =>
          cases r with
          | none => simp [findIndexById, hg, bind, Except.bind, hs, hr, pure, Except.pure] at h
          | some j =>
            simp only [findIndexById, hg, bind, Except.bind, hs, hr, pure, Except.pure,
              Bool.false_eq_true, ↓reduceIte, Option.map_some', Except.ok.injEq,
              Option.some.injEq] at h
            subst h
            obtain ⟨p', v', h1, h2, h3⟩ := ih j hr
            exact ⟨p', v', by simpa using h1, h2, h3⟩

/-! ### Updating a prompt (C6) -/

theorem bind_eq_ok {α β : Type} {x : Except String α} {f : α → Except String β} {b : β}
    (h : (x >>= f) = .ok b) : ∃ a, x = .ok a ∧ f a = .ok b := by
  cases x with
  | error e => simp [bind, Except.bind] at h
  | ok a => exact ⟨a, rfl, by simpa [bind, Except.bind] using h⟩

theorem saveAllPrompts_arr (q : Quota) (st : Store) (ps : List JVal) :
    saveAllPrompts q st (.arr ps) =
      if q st .data (.arr ps) then (true, st.set .data (.arr ps)) else (false, st) := by
  simp [saveAllPrompts, isArray, setStorageData]

/-- What a successful run of the `try` block of `updatePrompt` did. -/
theorem updatePromptBody_ok (q : Quota) (st : Store) (id updateData : Option JVal) (now : Int)
    (r : JVal) (st' : Store) (h : updatePromptBody q st id updateData now = .ok (r, st')) :
    ∃ ps i p merged, getAllPrompts st = .arr ps ∧ findIndexById id ps = .ok (some i) ∧
      ps.get? i = some p ∧ r = .obj merged ∧ st' = st.set .data (.arr (ps.set i r)) ∧
      ∀ k, k ≠ "title" → k ≠ "content" →
        lookup k merged =
          lookup k (ownEntries (some p) ++ ownEntries updateData ++ [("updateTime", .num now)]) := by
  unfold updatePromptBody at h
  obtain ⟨ps, hps, h⟩ := bind_eq_ok h
  obtain ⟨oi, hi, h⟩ := bind_eq_ok h
  have hps' : getAllPrompts st = .arr ps := by
    cases hg : getAllPrompts st <;> simp [hg, arrayItems] at hps
    rw [hps]
  cases oi with
  | none => simp [throw, throwThe, MonadExceptOf.throw] at h
  | some i =>
    obtain ⟨p, v, hp, _, _⟩ := findIndexById_some id ps i hi
    simp only at h
    obtain ⟨title, _, h⟩ := bind_eq_ok h
    obtain ⟨_, _, h⟩ := bind_eq_ok h
    obtain ⟨content, _, h⟩ := bind_eq_ok h
    obtain ⟨_, _, h⟩ := bind_eq_ok h
    obtain ⟨m1, h5, h⟩ := bind_eq_ok h
    obtain ⟨m2, h6, h⟩ := bind_eq_ok h
    rw [saveAllPrompts_arr] at h
    by_cases hq : q st .data (.arr (ps.set i (.obj m2))) = true
    · simp only [hq, ↓reduceIte, pure, Except.pure, Except.ok.injEq, Prod.mk.injEq] at h
      obtain ⟨hr, hst⟩ := h
      subst hr
      refine ⟨ps, i, p, m2, hps', hi, hp, rfl, hst.symm, ?_⟩
      intro k hk1 hk2
      rw [trimField_lookup _ _ _ _ h6 hk2, trimField_lookup _ _ _ _ h5 hk1, lookup_assignAll, hp]
      simp
    · simp [hq, throw, throwThe, MonadExceptOf.throw] at h

/-- C6 (counterexample): a patch that carries `id` and `createTime` overwrites
both.  Updating the record with id `a` with the patch `{id: "zzz", createTime: 0}`
returns and stores a record with id `zzz` and createTime `0`; no record with id `a`
is left. -/
theorem C6_counterexample :
    idList (getAllPrompts sampleStore) = [some (.str "b"), some (.str "a")] ∧
    (updatePrompt Quota.unlimited sampleStore (some (.str "a"))
      (some (.obj [("id", .str "zzz"), ("createTime", .num 0)])) 99).1 =
      .obj [("id", .str "zzz"), ("title", .str "A"), ("content", .str "x"),
        ("tags", .arr [.str "工作"]), ("createTime", .num 0), ("updateTime", .num 99)] ∧
    idList (getAllPrompts (updatePrompt Quota.unlimited sampleStore (some (.str "a"))
      (some (.obj [("id", .str "zzz"), ("createTime", .num 0)])) 99).2) =
      [some (.str "b"), some (.str "zzz")] := by
  refine ⟨rfl, rfl, rfl⟩

/-- C6 (amended): when the patch carries no `id` and no `createTime` field, a
successful `updatePrompt(id, patch)` returns and stores a record whose `id` and
`createTime` are those of the record it replaced, which is the first record of the
collection with that id; the stored collection is the old one with that one
position overwritten, so every other record is unchanged and where it was, and
the other storage keys are untouched. -/
theorem C6_updatePrompt_keeps_id_and_createTime (q : Quota) (st : Store)
    (id updateData : Option JVal) (now : Int) (r : JVal) (st' : Store)
    (hid : lookup "id" (ownEntries updateData) = none)
    (hct : lookup "createTime" (ownEntries updateData) = none)
    (h : updatePrompt q st id updateData now = (r, st')) (hok : r ≠ .null) :
    ∃ ps i p v, getAllPrompts st = .arr ps ∧ findIndexById id ps = .ok (some i) ∧
      ps.get? i = some p ∧ getProp (some p) "id" = .ok v ∧ strictEq v id = true ∧
      getProp (some r) "id" = getProp (some p) "id" ∧
      getProp (some r) "createTime" = getProp (some p) "createTime" ∧
      getAllPrompts st' = .arr (ps.set i r) ∧
      st'.settings = st.settings ∧ st'.syncState = st.syncState ∧ st'.pat = st.pat := by
  unfold updatePrompt at h
  cases hb : updatePromptBody q st id updateData now with
  | error e =>
    simp only [hb, Prod.mk.injEq] at h
    exact absurd h.1.symm hok
  | ok res =>
    simp only [hb] at h
    subst h
    obtain ⟨ps, i, p, merged, hps, hi, hp, hr, hst, hl⟩ := updatePromptBody_ok q st id updateData now _ _ hb
    obtain ⟨p', v, hp', hv, hs⟩ := findIndexById_some id ps i hi
    rw [hp] at hp'
    cases hp'
    have hpn : p ≠ .null := by
      intro hn; rw [hn] at hv; simp [getProp] at hv
    have key : ∀ k, (∃ c ∈ k.data, c.isDigit = false) → k ≠ "title" → k ≠ "content" →
        k ≠ "updateTime" → lookup k (ownEntries updateData) = none →
        getProp (some r) k = getProp (some p) k := by
      intro k hk h1 h2 h3 h4
      rw [hr, getProp_eq_lookup_ownEntries p k hk hpn]
      simp only [getProp, hl k h1 h2, lookup_append, h4, lookup]
      have : ¬ "updateTime" = k := fun e => h3 e.symm
      simp [this]
    refine ⟨ps, i, p, v, hps, hi, hp, hv, hs, key "id" ⟨'i', by decide, by decide⟩ (by decide)
      (by decide) (by decide) hid, key "createTime" ⟨'c', by decide, by decide⟩ (by decide)
      (by decide) (by decide) hct, ?_, ?_, ?_, ?_⟩ <;> rw [hst] <;> rfl

/-- C6 at the sample store: a patch of the title of record `a` keeps its id and
createTime and leaves record `b` where it was. -/
theorem C6_updatePrompt_keeps_id_and_createTime_witness :
    (updatePrompt Quota.unlimited sampleStore (some (.str "a"))
        (some samplePatch) 99).1 =
      .obj [("id", .str "a"), ("title", .str "T2"), ("content", .str "x"),
        ("tags", .arr [.str "工作"]), ("createTime", .num 5), ("updateTime", .num 99)] ∧
    ∃ ps i p v, getAllPrompts sampleStore = .arr ps ∧
      findIndexById (some (.str "a")) ps = .ok (some i) ∧
      ps.get? i = some p ∧ getProp (some p) "id" = .ok v ∧ strictEq v (some (.str "a")) = true ∧
      getProp (some (updatePrompt Quota.unlimited sampleStore (some (.str "a"))
        (some samplePatch) 99).1) "id" = getProp (some p) "id" ∧
      getProp (some (updatePrompt Quota.unlimited sampleStore (some (.str "a"))
        (some samplePatch) 99).1) "createTime" =
        getProp (some p) "createTime" ∧
      getAllPrompts (updatePrompt Quota.unlimited sampleStore (some (.str "a"))
        (some samplePatch) 99).2 =
        .arr (ps.set i (updatePrompt Quota.unlimited sampleStore (some (.str "a"))
          (some samplePatch) 99).1) ∧
      (updatePrompt Quota.unlimited sampleStore (some (.str "a"))
        (some samplePatch) 99).2.settings = sampleStore.settings ∧
      (updatePrompt Quota.unlimited sampleStore (some (.str "a"))
        (some samplePatch) 99).2.syncState = sampleStore.syncState ∧
      (updatePrompt Quota.unlimited sampleStore (some (.str "a"))
        (some samplePatch) 99).2.pat = sampleStore.pat :=
  ⟨rfl, C6_updatePrompt_keeps_id_and_createTime Quota.unlimited sampleStore (some (.str "a"))
    (some samplePatch) 99 _ _ rfl rfl rfl (fun h => by cases h)⟩

/-! ### Adding a prompt (C4, C7) -/

theorem trim_ne_empty (t : String) (h : trim t ≠ "") : t ≠ "" := by
  intro h'; apply h; rw [h']; rfl

/-- C4 (counterexample): `addPrompt` reads the clock twice.  With the readings
1000 and 1001 the record that `getPromptById` returns for the new id has
`createTime` 1000 and `updateTime` 1001, which differ.  And when the browser
refuses the write, `addPrompt` returns `null` for a valid input. -/
theorem C4_counterexample :
    (∃ fs, getPromptById (addPrompt Quota.unlimited Store.empty (some plainInput) "k" 1000 1001).2
        (some (.str "prompt_k")) = .ok (.obj fs) ∧
      lookup "id" fs = some (.str "prompt_k") ∧
      lookup "createTime" fs = some (.num 1000) ∧ lookup "updateTime" fs = some (.num 1001) ∧
      lookup "createTime" fs ≠ lookup "updateTime" fs) ∧
    addPrompt Quota.full Store.empty (some plainInput) "k" 1000 1000 = (.null, Store.empty) :=
  ⟨⟨[("id", .str "prompt_k"), ("title", .str "T"), ("content", .str "C"), ("tags", .arr []),
     ("createTime", .num 1000), ("updateTime", .num 1001)], rfl, rfl, rfl, rfl,
   by simp [lookup]⟩, rfl⟩

/-- C4 (amended): for an input whose title and content are strings that are
non-empty after trimming, on a store whose collection is a sequence and when the
browser accepts the write, `addPrompt` returns a record and puts it in front of
the collection; `getPromptById` of its id returns that record; its title and
content are the trimmed inputs; its `createTime` is the first and its `updateTime`
the second of the two clock readings taken while it is built, so the two are equal
whenever the two readings are. -/
theorem C4_addPrompt_then_getPromptById (q : Quota) (st : Store) (fs : List (String × JVal))
    (t c : String) (ps : List JVal) (idSuffix : String) (t1 t2 : Int)
    (ht : lookup "title" fs = some (.str t)) (hc : lookup "content" fs = some (.str c))
    (htn : trim t ≠ "") (hcn : trim c ≠ "")
    (hps : getAllPrompts st = .arr ps) (hq : ∀ v, q st .data v = true) :
    ∃ rf st', addPrompt q st (some (.obj fs)) idSuffix t1 t2 = (.obj rf, st') ∧
      getAllPrompts st' = .arr (.obj rf :: ps) ∧
      getPromptById st' (lookup "id" rf) = .ok (.obj rf) ∧
      lookup "title" rf = some (.str (trim t)) ∧
      lookup "content" rf = some (.str (trim c)) ∧
      lookup "createTime" rf = some (.num t1) ∧
      lookup "updateTime" rf = some (.num t2) ∧
      (t1 = t2 → lookup "createTime" rf = lookup "updateTime" rf) := by
  have ht0 := trim_ne_empty t htn
  have hc0 := trim_ne_empty c hcn
  refine ⟨[("id", .str (generateId idSuffix)), ("title", .str (trim t)),
    ("content", .str (trim c)),
    ("tags", if isArray (lookup "tags" fs) then (lookup "tags" fs).getD (.arr []) else .arr []),
    ("createTime", .num t1), ("updateTime", .num t2)], st.set .data _, ?_, rfl, ?_, ?_, ?_, ?_,
    ?_, ?_⟩
  · simp only [addPrompt, addPromptBody, getProp, ht, hc, truthy, bne_iff_ne, ne_eq, ht0, hc0,
      not_false_eq_true, decide_True, Bool.not_true, Bool.false_eq_true, ↓reduceIte, jsTrim, hps,
      arrayItems, saveAllPrompts_arr, hq, bind, Except.bind, pure, Except.pure]
    simp [ht0, hc0]
  · simp [getPromptById, getAllPrompts, getStorageData, Store.get, Store.set, arrayItems, findById,
      getProp, lookup, strictEq, truthy, bind, Except.bind, pure, Except.pure]
  · simp [lookup]
  · simp [lookup]
  · simp [lookup]
  · simp [lookup]
  · intro h; simp [lookup, h]

/-- C4 at the sample store, with both clock readings equal to 1000. -/
theorem C4_addPrompt_then_getPromptById_witness :
    ∃ rf st', addPrompt Quota.unlimited sampleStore (some plainInput) "k" 1000 1000 = (.obj rf, st') ∧
      getAllPrompts st' = .arr (.obj rf :: [sampleRecord "b" "B" "y", sampleRecord "a" "A" "x"]) ∧
      getPromptById st' (lookup "id" rf) = .ok (.obj rf) ∧
      lookup "title" rf = some (.str (trim " T ")) ∧
      lookup "content" rf = some (.str (trim "C")) ∧
      lookup "createTime" rf = some (.num 1000) ∧
      lookup "updateTime" rf = some (.num 1000) ∧
      ((1000 : Int) = 1000 → lookup "createTime" rf = lookup "updateTime" rf) :=
  C4_addPrompt_then_getPromptById Quota.unlimited sampleStore _ " T " "C" _ "k" 1000 1000 rfl rfl
    (by decide) (by decide) rfl (fun _ => rfl)

/-- The part of the validation of `addPrompt` that works: an input whose title or
content is missing, empty or otherwise falsy is rejected with `null`, and the store
is left as it was. -/
theorem addPrompt_rejects_falsy (q : Quota) (st : Store) (fs : List (String × JVal))
    (idSuffix : String) (t1 t2 : Int)
    (h : truthy (lookup "title" fs) = false ∨ truthy (lookup "content" fs) = false) :
    addPrompt q st (some (.obj fs)) idSuffix t1 t2 = (.null, st) := by
  unfold addPrompt addPromptBody
  by_cases ht : truthy (lookup "title" fs) = true
  · have hc : truthy (lookup "content" fs) = false := by
      rcases h with h | h
      · rw [ht] at h; exact absurd h (by simp)
      · exact h
    simp [getProp, ht, hc, bind, Except.bind, throw, throwThe, MonadExceptOf.throw, pure,
      Except.pure]
  · simp [getProp, ht, bind, Except.bind, throw, throwThe, MonadExceptOf.throw, pure,
      Except.pure]

/-- C7 (evaluation at the failing input): a title that is whitespace only passes
the `!promptData.title` test of `addPrompt`; the call returns a record, not `null`,
and stores it with the empty title. -/
theorem C7_addPrompt_stores_blank_title :
    addPrompt Quota.unlimited Store.empty (some blankTitleInput) "k" 10 10 =
      (.obj [("id", .str "prompt_k"), ("title", .str ""), ("content", .str "x"),
             ("tags", .arr []), ("createTime", .num 10), ("updateTime", .num 10)],
       { Store.empty with data := some (.arr [
         .obj [("id", .str "prompt_k"), ("title", .str ""), ("content", .str "x"),
               ("tags", .arr []), ("createTime", .num 10), ("updateTime", .num 10)]]) }) := by
  rfl

/-! ### Import: duplicated ids (C3) -/

/-- The part of the duplicate test of `importData` that works: a valid incoming
record whose id is in `existingIds`, or whose title is the title of the first
record of the working collection, is skipped. -/
theorem importOneBody_skips (st : Store) (ids : List (Option JVal)) (ex : List JVal) (o : Oracle)
    (df : List (String × JVal))
    (ht : truthy (lookup "title" df) = true) (hc : truthy (lookup "content" df) = true)
    (h : ids.any (fun x => strictEq x (lookup "id" df)) = true ∨
      ∃ pf rest, ex = .obj pf :: rest ∧ strictEq (lookup "title" pf) (lookup "title" df) = true) :
    importOneBody st ids ex o (.obj df) = .ok .skipped := by
  have hdup : isDuplicate ids ex (lookup "id" df) (lookup "title" df) = .ok true := by
    unfold isDuplicate
    by_cases hany : ids.any (fun x => strictEq x (lookup "id" df)) = true
    · simp [hany]
    · rcases h with h | ⟨pf, rest, rfl, hs⟩
      · exact absurd h hany
      · simp [hany, someTitleEq, getProp, hs, bind, Except.bind, pure, Except.pure]
  simp [importOneBody, getProp, ht, hc, hdup, bind, Except.bind, pure, Except.pure]

/-- C3 (evaluation at the failing input): `existingIds` is filled before the loop
and never extended, so the second of two incoming records with the same id and
different titles is accepted as well: both are imported, none is skipped, and the
persisted collection holds two records with the same id. -/
theorem C3_same_id_twice_accepted :
    (importData Quota.unlimited Store.empty (some sameIdDocument) false fixedOracle).1.stats =
      { imported := 2, skipped := 0, errors := 0 } ∧
    idList (getAllPrompts
      (importData Quota.unlimited Store.empty (some sameIdDocument) false fixedOracle).2) =
      [some (.str "x"), some (.str "x")] := by
  constructor <;> rfl

/-! ### Import with merge (C2) -/

theorem someTitleEq_false (title : Option JVal) (ex : List JVal)
    (h : someTitleEq title ex = .ok false) :
    ∀ p ∈ ex, ∃ v, getProp (some p) "title" = .ok v ∧ strictEq v title = false := by
  induction ex with
  | nil => intro p hp; simp at hp
  | cons x xs ih =>
    unfold someTitleEq at h
    obtain ⟨v, hv, h⟩ := bind_eq_ok h
    by_cases hs : strictEq v title = true
    · simp [hs, pure, Except.pure] at h
    · simp only [hs, Bool.false_eq_true, ↓reduceIte] at h
      intro p hp
      rcases List.mem_cons.1 hp with rfl | hp
      · exact ⟨v, hv, by simpa using hs⟩
      · exact ih h p hp

theorem idsOf_ok (old : List JVal) (ids : List (Option JVal)) (h : idsOf old = .ok ids) :
    ∀ p ∈ old, ∃ v, getProp (some p) "id" = .ok v ∧ v ∈ ids := by
  induction old generalizing ids with
  | nil => intro p hp; simp at hp
  | cons x xs ih =>
    unfold idsOf at h
    obtain ⟨v, hv, h⟩ := bind_eq_ok h
    obtain ⟨rest, hrest, h⟩ := bind_eq_ok h
    simp only [pure, Except.pure, Except.ok.injEq] at h
    subst h
    intro p hp
    rcases List.mem_cons.1 hp with rfl | hp
    · exact ⟨v, hv, List.mem_cons_self _ _⟩
    · obtain ⟨w, hw, hmem⟩ := ih rest hrest p hp
      exact ⟨w, hw, List.mem_cons_of_mem _ hmem⟩

theorem jsTrim_ok (v : Option JVal) (s : String) (h : jsTrim v = .ok s) :
    ∃ t, v = some (.str t) ∧ s = trim t := by
  rcases v with _ | v
  · simp [jsTrim] at h
  · cases v <;> simp [jsTrim] at h
    exact ⟨_, rfl, h.symm⟩

theorem truthy_str (t : String) (h : truthy (some (.str t)) = true) : t ≠ "" := by
  simpa [truthy] using h

/-- What the inner `try` block did when it accepted a record. -/
theorem importOneBody_accepted (st : Store) (ids : List (Option JVal)) (ex : List JVal)
    (o : Oracle) (d r : JVal) (h : importOneBody st ids ex o d = .ok (.accepted r)) :
    ∃ (t c : String) (id : Option JVal),
      getProp (some d) "title" = .ok (some (.str t)) ∧ t ≠ "" ∧
      getProp (some d) "content" = .ok (some (.str c)) ∧ c ≠ "" ∧
      getProp (some d) "id" = .ok id ∧
      ids.any (fun x => strictEq x id) = false ∧
      someTitleEq (some (.str t)) ex = .ok false ∧
      getProp (some r) "title" = .ok (some (.str (trim t))) ∧
      getProp (some r) "content" = .ok (some (.str (trim c))) := by
  unfold importOneBody at h
  obtain ⟨title, htitle, h⟩ := bind_eq_ok h
  by_cases ht : truthy title = true
  swap
  · simp [ht, pure, Except.pure] at h
  simp only [ht, Bool.not_true, Bool.false_eq_true, ↓reduceIte] at h
  obtain ⟨content, hcontent, h⟩ := bind_eq_ok h
  by_cases hc : truthy content = true
  swap
  · simp [hc, pure, Except.pure] at h
  simp only [hc, Bool.not_true, Bool.false_eq_true, ↓reduceIte] at h
  obtain ⟨id, hid, h⟩ := bind_eq_ok h
  obtain ⟨dup, hdup, h⟩ := bind_eq_ok h
  cases dup with
  | true => simp [pure, Except.pure] at h
  | false =>
    simp only [Bool.false_eq_true, ↓reduceIte] at h
    obtain ⟨pt, _, h⟩ := bind_eq_ok h
    obtain ⟨tags, _, h⟩ := bind_eq_ok h
    obtain ⟨validTags, _, h⟩ := bind_eq_ok h
    obtain ⟨t', ht', h⟩ := bind_eq_ok h
    obtain ⟨c', hc', h⟩ := bind_eq_ok h
    obtain ⟨createTime, _, h⟩ := bind_eq_ok h
    obtain ⟨t, rfl, rfl⟩ := jsTrim_ok _ _ ht'
    obtain ⟨c, rfl, rfl⟩ := jsTrim_ok _ _ hc'
    simp only [pure, Except.pure, Except.ok.injEq, Outcome.accepted.injEq] at h
    subst h
    unfold isDuplicate at hdup
    by_cases hany : ids.any (fun x => strictEq x id) = true
    · simp [hany] at hdup
    · simp only [hany, Bool.false_eq_true, ↓reduceIte] at hdup
      refine ⟨t, c, id, htitle, truthy_str t ht, hcontent, truthy_str c hc, hid,
        by simpa using hany, hdup, ?_, ?_⟩ <;> simp [getProp, lookup]

/-- The loop only ever puts accepted records in front of the working collection. -/
theorem importLoop_prepends (st : Store) (ids : List (Option JVal)) (orc : Nat → Oracle)
    (ds : List JVal) : ∀ (k : Nat) (s : ImportState),
    ∃ added, (importLoop st ids orc k s ds).existingPrompts = added ++ s.existingPrompts ∧
      ∀ r ∈ added, ∃ d ∈ ds, ∃ pre o,
        importOneBody st ids (pre ++ s.existingPrompts) o d = .ok (.accepted r) := by
  induction ds with
  | nil => intro k s; exact ⟨[], rfl, by simp⟩
  | cons d ds ih =>
    intro k s
    obtain ⟨added, hadd, hall⟩ := ih (k + 1) (importOne st ids (orc k) s d)
    simp only [importLoop]
    cases hb : importOneBody st ids s.existingPrompts (orc k) d with
    | error e =>
      have hs : (importOne st ids (orc k) s d).existingPrompts = s.existingPrompts := by
        simp [importOne, hb]
      refine ⟨added, by rw [hadd, hs], ?_⟩
      intro r hr
      obtain ⟨d', hd', pre, o, hacc⟩ := hall r hr
      rw [hs] at hacc
      exact ⟨d', List.mem_cons_of_mem _ hd', pre, o, hacc⟩
    | ok out =>
      cases out with
      | accepted r0 =>
        have hs : (importOne st ids (orc k) s d).existingPrompts = r0 :: s.existingPrompts := by
          simp [importOne, hb]
        refine ⟨added ++ [r0], by rw [hadd, hs]; simp, ?_⟩
        intro r hr
        rcases List.mem_append.1 hr with hr | hr
        · obtain ⟨d', hd', pre, o, hacc⟩ := hall r hr
          rw [hs] at hacc
          exact ⟨d', List.mem_cons_of_mem _ hd', pre ++ [r0], o, by simpa using hacc⟩
        · simp only [List.mem_singleton] at hr
          subst hr
          exact ⟨d, List.mem_cons_self _ _, [], orc k, by simpa using hb⟩
      | skipped =>
        have hs : (importOne st ids (orc k) s d).existingPrompts = s.existingPrompts := by
          simp [importOne, hb]
        refine ⟨added, by rw [hadd, hs], ?_⟩
        intro r hr
        obtain ⟨d', hd', pre, o, hacc⟩ := hall r hr
        rw [hs] at hacc
        exact ⟨d', List.mem_cons_of_mem _ hd', pre, o, hacc⟩
      | invalid =>
        have hs : (importOne st ids (orc k) s d).existingPrompts = s.existingPrompts := by
          simp [importOne, hb]
        refine ⟨added, by rw [hadd, hs], ?_⟩
        intro r hr
        obtain ⟨d', hd', pre, o, hacc⟩ := hall r hr
        rw [hs] at hacc
        exact ⟨d', List.mem_cons_of_mem _ hd', pre, o, hacc⟩

theorem any_strictEq_false (ids : List (Option JVal)) (id v : Option JVal)
    (h : ids.any (fun x => strictEq x id) = false) (hv : v ∈ ids) : strictEq v id = false := by
  rw [List.any_eq_false] at h
  simpa using h v hv

theorem saveSettings_keeps (q : Quota) (st : Store) (s : Option JVal) :
    (saveSettings q st s).2.data = st.data ∧ (saveSettings q st s).2.syncState = st.syncState ∧
      (saveSettings q st s).2.pat = st.pat := by
  unfold saveSettings setStorageData
  simp only []
  split <;> simp [Store.set]

theorem arrayItems_ok (v : JVal) (xs : List JVal) (h : arrayItems v = .ok xs) : v = .arr xs := by
  cases v <;> simp [arrayItems] at h
  rw [h]

/-- What a successful run of the prompt part of `importData` did with `merge = true`. -/
theorem importPrompts_merge_ok (q : Quota) (st : Store) (incoming : List JVal)
    (orc : Nat → Oracle) (s : ImportState) (st1 : Store)
    (h : importPrompts q st (some (.arr incoming)) true orc = .ok (s, st1)) :
    ∃ old added, getAllPrompts st = .arr old ∧ st1 = st.set .data (.arr (added ++ old)) ∧
      ∀ r ∈ added, AddedFrom old incoming r := by
  unfold importPrompts at h
  simp only at h
  obtain ⟨old, hold, h⟩ := bind_eq_ok h
  obtain ⟨ids, hids, h⟩ := bind_eq_ok h
  have hold' : getAllPrompts st = .arr old := arrayItems_ok _ _ (by simpa [startingPrompts] using hold)
  obtain ⟨added, hadd, hall⟩ := importLoop_prepends st ids orc incoming 0 (ImportState.init old)
  rw [saveAllPrompts_arr] at h
  by_cases hq : q st .data (.arr
      (importLoop st ids orc 0 (ImportState.init old) incoming).existingPrompts) = true
  · simp only [hq, ↓reduceIte, pure, Except.pure, Except.ok.injEq, Prod.mk.injEq] at h
    obtain ⟨hs, hst⟩ := h
    subst hs
    refine ⟨old, added, hold', ?_, ?_⟩
    · rw [← hst, hadd]; rfl
    · intro r hr
      obtain ⟨d, hd, pre, o, hacc⟩ := hall r hr
      obtain ⟨t, c, id, h1, h2, h3, h4, h5, h6, h7, h8, h9⟩ :=
        importOneBody_accepted _ _ _ _ _ _ hacc
      refine ⟨d, hd, t, c, id, h1, h2, h3, h4, h5, h8, h9, ?_, ?_⟩
      · intro p hp
        obtain ⟨v, hv, hmem⟩ := idsOf_ok old ids hids p hp
        exact ⟨v, hv, any_strictEq_false ids id v h6 hmem⟩
      · intro p hp
        exact someTitleEq_false _ _ h7 p (List.mem_append_right _ hp)
  · simp [hq, throw, throwThe, MonadExceptOf.throw] at h

/-- The frame property of a merge import.  When `importData(doc, true)` succeeds,
either the store is exactly what it was (the document has no `prompts` sequence),
or the persisted collection is the old collection with new records in front of
it: every old record is still there, unmodified and in the same order, as a
suffix.  Every record in front comes from a valid incoming record (string title
and content, non-empty) whose id is the id of no old record and whose title is the
title of no old record; it carries the trimmed title and content.  Settings and
the sync keys are untouched.  Nothing is said here about two incoming records with
one id. -/
theorem importData_merge_frame (q : Quota) (st : Store) (data : Option JVal)
    (orc : Nat → Oracle) (h : (importData q st data true orc).1.success = true) :
    (importData q st data true orc).2 = st ∨
    ∃ old added incoming, getAllPrompts st = .arr old ∧
      getProp data "prompts" = .ok (some (.arr incoming)) ∧
      getAllPrompts (importData q st data true orc).2 = .arr (added ++ old) ∧
      (∀ r ∈ added, AddedFrom old incoming r) ∧
      (importData q st data true orc).2.settings = st.settings ∧
      (importData q st data true orc).2.syncState = st.syncState ∧
      (importData q st data true orc).2.pat = st.pat := by
  unfold importData at h ⊢
  cases hb : importDataBody q st data true orc with
  | error e => simp [hb] at h
  | ok res =>
    simp only [hb]
    clear h
    unfold importDataBody at hb
    split at hb
    · simp [throw, throwThe, MonadExceptOf.throw] at hb
    obtain ⟨prompts, hprompts, hb⟩ := bind_eq_ok hb
    obtain ⟨⟨s, st1⟩, hmid, hb⟩ := bind_eq_ok hb
    obtain ⟨st2, hset, hb⟩ := bind_eq_ok hb
    simp only [importSettings, Bool.not_true, Bool.false_eq_true, ↓reduceIte, pure, Except.pure,
      Except.ok.injEq] at hset
    subst hset
    simp only [pure, Except.pure, Except.ok.injEq] at hb
    subst hb
    simp only []
    have hcases : (∃ incoming, prompts = some (.arr incoming)) ∨
        ∀ incoming, prompts ≠ some (.arr incoming) := by
      rcases prompts with _ | v
      · right; intro i; simp
      · cases v with
        | arr xs => left; exact ⟨xs, rfl⟩
        | _ => right; intro i; simp
    rcases hcases with ⟨incoming, rfl⟩ | hno
    · right
      obtain ⟨old, added, hold, hst, hall⟩ := importPrompts_merge_ok q st incoming orc s st1 hmid
      subst hst
      exact ⟨old, added, incoming, hold, hprompts, rfl, hall, rfl, rfl, rfl⟩
    · left
      have : (s, st1) = (ImportState.init [], st) := by
        rcases prompts with _ | v
        · simpa [importPrompts, pure, Except.pure] using hmid.symm
        · cases v with
          | arr xs => exact absurd rfl (hno xs)
          | _ => simpa [importPrompts, pure, Except.pure] using hmid.symm
      simp only [Prod.mk.injEq] at this
      exact this.2

/-- The frame property at the sample store: of three incoming records one repeats
a stored title, one lacks its content and one is new; the import succeeds with one
record each imported, skipped and in error. -/
theorem importData_merge_frame_example :
    (importData Quota.unlimited sampleStore (some mergeDocument) true fixedOracle).1 =
      { success := true, message := "导入完成：成功1条，跳过1条，错误1条",
        stats := { imported := 1, skipped := 1, errors := 1 } } ∧
    ((importData Quota.unlimited sampleStore (some mergeDocument) true fixedOracle).2 = sampleStore ∨
    ∃ old added incoming, getAllPrompts sampleStore = .arr old ∧
      getProp (some mergeDocument) "prompts" = .ok (some (.arr incoming)) ∧
      getAllPrompts (importData Quota.unlimited sampleStore (some mergeDocument) true
        fixedOracle).2 = .arr (added ++ old) ∧
      (∀ r ∈ added, AddedFrom old incoming r) ∧
      (importData Quota.unlimited sampleStore (some mergeDocument) true fixedOracle).2.settings =
        sampleStore.settings ∧
      (importData Quota.unlimited sampleStore (some mergeDocument) true fixedOracle).2.syncState =
        sampleStore.syncState ∧
      (importData Quota.unlimited sampleStore (some mergeDocument) true fixedOracle).2.pat =
        sampleStore.pat) :=
  ⟨rfl, importData_merge_frame Quota.unlimited sampleStore (some mergeDocument)
    fixedOracle rfl⟩

/-- C2 (evaluation at the failing input): a merge import keeps the old collection
as a suffix, but it adds a duplicate.  `existingIds` is not extended while the
loop runs, so of two valid incoming records with the same id and new titles both
are put in front of the sample store: the persisted ids are `x`, `x`, `b`, `a`. -/
theorem C2_merge_adds_repeated_id :
    (importData Quota.unlimited sampleStore (some repeatedIdDocument) true fixedOracle).1 =
      { success := true, message := "导入完成：成功2条，跳过0条，错误0条",
        stats := { imported := 2, skipped := 0, errors := 0 } } ∧
    idList (getAllPrompts sampleStore) = [some (.str "b"), some (.str "a")] ∧
    idList (getAllPrompts
      (importData Quota.unlimited sampleStore (some repeatedIdDocument) true fixedOracle).2) =
      [some (.str "x"), some (.str "x"), some (.str "b"), some (.str "a")] ∧
    titleContentPairs (getAllPrompts
      (importData Quota.unlimited sampleStore (some repeatedIdDocument) true fixedOracle).2) =
      [(some (.str "Q"), some (.str "d")), (some (.str "P"), some (.str "c")),
       (some (.str "B"), some (.str "y")), (some (.str "A"), some (.str "x"))] := by
  refine ⟨rfl, rfl, rfl, rfl⟩

/-! ### Export followed by import (C1) -/

theorem strictEq_true_eq (a b : Option JVal) (h : strictEq a b = true) : a = b := by
  rcases a with _ | a <;> rcases b with _ | b
  · rfl
  · simp [strictEq] at h
  · cases a <;> simp [strictEq] at h
  · cases a <;> cases b <;> simp [strictEq] at h <;> simp [h]

theorem someTitleEq_of_distinct (title : Option JVal) (ex : List JVal)
    (h : ∀ p ∈ ex, (∃ fs, p = .obj fs) ∧ titleOf p ≠ title) :
    someTitleEq title ex = .ok false := by
  induction ex with
  | nil => rfl
  | cons x xs ih =>
    obtain ⟨⟨fs, rfl⟩, hne⟩ := h _ (List.mem_cons_self _ _)
    have hs : strictEq (lookup "title" fs) title = false := by
      cases hh : strictEq (lookup "title" fs) title
      · rfl
      · exact absurd (strictEq_true_eq _ _ hh) hne
    simp only [someTitleEq, getProp, bind, Except.bind, hs, Bool.false_eq_true, ↓reduceIte]
    exact ih (fun p hp => h p (List.mem_cons_of_mem _ hp))

theorem filterTags_arr_ok (pt ts : List JVal) : ∃ out, filterTags (.arr pt) ts = .ok out := by
  induction ts with
  | nil => exact ⟨[], rfl⟩
  | cons t ts ih =>
    obtain ⟨out, hout⟩ := ih
    simp only [filterTags, jsIncludes, hout, bind, Except.bind, pure, Except.pure]
    exact ⟨_, rfl⟩

theorem validTagsOf_arr_ok (pt : List JVal) (tags : Option JVal) :
    ∃ out, validTagsOf (.arr pt) tags = .ok out := by
  unfold validTagsOf
  split
  · exact filterTags_arr_ok pt _
  · exact ⟨[], rfl⟩

theorem isCleanRecord_iff (p : JVal) (h : isCleanRecord p = true) :
    ∃ fs t c, p = .obj fs ∧ lookup "title" fs = some (.str t) ∧
      lookup "content" fs = some (.str c) ∧ t ≠ "" ∧ c ≠ "" ∧ trim t = t ∧ trim c = c := by
  cases p with
  | obj fs =>
    simp only [isCleanRecord] at h
    split at h
    · rename_i t c ht hc
      simp only [Bool.and_eq_true, bne_iff_ne, ne_eq, beq_iff_eq] at h
      exact ⟨fs, t, c, rfl, ht, hc, h.1.1.1, h.1.1.2, h.1.2, h.2⟩
    · simp at h
  | _ => simp [isCleanRecord] at h

/-- The inner `try` block accepts a record with a string title and content, both
non-empty, whose title no record of the working collection has, when no ids are to
be compared and the preset tag list is a sequence. -/
theorem importOneBody_accepts (st : Store) (ex : List JVal) (o : Oracle)
    (df : List (String × JVal)) (t c : String) (pt : List JVal)
    (ht : lookup "title" df = some (.str t)) (ht0 : t ≠ "")
    (hc : lookup "content" df = some (.str c)) (hc0 : c ≠ "")
    (hdup : someTitleEq (some (.str t)) ex = .ok false)
    (hpt : getPresetTags st = .ok (.arr pt)) :
    ∃ rf, importOneBody st [] ex o (.obj df) = .ok (.accepted (.obj rf)) ∧
      lookup "title" rf = some (.str (trim t)) ∧ lookup "content" rf = some (.str (trim c)) := by
  obtain ⟨vt, hvt⟩ := validTagsOf_arr_ok pt (lookup "tags" df)
  refine ⟨[("id", if truthy (lookup "id" df) then (lookup "id" df).getD .null
        else .str (generateId o.idSuffix)),
    ("title", .str (trim t)), ("content", .str (trim c)), ("tags", .arr vt),
    ("createTime", if truthy (lookup "createTime" df) then (lookup "createTime" df).getD .null
        else .num o.createNow),
    ("updateTime", .num o.updateNow)], ?_, by simp [lookup], by simp [lookup]⟩
  simp [importOneBody, getProp, ht, hc, truthy, ht0, hc0, isDuplicate, hdup, hpt, hvt, jsTrim,
    bind, Except.bind, pure, Except.pure]

/-- On records that satisfy the data-model invariant and have pairwise distinct
titles, none of which is in the working collection, the loop accepts every record:
the working collection grows by the records in reverse order. -/
theorem importLoop_accepts_all (st : Store) (orc : Nat → Oracle) (pt : List JVal)
    (hpt : getPresetTags st = .ok (.arr pt)) (ds : List JVal) : ∀ (k : Nat) (s : ImportState),
    (∀ d ∈ ds, isCleanRecord d = true) → (ds.map titleOf).Nodup →
    (∀ p ∈ s.existingPrompts, (∃ fs, p = .obj fs) ∧ ∀ d ∈ ds, titleOf p ≠ titleOf d) →
    ∃ added, (importLoop st [] orc k s ds).existingPrompts = added ++ s.existingPrompts ∧
      added.map pairOf = (ds.map pairOf).reverse := by
  induction ds with
  | nil => intro k s _ _ _; exact ⟨[], rfl, rfl⟩
  | cons d ds ih =>
    intro k s hclean hnodup hex
    obtain ⟨df, t, c, rfl, ht, hc, ht0, hc0, htt, hct⟩ :=
      isCleanRecord_iff d (hclean d (List.mem_cons_self _ _))
    have hdup : someTitleEq (some (.str t)) s.existingPrompts = .ok false := by
      apply someTitleEq_of_distinct
      intro p hp
      refine ⟨(hex p hp).1, ?_⟩
      have := (hex p hp).2 (.obj df) (List.mem_cons_self _ _)
      simpa [titleOf, ht] using this
    obtain ⟨rf, hacc, hrt, hrc⟩ :=
      importOneBody_accepts st s.existingPrompts (orc k) df t c pt ht ht0 hc hc0 hdup hpt
    have hs : (importOne st [] (orc k) s (.obj df)).existingPrompts =
        .obj rf :: s.existingPrompts := by
      simp [importOne, hacc]
    simp only [List.map_cons, List.nodup_cons] at hnodup
    obtain ⟨added, hadd, hpairs⟩ := ih (k + 1) (importOne st [] (orc k) s (.obj df))
      (fun d hd => hclean d (List.mem_cons_of_mem _ hd)) hnodup.2 (by
        rw [hs]
        intro p hp
        rcases List.mem_cons.1 hp with rfl | hp
        · refine ⟨⟨rf, rfl⟩, ?_⟩
          intro d hd heq
          apply hnodup.1
          rw [List.mem_map]
          refine ⟨d, hd, ?_⟩
          rw [← heq]
          simp [titleOf, hrt, ht, htt]
        · exact ⟨(hex p hp).1, fun d hd => (hex p hp).2 d (List.mem_cons_of_mem _ hd)⟩)
    refine ⟨added ++ [.obj rf], ?_, ?_⟩
    · simp only [importLoop]
      rw [hadd, hs]
      simp
    · simp [hpairs, pairOf, hrt, hrc, ht, hc, htt, hct]

theorem exportPrompt_obj (fs : List (String × JVal)) :
    ∃ ef, exportPrompt (.obj fs) = .ok (.obj ef) ∧ lookup "title" ef = lookup "title" fs ∧
      lookup "content" ef = lookup "content" fs := by
  refine ⟨_, rfl, ?_, ?_⟩ <;>
    simp [ownEntries, lookup_assignAll, lookup_append, lookup]

theorem mapE_exportPrompt (ps : List JVal) (h : ∀ p ∈ ps, ∃ fs, p = .obj fs) :
    ∃ es, mapE exportPrompt ps = .ok es ∧ es.map pairOf = ps.map pairOf ∧
      es.map titleOf = ps.map titleOf ∧
      ∀ e ∈ es, isCleanRecord e = true ∨ ∃ p ∈ ps, isCleanRecord p = false := by
  induction ps with
  | nil => exact ⟨[], rfl, rfl, rfl, by simp⟩
  | cons p ps ih =>
    obtain ⟨fs, rfl⟩ := h _ (List.mem_cons_self _ _)
    obtain ⟨es, hes, hp, ht, hcl⟩ := ih (fun x hx => h x (List.mem_cons_of_mem _ hx))
    obtain ⟨ef, hef, h1, h2⟩ := exportPrompt_obj fs
    refine ⟨.obj ef :: es, ?_, ?_, ?_, ?_⟩
    · simp [mapE, hef, hes, bind, Except.bind, pure, Except.pure]
    · simp [pairOf, h1, h2, hp]
    · simp [titleOf, h1, ht]
    · intro e he
      rcases List.mem_cons.1 he with rfl | he
      · by_cases hc : isCleanRecord (.obj fs) = true
        · left
          simpa [isCleanRecord, h1, h2] using hc
        · right
          exact ⟨.obj fs, List.mem_cons_self _ _, by simpa using hc⟩
      · rcases hcl e he with h | ⟨p, hp, hpc⟩
        · left; exact h
        · right; exact ⟨p, List.mem_cons_of_mem _ hp, hpc⟩

theorem importSettings_data (q : Quota) (st st2 : Store) (data : Option JVal) (merge : Bool)
    (h : importSettings q st data merge = .ok st2) : st2.data = st.data := by
  unfold importSettings at h
  split at h
  · obtain ⟨settings, _, h⟩ := bind_eq_ok h
    simp only [pure, Except.pure, Except.ok.injEq] at h
    subst h
    split
    · exact (saveSettings_keeps q st settings).1
    · rfl
  · simp only [pure, Except.pure, Except.ok.injEq] at h
    rw [h]

theorem importSettings_ok (q : Quota) (st : Store) (fs : List (String × JVal)) (merge : Bool) :
    ∃ st2, importSettings q st (some (.obj fs)) merge = .ok st2 := by
  unfold importSettings
  split
  · exact ⟨_, rfl⟩
  · exact ⟨_, rfl⟩

/-- C1 (counterexample): `importData` skips an incoming record whose title is
already in the working collection.  A store with two prompts titled "A" (contents
"y" and "x") exports both; importing that export with `merge = false` succeeds and
leaves one prompt: the pair ("A", "x") is lost. -/
theorem C1_counterexample :
    titleContentPairs (getAllPrompts sameTitleStore) =
      [(some (.str "A"), some (.str "y")), (some (.str "A"), some (.str "x"))] ∧
    (importData Quota.unlimited sameTitleStore (some (exportData sameTitleStore 7)) false
      fixedOracle).1.success = true ∧
    titleContentPairs (getAllPrompts
      (importData Quota.unlimited sameTitleStore (some (exportData sameTitleStore 7)) false
        fixedOracle).2) = [(some (.str "A"), some (.str "y"))] := by
  refine ⟨rfl, rfl, rfl⟩

/-- C1 (amended): on a store whose collection is a sequence of records with
non-empty, trimmed string titles and contents and pairwise distinct titles, whose
preset tag list is a sequence, and when the browser accepts the write,
`importData(exportData(), false)` succeeds and the persisted collection afterwards
holds exactly the (title, content) pairs it held before: the list of pairs is the
old one reversed, hence a permutation of it. -/
theorem C1_export_import_roundtrip (q : Quota) (st : Store) (now : Int) (orc : Nat → Oracle)
    (ps pt : List JVal)
    (hps : getAllPrompts st = .arr ps)
    (hclean : ∀ p ∈ ps, isCleanRecord p = true)
    (hdistinct : (ps.map titleOf).Nodup)
    (hpt : getPresetTags st = .ok (.arr pt))
    (hq : ∀ v, q st .data v = true) :
    (importData q st (some (exportData st now)) false orc).1.success = true ∧
    titleContentPairs (getAllPrompts (importData q st (some (exportData st now)) false orc).2) =
      (titleContentPairs (getAllPrompts st)).reverse ∧
    (titleContentPairs
      (getAllPrompts (importData q st (some (exportData st now)) false orc).2)).Perm
      (titleContentPairs (getAllPrompts st)) := by
  have hobj : ∀ p ∈ ps, ∃ fs, p = .obj fs := by
    intro p hp
    obtain ⟨fs, _, _, rfl, _⟩ := isCleanRecord_iff p (hclean p hp)
    exact ⟨fs, rfl⟩
  obtain ⟨es, hes, hpairs, htitles, hcl⟩ := mapE_exportPrompt ps hobj
  have hes_clean : ∀ e ∈ es, isCleanRecord e = true := by
    intro e he
    rcases hcl e he with h | ⟨p, hp, hpc⟩
    · exact h
    · rw [hclean p hp] at hpc; exact absurd hpc (by simp)
  have hexp : exportData st now = .obj [("prompts", .arr es), ("settings", getSettings st),
      ("exportTime", .num now), ("version", .str "1.0.0")] := by
    simp [exportData, exportDataBody, hps, arrayItems, hes, bind, Except.bind, pure, Except.pure]
  obtain ⟨added, hadd, hap⟩ := importLoop_accepts_all st orc pt hpt es 0 (ImportState.init [])
    hes_clean (by rw [htitles]; exact hdistinct) (by simp [ImportState.init])
  have hadd' : (importLoop st [] orc 0 (ImportState.init []) es).existingPrompts = added := by
    rw [hadd]; simp [ImportState.init]
  have hprompts : importPrompts q st (some (.arr es)) false orc =
      .ok (importLoop st [] orc 0 (ImportState.init []) es, st.set .data (.arr added)) := by
    simp [importPrompts, startingPrompts, idsOf, saveAllPrompts_arr, hq, hadd', bind,
      Except.bind, pure, Except.pure]
  obtain ⟨st2, hst2⟩ := importSettings_ok q (st.set .data (.arr added))
    [("prompts", .arr es), ("settings", getSettings st), ("exportTime", .num now),
      ("version", .str "1.0.0")] false
  have hdata := importSettings_data _ _ _ _ _ hst2
  have hbody : importDataBody q st (some (exportData st now)) false orc =
      .ok ({ success := true,
             message := importMessage (importLoop st [] orc 0 (ImportState.init []) es),
             stats := {
               imported := (importLoop st [] orc 0 (ImportState.init []) es).importedCount,
               skipped := (importLoop st [] orc 0 (ImportState.init []) es).skippedCount,
               errors := (importLoop st [] orc 0 (ImportState.init []) es).errorCount } },
           st2) := by
    rw [hexp]
    have hl : lookup "prompts" [("prompts", JVal.arr es), ("settings", getSettings st),
        ("exportTime", .num now), ("version", .str "1.0.0")] = some (.arr es) := by
      simp [lookup]
    simp only [importDataBody, truthy, typeofObject, getProp, hl, hprompts, hst2, bind,
      Except.bind, pure, Except.pure]
    simp
  have hres : (importData q st (some (exportData st now)) false orc).2 = st2 := by
    simp [importData, hbody]
  have hget : getAllPrompts st2 = .arr added := by
    simp [getAllPrompts, getStorageData, Store.get, hdata, Store.set]
  have hrev : titleContentPairs (getAllPrompts
      (importData q st (some (exportData st now)) false orc).2) =
      (titleContentPairs (getAllPrompts st)).reverse := by
    rw [hres, hget, hps]
    simp [titleContentPairs, hap, hpairs]
  refine ⟨by simp [importData, hbody], hrev, ?_⟩
  rw [hrev]
  exact List.reverse_perm _

/-- C1 at the sample store, whose two records have distinct titles. -/
theorem C1_export_import_roundtrip_witness :
    (importData Quota.unlimited sampleStore (some (exportData sampleStore 7)) false
      fixedOracle).1.success = true ∧
    titleContentPairs (getAllPrompts
      (importData Quota.unlimited sampleStore (some (exportData sampleStore 7)) false
        fixedOracle).2) = (titleContentPairs (getAllPrompts sampleStore)).reverse ∧
    (titleContentPairs (getAllPrompts
      (importData Quota.unlimited sampleStore (some (exportData sampleStore 7)) false
        fixedOracle).2)).Perm (titleContentPairs (getAllPrompts sampleStore)) :=
  C1_export_import_roundtrip Quota.unlimited sampleStore 7 fixedOracle _ _ rfl
    (by simp [sampleRecord, sampleFields]; decide) (by simp [sampleRecord, sampleFields, titleOf, lookup])
    rfl (fun _ => rfl)

/-! ### The import loop in general (C11, C12, C13, C14) -/

/-- What the loop does to the working collection and to the three counters. -/
theorem importLoop_eq (st : Store) (ids : List (Option JVal)) (orc : Nat → Oracle)
    (ds : List JVal) : ∀ (k : Nat) (s : ImportState),
    (importLoop st ids orc k s ds).existingPrompts =
      (acceptedRecords st ids orc k s.existingPrompts ds).reverse ++ s.existingPrompts ∧
    (importLoop st ids orc k s ds).importedCount =
      s.importedCount + (acceptedRecords st ids orc k s.existingPrompts ds).length ∧
    (importLoop st ids orc k s ds).importedCount + (importLoop st ids orc k s ds).skippedCount +
      (importLoop st ids orc k s ds).errorCount =
      s.importedCount + s.skippedCount + s.errorCount + ds.length := by
  induction ds with
  | nil => intro k s; simp [importLoop, acceptedRecords, acceptedPairs]
  | cons d ds ih =>
    intro k s
    obtain ⟨h1, h2, h3⟩ := ih (k + 1) (importOne st ids (orc k) s d)
    simp only [acceptedRecords] at h1 h2 ⊢
    simp only [importLoop, acceptedPairs]
    cases hb : importOneBody st ids s.existingPrompts (orc k) d with
    | error e =>
      simp only [importOne, hb] at h1 h2 h3 ⊢
      exact ⟨h1, h2, by rw [h3, List.length_cons]; omega⟩
    | ok out =>
      cases out with
      | accepted r =>
        simp only [importOne, hb] at h1 h2 h3 ⊢
        refine ⟨by rw [h1]; simp, by rw [h2]; simp; omega, by rw [h3, List.length_cons]; omega⟩
      | skipped =>
        simp only [importOne, hb] at h1 h2 h3 ⊢
        exact ⟨h1, h2, by rw [h3, List.length_cons]; omega⟩
      | invalid =>
        simp only [importOne, hb] at h1 h2 h3 ⊢
        exact ⟨h1, h2, by rw [h3, List.length_cons]; omega⟩

theorem acceptedPairs_sublist (st : Store) (ids : List (Option JVal)) (orc : Nat → Oracle)
    (ds : List JVal) : ∀ (k : Nat) (ex : List JVal),
    ((acceptedPairs st ids orc k ex ds).map Prod.fst).Sublist ds := by
  induction ds with
  | nil => intro k ex; simp [acceptedPairs]
  | cons d ds ih =>
    intro k ex
    simp only [acceptedPairs]
    split
    · simp only [List.map_cons]
      exact (ih _ _).cons₂ _
    · exact (ih _ _).cons _

/-- What a successful `importData` did when the document has a `prompts` sequence. -/
theorem importData_ok (q : Quota) (st : Store) (data : Option JVal) (merge : Bool)
    (orc : Nat → Oracle) (incoming : List JVal)
    (hp : getProp data "prompts" = .ok (some (.arr incoming)))
    (h : (importData q st data merge orc).1.success = true) :
    ∃ w ids, startingPrompts st merge = .ok w ∧ idsOf w = .ok ids ∧
      q st .data (.arr (importLoop st ids orc 0 (ImportState.init w) incoming).existingPrompts)
        = true ∧
      (importData q st data merge orc).1.stats =
        { imported := (importLoop st ids orc 0 (ImportState.init w) incoming).importedCount,
          skipped := (importLoop st ids orc 0 (ImportState.init w) incoming).skippedCount,
          errors := (importLoop st ids orc 0 (ImportState.init w) incoming).errorCount } ∧
      getAllPrompts (importData q st data merge orc).2 =
        .arr (importLoop st ids orc 0 (ImportState.init w) incoming).existingPrompts := by
  unfold importData at h ⊢
  cases hb : importDataBody q st data merge orc with
  | error e => simp [hb] at h
  | ok res =>
    simp only [hb]
    clear h
    unfold importDataBody at hb
    split at hb
    · simp [throw, throwThe, MonadExceptOf.throw] at hb
    obtain ⟨prompts, hprompts, hb⟩ := bind_eq_ok hb
    rw [hp] at hprompts
    cases hprompts
    obtain ⟨⟨s, st1⟩, hmid, hb⟩ := bind_eq_ok hb
    obtain ⟨st2, hset, hb⟩ := bind_eq_ok hb
    have hdata := importSettings_data _ _ _ _ _ hset
    simp only [pure, Except.pure, Except.ok.injEq] at hb
    subst hb
    unfold importPrompts at hmid
    simp only at hmid
    obtain ⟨w, hw, hmid⟩ := bind_eq_ok hmid
    obtain ⟨ids, hids, hmid⟩ := bind_eq_ok hmid
    rw [saveAllPrompts_arr] at hmid
    by_cases hq : q st .data (.arr
        (importLoop st ids orc 0 (ImportState.init w) incoming).existingPrompts) = true
    · simp only [hq, ↓reduceIte, pure, Except.pure, Except.ok.injEq, Prod.mk.injEq] at hmid
      obtain ⟨hs, hst⟩ := hmid
      subst hs
      refine ⟨w, ids, hw, hids, hq, rfl, ?_⟩
      simp only [getAllPrompts, getStorageData, Store.get, hdata]
      rw [← hst]
      rfl
    · simp [hq, throw, throwThe, MonadExceptOf.throw] at hmid

/-! ### Import: counters (C11) -/

/-- C11: when `importData(doc, merge)` succeeds on a document whose `prompts` field
is a sequence of n records, the three counters of the result add up to n, and the
persisted collection afterwards has as many records as the starting collection
(the persisted one when `merge`, the empty one otherwise) plus `imported`.
Importing the single record with title "X" and content "Y" into an empty store
with `merge = false` gives the counters 1, 0, 0 and a collection of one record. -/
theorem C11_import_stats (q : Quota) (st : Store) (data : Option JVal) (merge : Bool)
    (orc : Nat → Oracle) (incoming : List JVal)
    (hp : getProp data "prompts" = .ok (some (.arr incoming)))
    (h : (importData q st data merge orc).1.success = true) :
    ((importData q st data merge orc).1.stats.imported +
      (importData q st data merge orc).1.stats.skipped +
      (importData q st data merge orc).1.stats.errors = incoming.length) ∧
    (∃ before after, startingPrompts st merge = .ok before ∧
      (merge = true → getAllPrompts st = .arr before) ∧ (merge = false → before = []) ∧
      getAllPrompts (importData q st data merge orc).2 = .arr after ∧
      after.length = before.length + (importData q st data merge orc).1.stats.imported) ∧
    (∀ o : Nat → Oracle,
      (importData Quota.unlimited Store.empty (some singleRecordDocument) false o).1.stats =
        { imported := 1, skipped := 0, errors := 0 } ∧
      ∃ r, getAllPrompts (importData Quota.unlimited Store.empty (some singleRecordDocument)
        false o).2 = .arr [r]) := by
  obtain ⟨w, ids, hw, hids, _, hstats, hget⟩ := importData_ok q st data merge orc incoming hp h
  obtain ⟨h1, h2, h3⟩ := importLoop_eq st ids orc incoming 0 (ImportState.init w)
  refine ⟨?_, ?_, ?_⟩
  · rw [hstats]
    simp only [h3]
    simp [ImportState.init]
  · refine ⟨w, _, hw, ?_, ?_, hget, ?_⟩
    · intro hm
      subst hm
      exact arrayItems_ok _ _ (by simpa [startingPrompts] using hw)
    · intro hm
      subst hm
      simpa [startingPrompts] using hw.symm
    · rw [hstats, h1]
      simp only [h2]
      simp [ImportState.init]
      omega
  · intro o
    exact ⟨rfl, _, rfl⟩

/-- C11 at the sample store. -/
theorem C11_import_stats_witness :
    ((importData Quota.unlimited sampleStore (some mergeDocument) true fixedOracle).1.stats.imported +
      (importData Quota.unlimited sampleStore (some mergeDocument) true fixedOracle).1.stats.skipped +
      (importData Quota.unlimited sampleStore (some mergeDocument) true fixedOracle).1.stats.errors
        = 3) ∧
    (importData Quota.unlimited sampleStore (some mergeDocument) true fixedOracle).1.stats =
      { imported := 1, skipped := 1, errors := 1 } ∧
    ∃ before after, startingPrompts sampleStore true = .ok before ∧
      (true = true → getAllPrompts sampleStore = .arr before) ∧ (true = false → before = []) ∧
      getAllPrompts (importData Quota.unlimited sampleStore (some mergeDocument) true
        fixedOracle).2 = .arr after ∧
      after.length = before.length +
        (importData Quota.unlimited sampleStore (some mergeDocument) true fixedOracle).1.stats.imported :=
  ⟨(C11_import_stats Quota.unlimited sampleStore (some mergeDocument) true fixedOracle _ rfl rfl).1,
   rfl,
   (C11_import_stats Quota.unlimited sampleStore (some mergeDocument) true fixedOracle _ rfl
     rfl).2.1⟩

/-! ### Import: failed write (C14) -/

/-- C14: when the one write of the working collection is refused, `importData`
returns `success = false`, the message of the failed save and the counters 0, 0, 0,
whatever the loop counted, and the whole store (prompt collection, settings and
sync keys) is exactly what it was; `saveSettings` is not reached, in either
mode. -/
theorem C14_import_write_failure (q : Quota) (st : Store) (data : Option JVal) (merge : Bool)
    (orc : Nat → Oracle) (incoming w : List JVal) (ids : List (Option JVal))
    (hd : truthy data = true ∧ typeofObject data = true)
    (hp : getProp data "prompts" = .ok (some (.arr incoming)))
    (hw : startingPrompts st merge = .ok w) (hids : idsOf w = .ok ids)
    (hfail : q st .data
      (.arr (importLoop st ids orc 0 (ImportState.init w) incoming).existingPrompts) = false) :
    importData q st data merge orc =
      ({ success := false, message := "保存导入的提示词失败",
         stats := { imported := 0, skipped := 0, errors := 0 } }, st) := by
  have hb : importDataBody q st data merge orc = .error "保存导入的提示词失败" := by
    simp [importDataBody, hd.1, hd.2, hp, importPrompts, hw, hids, saveAllPrompts_arr, hfail,
      bind, Except.bind, throw, throwThe, MonadExceptOf.throw]
  simp [importData, hb]

/-- C14 with a document that carries settings, in overwrite mode. -/
theorem C14_import_write_failure_witness :
    (importLoop sampleStore [] fixedOracle 0 (ImportState.init [])
      [.obj [("title", .str "X"), ("content", .str "Y")]]).importedCount = 1 ∧
    importData Quota.noData sampleStore
      (some (.obj [("prompts", .arr [.obj [("title", .str "X"), ("content", .str "Y")]]),
        ("settings", .obj [("presetTags", .arr [.str "t"])])])) false fixedOracle =
      ({ success := false, message := "保存导入的提示词失败",
         stats := { imported := 0, skipped := 0, errors := 0 } }, sampleStore) :=
  ⟨rfl, C14_import_write_failure Quota.noData sampleStore _ false fixedOracle _ [] []
    ⟨rfl, rfl⟩ rfl rfl rfl rfl⟩

theorem mapE_exportPrompt_rel (ps : List JVal) (h : ∀ p ∈ ps, ∃ fs, p = .obj fs) :
    ∃ es, mapE exportPrompt ps = .ok es ∧ List.Forall₂ ExportOf ps es := by
  induction ps with
  | nil => exact ⟨[], rfl, List.Forall₂.nil⟩
  | cons p ps ih =>
    obtain ⟨fs, rfl⟩ := h _ (List.mem_cons_self _ _)
    obtain ⟨es, hes, hrel⟩ := ih (fun x hx => h x (List.mem_cons_of_mem _ hx))
    refine ⟨.obj (assignAll [] (ownEntries (some (.obj fs)) ++
      [("tags", if isArray (lookup "tags" fs) then (lookup "tags" fs).getD (.arr [])
        else .arr [])])) :: es, ?_, List.Forall₂.cons ⟨fs, _, rfl, rfl, ?_⟩ hrel⟩
    · simp [mapE, exportPrompt, getProp, hes, bind, Except.bind, pure, Except.pure]
    · intro k hk
      have : ¬ "tags" = k := fun e => hk e.symm
      simp [ownEntries, lookup_assignAll, lookup_append, lookup, this]

/-- The inner `try` block on a valid record with a new title, when no ids are to
be compared: the record is accepted and keeps title, content and id. -/
theorem importOneBody_accepts_kept (st : Store) (ex : List JVal) (o : Oracle)
    (df : List (String × JVal)) (t c : String) (pt : List JVal)
    (ht : lookup "title" df = some (.str t)) (ht0 : t ≠ "")
    (hc : lookup "content" df = some (.str c)) (hc0 : c ≠ "")
    (hdup : someTitleEq (some (.str t)) ex = .ok false)
    (hpt : getPresetTags st = .ok (.arr pt)) :
    ∃ rf, importOneBody st [] ex o (.obj df) = .ok (.accepted (.obj rf)) ∧
      lookup "title" rf = some (.str (trim t)) ∧ lookup "content" rf = some (.str (trim c)) ∧
      (truthy (lookup "id" df) = true → lookup "id" rf = lookup "id" df) := by
  obtain ⟨vt, hvt⟩ := validTagsOf_arr_ok pt (lookup "tags" df)
  refine ⟨[("id", if truthy (lookup "id" df) then (lookup "id" df).getD .null
        else .str (generateId o.idSuffix)),
    ("title", .str (trim t)), ("content", .str (trim c)), ("tags", .arr vt),
    ("createTime", if truthy (lookup "createTime" df) then (lookup "createTime" df).getD .null
        else .num o.createNow),
    ("updateTime", .num o.updateNow)], ?_, by simp [lookup], by simp [lookup], ?_⟩
  · simp [importOneBody, getProp, ht, hc, truthy, ht0, hc0, isDuplicate, hdup, hpt, hvt, jsTrim,
      bind, Except.bind, pure, Except.pure]
  · intro hid
    rcases hl : lookup "id" df with _ | v
    · rw [hl] at hid; simp [truthy] at hid
    · rw [hl] at hid; simp [lookup, hid]

/-- On the export of clean records with pairwise distinct titles, none of which is
in the working collection, the loop accepts every record and keeps title, content
and id. -/
theorem acceptedRecords_of_export (st : Store) (orc : Nat → Oracle) (pt : List JVal)
    (hpt : getPresetTags st = .ok (.arr pt)) (ps ds : List JVal)
    (hrel : List.Forall₂ ExportOf ps ds) : ∀ (k : Nat) (ex : List JVal),
    (∀ p ∈ ps, isCleanRecord p = true) → (ps.map titleOf).Nodup →
    (∀ x ∈ ex, (∃ fs, x = .obj fs) ∧ ∀ p ∈ ps, titleOf x ≠ titleOf p) →
    List.Forall₂ KeptAs ps (acceptedRecords st [] orc k ex ds) := by
  induction hrel with
  | nil => intro k ex _ _ _; exact List.Forall₂.nil
  | @cons p d ps ds hpd _ ih =>
    intro k ex hclean hnodup hex
    obtain ⟨fs, t, c, hp, ht, hc, ht0, hc0, htt, hct⟩ :=
      isCleanRecord_iff p (hclean p (List.mem_cons_self _ _))
    obtain ⟨fs', df, hp', rfl, hk⟩ := hpd
    rw [hp] at hp'
    cases hp'
    have hdt : lookup "title" df = some (.str t) := by rw [hk _ (by decide), ht]
    have hdc : lookup "content" df = some (.str c) := by rw [hk _ (by decide), hc]
    have hdup : someTitleEq (some (.str t)) ex = .ok false := by
      apply someTitleEq_of_distinct
      intro x hx
      refine ⟨(hex x hx).1, ?_⟩
      have := (hex x hx).2 p (List.mem_cons_self _ _)
      simpa [hp, titleOf, ht] using this
    obtain ⟨rf, hacc, hrt, hrc, hrid⟩ :=
      importOneBody_accepts_kept st ex (orc k) df t c pt hdt ht0 hdc hc0 hdup hpt
    simp only [List.map_cons, List.nodup_cons] at hnodup
    have hrest := ih (k + 1) (.obj rf :: ex)
      (fun x hx => hclean x (List.mem_cons_of_mem _ hx)) hnodup.2 (by
        intro x hx
        rcases List.mem_cons.1 hx with rfl | hx
        · refine ⟨⟨rf, rfl⟩, ?_⟩
          intro p' hp' heq
          apply hnodup.1
          rw [List.mem_map]
          refine ⟨p', hp', ?_⟩
          rw [← heq, hp]
          simp [titleOf, hrt, ht, htt]
        · exact ⟨(hex x hx).1, fun p' hp' => (hex x hx).2 p' (List.mem_cons_of_mem _ hp')⟩)
    simp only [acceptedRecords, acceptedPairs, hacc, List.map_cons]
    refine List.Forall₂.cons ?_ hrest
    subst hp
    refine ⟨?_, ?_, ?_⟩
    · simp [getProp, hrt, ht, htt]
    · simp [getProp, hrc, hc, hct]
    · intro v hv htr
      simp only [getProp, Except.ok.injEq] at hv
      subst hv
      have : truthy (lookup "id" df) = true := by rw [hk _ (by decide)]; exact htr
      simp [getProp, hrid this, hk "id" (by decide)]

/-- An import in overwrite mode of an object with a `prompts` sequence succeeds
whenever the browser accepts the write of the collection. -/
theorem importData_overwrite_succeeds (q : Quota) (st : Store) (fs : List (String × JVal))
    (es : List JVal) (orc : Nat → Oracle) (hl : lookup "prompts" fs = some (.arr es))
    (hq : ∀ v, q st .data v = true) :
    (importData q st (some (.obj fs)) false orc).1.success = true := by
  obtain ⟨st2, hst2⟩ := importSettings_ok q
    (st.set .data (.arr (importLoop st [] orc 0 (ImportState.init []) es).existingPrompts))
    fs false
  have hb : ∃ r, importDataBody q st (some (.obj fs)) false orc = .ok (r, st2) ∧
      r.success = true := by
    simp [importDataBody, truthy, typeofObject, getProp, hl, importPrompts, startingPrompts,
      idsOf, saveAllPrompts_arr, hq, bind, Except.bind, pure, Except.pure, hst2]
  obtain ⟨r, hr, hs⟩ := hb
  simp [importData, hr, hs]

/-! ### Import: placement of the accepted records (C13) -/

/-- C13: for every import that succeeds on a document whose `prompts` field is a
sequence, the incoming records that were accepted form a subsequence `a1, ..., ak`
of the document, and the persisted collection afterwards is `ak, ..., a1` (as
stored) followed by the starting working collection `W`: the persisted
collection when merging, the empty collection when overwriting. Hence, for a
store whose records are clean and have pairwise distinct titles, whose preset
list is a sequence and whose write is accepted, importing its own export in
overwrite mode stores the records in the reverse of their exported order: the
record at position `i` of the result has the title, content and id of the
record at position `i` of the reversed collection. -/
theorem C13_import_order (q : Quota) (st : Store) (orc : Nat → Oracle) :
    (∀ (data : Option JVal) (merge : Bool) (incoming : List JVal),
      getProp data "prompts" = .ok (some (.arr incoming)) →
      (importData q st data merge orc).1.success = true →
      ∃ w ids, startingPrompts st merge = .ok w ∧ idsOf w = .ok ids ∧
        ((acceptedPairs st ids orc 0 w incoming).map Prod.fst).Sublist incoming ∧
        getAllPrompts (importData q st data merge orc).2 =
          .arr ((acceptedRecords st ids orc 0 w incoming).reverse ++ w)) ∧
    (∀ (now : Int) (ps pt : List JVal), getAllPrompts st = .arr ps →
      (∀ p ∈ ps, isCleanRecord p = true) → (ps.map titleOf).Nodup →
      getPresetTags st = .ok (.arr pt) → (∀ v, q st .data v = true) →
      ∃ stored, getAllPrompts (importData q st (some (exportData st now)) false orc).2 =
          .arr stored ∧ List.Forall₂ KeptAs ps.reverse stored) := by
  constructor
  · intro data merge incoming hp h
    obtain ⟨w, ids, hw, hids, _, _, hget⟩ := importData_ok q st data merge orc incoming hp h
    refine ⟨w, ids, hw, hids, acceptedPairs_sublist _ _ _ _ _ _, ?_⟩
    rw [hget, (importLoop_eq st ids orc incoming 0 (ImportState.init w)).1]
    rfl
  · intro now ps pt hps hclean hnodup hpt hq
    have hobj : ∀ p ∈ ps, ∃ fs, p = .obj fs := by
      intro p hp
      obtain ⟨fs, _, _, rfl, _⟩ := isCleanRecord_iff p (hclean p hp)
      exact ⟨fs, rfl⟩
    obtain ⟨es, hes, hrel⟩ := mapE_exportPrompt_rel ps hobj
    have hexp : exportData st now = .obj [("prompts", .arr es), ("settings", getSettings st),
        ("exportTime", .num now), ("version", .str "1.0.0")] := by
      simp [exportData, exportDataBody, hps, arrayItems, hes, bind, Except.bind, pure,
        Except.pure]
    have hp : getProp (some (exportData st now)) "prompts" = .ok (some (.arr es)) := by
      rw [hexp]; simp [getProp, lookup]
    have hsucc : (importData q st (some (exportData st now)) false orc).1.success = true := by
      rw [hexp]
      exact importData_overwrite_succeeds q st _ es orc (by simp [lookup]) hq
    obtain ⟨w, ids, hw, hids, _, _, hget⟩ := importData_ok q st _ false orc es hp hsucc
    simp only [startingPrompts, Bool.false_eq_true, ↓reduceIte, Except.ok.injEq] at hw
    subst hw
    simp only [idsOf, Except.ok.injEq] at hids
    subst hids
    refine ⟨_, hget, ?_⟩
    rw [(importLoop_eq st [] orc es 0 (ImportState.init [])).1]
    simp only [ImportState.init, List.append_nil]
    rw [List.forall₂_reverse_iff]
    exact acceptedRecords_of_export st orc pt hpt ps es hrel 0 [] hclean hnodup (by simp)

/-- C13 at the sample store, which holds `b` in front of `a`: after the round trip
`a` is in front of `b`. -/
theorem C13_import_order_witness :
    (∃ stored, getAllPrompts (importData Quota.unlimited sampleStore
        (some (exportData sampleStore 7)) false fixedOracle).2 = .arr stored ∧
      List.Forall₂ KeptAs [sampleRecord "b" "B" "y", sampleRecord "a" "A" "x"].reverse stored) ∧
    idList (getAllPrompts sampleStore) = [some (.str "b"), some (.str "a")] ∧
    idList (getAllPrompts (importData Quota.unlimited sampleStore
        (some (exportData sampleStore 7)) false fixedOracle).2) =
      [some (.str "a"), some (.str "b")] :=
  ⟨(C13_import_order Quota.unlimited sampleStore fixedOracle).2 7 _ _ rfl
    (by simp [sampleRecord, sampleFields]; decide)
    (by simp [sampleRecord, sampleFields, titleOf, lookup]) rfl (fun _ => rfl), rfl, rfl⟩

theorem filterTags_arr (pt ts : List JVal) :
    filterTags (.arr pt) ts =
      .ok (ts.filter (fun t => pt.any (fun y => strictEq (some y) (some t)))) := by
  induction ts with
  | nil => rfl
  | cons t ts ih =>
    simp only [filterTags, jsIncludes, ih, bind, Except.bind, pure, Except.pure, List.filter_cons]

theorem acceptedPairs_mem (st : Store) (ids : List (Option JVal)) (orc : Nat → Oracle)
    (ds : List JVal) : ∀ (k : Nat) (ex : List JVal) (d r : JVal),
    (d, r) ∈ acceptedPairs st ids orc k ex ds →
    ∃ ex' k', importOneBody st ids ex' (orc k') d = .ok (.accepted r) := by
  induction ds with
  | nil => intro k ex d r h; simp [acceptedPairs] at h
  | cons x xs ih =>
    intro k ex d r h
    simp only [acceptedPairs] at h
    split at h
    · rename_i r0 hb
      rcases List.mem_cons.1 h with h | h
      · cases h
        exact ⟨ex, k, hb⟩
      · exact ih _ _ _ _ h
    · exact ih _ _ _ _ h

/-- The tags of an accepted record, when the preset list is a sequence. -/
theorem importOneBody_accepted_tags (st : Store) (ids : List (Option JVal)) (ex : List JVal)
    (o : Oracle) (d r : JVal) (pt : List JVal)
    (h : importOneBody st ids ex o d = .ok (.accepted r))
    (hpt : getPresetTags st = .ok (.arr pt)) :
    getProp (some r) "tags" = .ok (some (.arr (presetFiltered pt d))) := by
  unfold importOneBody at h
  obtain ⟨title, htitle, h⟩ := bind_eq_ok h
  by_cases ht : truthy title = true
  swap
  · simp [ht, pure, Except.pure] at h
  simp only [ht, Bool.not_true, Bool.false_eq_true, ↓reduceIte] at h
  obtain ⟨content, hcontent, h⟩ := bind_eq_ok h
  by_cases hc : truthy content = true
  swap
  · simp [hc, pure, Except.pure] at h
  simp only [hc, Bool.not_true, Bool.false_eq_true, ↓reduceIte] at h
  obtain ⟨id, hid, h⟩ := bind_eq_ok h
  obtain ⟨dup, hdup, h⟩ := bind_eq_ok h
  cases dup with
  | true => simp [pure, Except.pure] at h
  | false =>
    simp only [Bool.false_eq_true, ↓reduceIte] at h
    obtain ⟨pt', hpt', h⟩ := bind_eq_ok h
    rw [hpt] at hpt'
    cases hpt'
    obtain ⟨tags, htags, h⟩ := bind_eq_ok h
    obtain ⟨validTags, hvt, h⟩ := bind_eq_ok h
    obtain ⟨t', _, h⟩ := bind_eq_ok h
    obtain ⟨c', _, h⟩ := bind_eq_ok h
    obtain ⟨createTime, _, h⟩ := bind_eq_ok h
    simp only [pure, Except.pure, Except.ok.injEq, Outcome.accepted.injEq] at h
    subst h
    have hv : validTags = presetFiltered pt d := by
      cases d with
      | obj df =>
        simp only [getProp, Except.ok.injEq] at htags
        subst htags
        simp only [presetFiltered]
        cases hl : lookup "tags" df with
        | none =>
          rw [hl] at hvt
          simpa [validTagsOf] using hvt.symm
        | some v =>
          rw [hl] at hvt
          cases v with
          | arr ts => simpa [validTagsOf, filterTags_arr] using hvt.symm
          | _ => simpa [validTagsOf] using hvt.symm
      | null => simp [getProp] at htitle
      | _ =>
        simp only [getProp, Except.ok.injEq] at htitle
        subst htitle
        simp [truthy] at ht
    simp [getProp, lookup, hv]

/-! ### Import: tags of the accepted records (C12) -/

/-- C12: for every import that succeeds on a document whose `prompts` field is a
sequence, in either mode, when the preset list persisted before the call is the
sequence `pt`: every accepted pair (incoming record `d`, stored record `r`) has
`r.tags` equal to the tags of `d` that `pt` contains, in their order, and the
empty list when `d.tags` is not a sequence; the stored records are the ones the
persisted collection receives. The list `pt` is the one of the store before the
call also in overwrite mode, where the settings of the document are persisted
only after the loop. -/
theorem C12_import_tags (q : Quota) (st : Store) (data : Option JVal) (merge : Bool)
    (orc : Nat → Oracle) (incoming pt : List JVal)
    (hp : getProp data "prompts" = .ok (some (.arr incoming)))
    (h : (importData q st data merge orc).1.success = true)
    (hpt : getPresetTags st = .ok (.arr pt)) :
    ∃ w ids, startingPrompts st merge = .ok w ∧ idsOf w = .ok ids ∧
      getAllPrompts (importData q st data merge orc).2 =
        .arr (((acceptedPairs st ids orc 0 w incoming).map Prod.snd).reverse ++ w) ∧
      ∀ d r, (d, r) ∈ acceptedPairs st ids orc 0 w incoming →
        getProp (some r) "tags" = .ok (some (.arr (presetFiltered pt d))) := by
  obtain ⟨w, ids, hw, hids, _, _, hget⟩ := importData_ok q st data merge orc incoming hp h
  refine ⟨w, ids, hw, hids, ?_, ?_⟩
  · rw [hget, (importLoop_eq st ids orc incoming 0 (ImportState.init w)).1]
    rfl
  · intro d r hmem
    obtain ⟨ex', k', hacc⟩ := acceptedPairs_mem st ids orc incoming 0 w d r hmem
    exact importOneBody_accepted_tags st ids ex' (orc k') d r pt hacc hpt

/-- C12 on an empty store, in overwrite mode, with a document that brings the
preset list `zzz`: the record's tags are filtered against the default list that
is current while the loop runs, so `zzz` is dropped and the default tag is kept;
the document's list is persisted only afterwards. -/
theorem C12_import_tags_witness :
    (∃ w ids, startingPrompts Store.empty false = .ok w ∧ idsOf w = .ok ids ∧
      getAllPrompts (importData Quota.unlimited Store.empty (some ownSettingsDocument) false
        fixedOracle).2 =
        .arr (((acceptedPairs Store.empty ids fixedOracle 0 w
          [.obj [("title", .str "X"), ("content", .str "Y"),
            ("tags", .arr [.str "zzz", .str "工作"])]]).map Prod.snd).reverse ++ w) ∧
      ∀ d r, (d, r) ∈ acceptedPairs Store.empty ids fixedOracle 0 w
          [.obj [("title", .str "X"), ("content", .str "Y"),
            ("tags", .arr [.str "zzz", .str "工作"])]] →
        getProp (some r) "tags" = .ok (some (.arr (presetFiltered
          [.str "工作", .str "学习", .str "编程", .str "写作", .str "生活"] d)))) ∧
    getAllPrompts (importData Quota.unlimited Store.empty (some ownSettingsDocument) false
      fixedOracle).2 =
      .arr [.obj [("id", .str "prompt_k"), ("title", .str "X"), ("content", .str "Y"),
        ("tags", .arr [.str "工作"]), ("createTime", .num 1000), ("updateTime", .num 1000)]] ∧
    getPresetTags (importData Quota.unlimited Store.empty (some ownSettingsDocument) false
      fixedOracle).2 = .ok (.arr [.str "zzz"]) :=
  ⟨C12_import_tags Quota.unlimited Store.empty (some ownSettingsDocument) false fixedOracle _ _
    rfl rfl rfl, rfl, rfl⟩

/-! ### Settings: the validation of the preset list -/

theorem filter_isEmpty (tags : List JVal) :
    tags.filter (fun tag => !isEmpty tag) = (nonBlankStrings tags).map JVal.str := by
  induction tags with
  | nil => rfl
  | cons t ts ih =>
    rw [List.filter_cons, ih]
    cases t with
    | str s =>
      by_cases hs : trim s = ""
      · simp [isEmpty, nonBlankStrings, hs]
      · have : s ≠ "" := by
          intro h
          subst h
          exact hs (by decide)
        simp [isEmpty, nonBlankStrings, hs, truthy, this]
    | _ => simp [isEmpty, nonBlankStrings]

theorem any_map_str (seen : List String) (x : String) :
    (seen.map JVal.str).any (fun y => strictEq (some y) (some (.str x))) = decide (x ∈ seen) := by
  induction seen with
  | nil => simp
  | cons s ss ih =>
    rw [List.map_cons, List.any_cons, ih]
    have e : strictEq (some (JVal.str s)) (some (.str x)) = (s == x) := rfl
    rw [e]
    by_cases h : s = x
    · simp [h]
    · have h' : ¬ x = s := fun e => h e.symm
      simp [h, h']

theorem dedupFirst_strings (xs : List String) : ∀ seen : List String,
    dedupFirst (seen.map JVal.str) (xs.map JVal.str) =
      (seen.reverse ++ (firstOccurrences xs).filter (fun y => decide (y ∉ seen))).map JVal.str := by
  induction xs with
  | nil => intro seen; simp [dedupFirst, firstOccurrences]
  | cons x xs ih =>
    intro seen
    simp only [List.map_cons, dedupFirst, firstOccurrences, List.filter_cons]
    rw [any_map_str]
    by_cases hx : x ∈ seen
    · simp only [hx, decide_True, ↓reduceIte, not_true_eq_false, decide_False,
        Bool.false_eq_true, ih, List.filter_filter]
      congr 2
      apply List.filter_congr
      intro y _
      by_cases hy : y ∈ seen
      · simp [hy]
      · have : y ≠ x := fun e => hy (e ▸ hx)
        simp [hy, this]
    · have h2 := ih (x :: seen)
      simp only [List.map_cons] at h2
      simp only [hx, decide_False, Bool.false_eq_true, ↓reduceIte, not_false_eq_true,
        decide_True, h2, List.filter_filter, List.reverse_cons, List.append_assoc,
        List.singleton_append, List.map_append, List.map_cons]
      congr 3
      apply List.filter_congr
      intro y _
      simp only [List.mem_cons, not_or]
      by_cases hy : y ∈ seen <;> by_cases hyx : y = x <;> simp [hy, hyx]

theorem uniqueArray_filter (tags : List JVal) :
    uniqueArray (some (.arr (tags.filter (fun tag => !isEmpty tag)))) =
      (firstOccurrences (nonBlankStrings tags)).map JVal.str := by
  rw [filter_isEmpty]
  have := dedupFirst_strings (nonBlankStrings tags) []
  simpa [uniqueArray] using this

/-- The list `firstOccurrences l` has no duplicates, has the members of `l`, and
is a subsequence of `l`. -/
theorem firstOccurrences_spec (l : List String) :
    (firstOccurrences l).Nodup ∧ (∀ x, x ∈ firstOccurrences l ↔ x ∈ l) ∧
      (firstOccurrences l).Sublist l := by
  induction l with
  | nil => simp [firstOccurrences]
  | cons a l ih =>
    obtain ⟨h1, h2, h3⟩ := ih
    refine ⟨?_, ?_, ?_⟩
    · simp only [firstOccurrences, List.nodup_cons, List.mem_filter, bne_self_eq_false,
        Bool.false_eq_true, and_false, not_false_eq_true, true_and]
      exact h1.filter _
    · intro x
      simp only [firstOccurrences, List.mem_cons, List.mem_filter, h2, bne_iff_ne, ne_eq]
      by_cases hx : x = a <;> simp [hx]
    · simp only [firstOccurrences]
      exact List.Sublist.cons₂ _ ((List.filter_sublist _).trans h3)

/-- The object `saveSettings` computes and hands to the storage layer. -/
theorem saveSettings_value (q : Quota) (st : Store) (settings : Option JVal) :
    ∃ vs, saveSettings q st settings = setStorageData q st .settings (.obj vs) ∧
      lookup "presetTags" vs =
        some (expectedPresetTags (lookup "presetTags" (ownEntries settings))) ∧
      ∀ k, k ≠ "presetTags" →
        lookup k vs = (lookup k (ownEntries settings)).or
          (lookup k [("presetTags", defaultPresetTags), ("version", .str "1.0.0")]) := by
  unfold saveSettings
  simp only []
  have hl : lookup "presetTags"
      (assignAll [] (ownEntries (some DEFAULT_SETTINGS) ++ ownEntries settings)) =
      (lookup "presetTags" (ownEntries settings)).or (some defaultPresetTags) := by
    rw [lookup_assignAll, List.nil_append, lookup_append]
    rfl
  have hk : ∀ k, lookup k
      (assignAll [] (ownEntries (some DEFAULT_SETTINGS) ++ ownEntries settings)) =
      (lookup k (ownEntries settings)).or
        (lookup k [("presetTags", defaultPresetTags), ("version", .str "1.0.0")]) := by
    intro k
    rw [lookup_assignAll, List.nil_append, lookup_append]
    rfl
  rw [hl]
  cases hs : lookup "presetTags" (ownEntries settings) with
  | none =>
    refine ⟨_, rfl, ?_, ?_⟩
    · simp only [Option.or, defaultPresetTags, lookup_setField, ↓reduceIte, expectedPresetTags,
        uniqueArray_filter]
      rfl
    · intro k hkne
      simp only [Option.or, defaultPresetTags, lookup_setField, hkne, ↓reduceIte, hk, hs]
  | some v =>
    cases v with
    | arr tags =>
      refine ⟨_, rfl, ?_, ?_⟩
      · simp only [Option.or, lookup_setField, ↓reduceIte, expectedPresetTags,
          uniqueArray_filter]
      · intro k hkne
        simp only [Option.or, lookup_setField, hkne, ↓reduceIte, hk]
    | _ =>
      refine ⟨_, rfl, ?_, ?_⟩
      · simp only [Option.or, lookup_setField, ↓reduceIte, expectedPresetTags]
      · intro k hkne
        simp only [Option.or, lookup_setField, hkne, ↓reduceIte, hk]

/-! ### Saving settings (C15) -/

/-- C15: for every settings value, after a successful `saveSettings(settings)`
the persisted settings are an object whose `presetTags` is the default tag list
when the supplied `presetTags` is missing or not a sequence, and otherwise the
supplied sequence without the entries that are not non-blank strings and then
without duplicates, the first occurrence of each kept in its original order;
every other key has the supplied value, or the default value when the input
lacks the key. The last part compares the expression of the source with the
description for every supplied sequence. -/
theorem C15_saveSettings (q : Quota) (st : Store) (settings : Option JVal)
    (h : (saveSettings q st settings).1 = true) :
    ∃ vs, getSettings (saveSettings q st settings).2 = .obj vs ∧
      lookup "presetTags" vs =
        some (expectedPresetTags (lookup "presetTags" (ownEntries settings))) ∧
      (∀ k, k ≠ "presetTags" →
        lookup k vs = (lookup k (ownEntries settings)).or
          (lookup k [("presetTags", defaultPresetTags), ("version", .str "1.0.0")])) ∧
      (∀ tags, lookup "presetTags" (ownEntries settings) = some (.arr tags) →
        uniqueArray (some (.arr (tags.filter (fun tag => !isEmpty tag)))) =
          (firstOccurrences (nonBlankStrings tags)).map JVal.str) := by
  obtain ⟨vs, hv, hp, hk⟩ := saveSettings_value q st settings
  refine ⟨vs, ?_, hp, hk, fun tags _ => uniqueArray_filter tags⟩
  rw [hv] at h ⊢
  unfold setStorageData at h ⊢
  by_cases hq : q st .settings (.obj vs) = true
  · simp [hq, getSettings, getStorageData, Store.get, Store.set]
  · simp [hq] at h

/-- C15 on a settings object with blank, repeated and non-string tags and an extra
key, and on one whose `presetTags` is a string. -/
theorem C15_saveSettings_witness :
    (∃ vs, getSettings (saveSettings Quota.unlimited sampleStore (some untidySettings)).2 = .obj vs ∧
      lookup "presetTags" vs =
        some (expectedPresetTags (lookup "presetTags" (ownEntries (some untidySettings)))) ∧
      (∀ k, k ≠ "presetTags" →
        lookup k vs = (lookup k (ownEntries (some untidySettings))).or
          (lookup k [("presetTags", defaultPresetTags), ("version", .str "1.0.0")])) ∧
      (∀ tags, lookup "presetTags" (ownEntries (some untidySettings)) = some (.arr tags) →
        uniqueArray (some (.arr (tags.filter (fun tag => !isEmpty tag)))) =
          (firstOccurrences (nonBlankStrings tags)).map JVal.str)) ∧
    getSettings (saveSettings Quota.unlimited sampleStore (some untidySettings)).2 =
      .obj [("presetTags", .arr [.str "b", .str "a", .str "a "]), ("version", .str "1.0.0"),
        ("theme", .str "dark")] ∧
    getPresetTags (saveSettings Quota.unlimited sampleStore
      (some (.obj [("presetTags", .str "x")]))).2 = .ok defaultPresetTags :=
  ⟨C15_saveSettings Quota.unlimited sampleStore (some untidySettings) rfl, rfl, rfl⟩

/-! ### Replacing the preset list (C16) -/

/-- C16: on every store whose settings are an object (the defaults when nothing
is stored) and whose settings write is accepted, `updatePresetTags([])` returns
`true` and `getPresetTags()` afterwards returns the empty list, not the default
tag list; and for every store, every argument and every outcome the call leaves
the persisted prompt collection, with the tags of every prompt, as it was. -/
theorem C16_updatePresetTags_empty (q : Quota) (st : Store) :
    (∀ fs, getSettings st = .obj fs → (∀ v, q st .settings v = true) →
      ∃ st2, updatePresetTags q st (.arr []) = .ok (true, st2) ∧
        getPresetTags st2 = .ok (.arr []) ∧ getPresetTags st2 ≠ .ok defaultPresetTags) ∧
    (∀ tags r st2, updatePresetTags q st tags = .ok (r, st2) →
      st2.data = st.data ∧ getAllPrompts st2 = getAllPrompts st) := by
  constructor
  · intro fs hs hq
    obtain ⟨vs, hv, hp, _⟩ := saveSettings_value q st
      (some (.obj (setField "presetTags" (.arr []) fs)))
    have hp2 : lookup "presetTags" vs = some (.arr []) := by
      rw [hp]
      simp [ownEntries, lookup_setField, expectedPresetTags, firstOccurrences, nonBlankStrings]
    have hget : getPresetTags (st.set .settings (.obj vs)) = .ok (.arr []) := by
      simp [getPresetTags, getSettings, getStorageData, Store.get, Store.set, getProp, hp2,
        truthy, bind, Except.bind, pure, Except.pure]
    refine ⟨st.set .settings (.obj vs), ?_, hget, ?_⟩
    · simp [updatePresetTags, hs, hv, setStorageData, hq]
    · rw [hget]
      simp [defaultPresetTags]
  · intro tags r st2 h
    have gen : ∀ s, saveSettings q st s = (r, st2) → st2.data = st.data := by
      intro s hs
      have hk := (saveSettings_keeps q st s).1
      rw [hs] at hk
      exact hk
    have hd : st2.data = st.data := by
      unfold updatePresetTags at h
      split at h
      · cases h
      all_goals
        simp only [Except.ok.injEq] at h
        exact gen _ h
    exact ⟨hd, by simp [getAllPrompts, getStorageData, Store.get, hd]⟩

/-- C16 on the sample store, whose two prompts carry a default tag and whose
settings are the defaults: after the call the preset list is empty and the
prompts still carry the tag. -/
theorem C16_updatePresetTags_empty_witness :
    (∃ st2, updatePresetTags Quota.unlimited sampleStore (.arr []) = .ok (true, st2) ∧
      getPresetTags st2 = .ok (.arr []) ∧ getPresetTags st2 ≠ .ok defaultPresetTags) ∧
    getPresetTags sampleStore = .ok defaultPresetTags ∧
    (updatePresetTags Quota.unlimited sampleStore (.arr [])).toOption.map
        (fun r => getAllPrompts r.2) =
      some (.arr [sampleRecord "b" "B" "y", sampleRecord "a" "A" "x"]) :=
  ⟨(C16_updatePresetTags_empty Quota.unlimited sampleStore).1 _ rfl (fun _ => rfl), rfl, rfl⟩

theorem acceptedPairs_mem_incoming (st : Store) (ids : List (Option JVal)) (orc : Nat → Oracle)
    (ds : List JVal) (k : Nat) (ex : List JVal) (d r : JVal)
    (h : (d, r) ∈ acceptedPairs st ids orc k ex ds) : d ∈ ds :=
  (acceptedPairs_sublist st ids orc ds k ex).subset
    (List.mem_map.2 ⟨(d, r), h, rfl⟩)

/-- The timestamps of an accepted record. -/
theorem importOneBody_accepted_times (st : Store) (ids : List (Option JVal)) (ex : List JVal)
    (o : Oracle) (d r : JVal) (h : importOneBody st ids ex o d = .ok (.accepted r)) :
    ∃ fs rf, d = .obj fs ∧ r = .obj rf ∧
      lookup "createTime" rf = some (if truthy (lookup "createTime" fs) then
        (lookup "createTime" fs).getD .null else .num o.createNow) ∧
      lookup "updateTime" rf = some (.num o.updateNow) := by
  unfold importOneBody at h
  obtain ⟨title, htitle, h⟩ := bind_eq_ok h
  by_cases ht : truthy title = true
  swap
  · simp [ht, pure, Except.pure] at h
  simp only [ht, Bool.not_true, Bool.false_eq_true, ↓reduceIte] at h
  obtain ⟨content, hcontent, h⟩ := bind_eq_ok h
  by_cases hc : truthy content = true
  swap
  · simp [hc, pure, Except.pure] at h
  simp only [hc, Bool.not_true, Bool.false_eq_true, ↓reduceIte] at h
  obtain ⟨id, hid, h⟩ := bind_eq_ok h
  obtain ⟨dup, hdup, h⟩ := bind_eq_ok h
  cases dup with
  | true => simp [pure, Except.pure] at h
  | false =>
    simp only [Bool.false_eq_true, ↓reduceIte] at h
    obtain ⟨pt, _, h⟩ := bind_eq_ok h
    obtain ⟨tags, _, h⟩ := bind_eq_ok h
    obtain ⟨validTags, _, h⟩ := bind_eq_ok h
    obtain ⟨t', _, h⟩ := bind_eq_ok h
    obtain ⟨c', _, h⟩ := bind_eq_ok h
    obtain ⟨createTime, hct, h⟩ := bind_eq_ok h
    simp only [pure, Except.pure, Except.ok.injEq, Outcome.accepted.injEq] at h
    subst h
    cases d with
    | obj fs =>
      simp only [getProp, Except.ok.injEq] at hct
      subst hct
      exact ⟨fs, _, rfl, rfl, by simp [lookup], by simp [lookup]⟩
    | null => simp [getProp] at htitle
    | _ =>
      simp only [getProp, Except.ok.injEq] at htitle
      subst htitle
      simp [truthy] at ht

/-- What a successful run of the `try` block of `addPrompt` did. -/
theorem addPromptBody_ok (q : Quota) (st : Store) (promptData : Option JVal)
    (idSuffix : String) (t1 t2 : Int) (r : JVal) (st2 : Store)
    (h : addPromptBody q st promptData idSuffix t1 t2 = .ok (r, st2)) :
    ∃ rf ps, r = .obj rf ∧ getAllPrompts st = .arr ps ∧
      st2 = st.set .data (.arr (.obj rf :: ps)) ∧
      lookup "createTime" rf = some (.num t1) ∧ lookup "updateTime" rf = some (.num t2) := by
  unfold addPromptBody at h
  obtain ⟨title, _, h⟩ := bind_eq_ok h
  by_cases ht : truthy title = true
  swap
  · simp [ht, throw, throwThe, MonadExceptOf.throw, bind, Except.bind] at h
  simp only [ht, Bool.not_true, Bool.false_eq_true, ↓reduceIte] at h
  obtain ⟨_, _, h⟩ := bind_eq_ok h
  obtain ⟨content, _, h⟩ := bind_eq_ok h
  by_cases hc : truthy content = true
  swap
  · simp [hc, throw, throwThe, MonadExceptOf.throw, bind, Except.bind] at h
  simp only [hc, Bool.not_true, Bool.false_eq_true, ↓reduceIte] at h
  obtain ⟨_, _, h⟩ := bind_eq_ok h
  obtain ⟨t, _, h⟩ := bind_eq_ok h
  obtain ⟨c, _, h⟩ := bind_eq_ok h
  obtain ⟨tags, _, h⟩ := bind_eq_ok h
  obtain ⟨ps, hps, h⟩ := bind_eq_ok h
  have hps2 := arrayItems_ok _ _ hps
  rw [saveAllPrompts_arr] at h
  by_cases hq : q st .data (.arr (.obj [("id", .str (generateId idSuffix)), ("title", .str t),
      ("content", .str c),
      ("tags", if isArray tags = true then tags.getD (.arr []) else .arr []),
      ("createTime", .num t1), ("updateTime", .num t2)] :: ps)) = true
  · simp only [hq, ↓reduceIte, pure, Except.pure, Except.ok.injEq, Prod.mk.injEq] at h
    obtain ⟨hr, hst⟩ := h
    exact ⟨_, ps, hr.symm, hps2, hst.symm, by simp [lookup], by simp [lookup]⟩
  · simp [hq, throw, throwThe, MonadExceptOf.throw] at h

theorem timesOrdered_set (st : Store) (ps : List JVal) (h : ∀ p ∈ ps, timeOrdered p = true) :
    timesOrdered (st.set .data (.arr ps)) = true := by
  simp only [timesOrdered, getAllPrompts, getStorageData, Store.get, Store.set, List.all_eq_true]
  exact h

theorem timesOrdered_arr (st : Store) (h : timesOrdered st = true) :
    ∃ ps, getAllPrompts st = .arr ps ∧ ∀ p ∈ ps, timeOrdered p = true := by
  unfold timesOrdered at h
  cases hg : getAllPrompts st with
  | arr ps =>
    rw [hg] at h
    exact ⟨ps, rfl, by simpa [List.all_eq_true] using h⟩
  | _ => rw [hg] at h; simp at h

theorem timesOrdered_of_data (st st2 : Store) (hd : st2.data = st.data)
    (h : timesOrdered st = true) : timesOrdered st2 = true := by
  simpa [timesOrdered, getAllPrompts, getStorageData, Store.get, hd] using h

/-- An import of a document whose `prompts` field is not a sequence leaves the
persisted collection as it was. -/
theorem importData_without_prompts (q : Quota) (st : Store) (data : Option JVal) (merge : Bool)
    (orc : Nat → Oracle) (h : ∀ incoming, getProp data "prompts" ≠ .ok (some (.arr incoming))) :
    (importData q st data merge orc).2.data = st.data := by
  unfold importData
  cases hb : importDataBody q st data merge orc with
  | error e => rfl
  | ok res =>
    simp only []
    unfold importDataBody at hb
    split at hb
    · simp [throw, throwThe, MonadExceptOf.throw] at hb
    obtain ⟨prompts, hprompts, hb⟩ := bind_eq_ok hb
    obtain ⟨⟨s, st1⟩, hmid, hb⟩ := bind_eq_ok hb
    obtain ⟨st2, hset, hb⟩ := bind_eq_ok hb
    simp only [pure, Except.pure, Except.ok.injEq] at hb
    subst hb
    have h1 : st1 = st := by
      unfold importPrompts at hmid
      split at hmid
      · rename_i incoming
        exact absurd hprompts (h incoming)
      · simp only [pure, Except.pure, Except.ok.injEq, Prod.mk.injEq] at hmid
        exact hmid.2.symm
    subst h1
    exact importSettings_data q _ _ data merge hset

/-! ### The order of the two timestamps (C17) -/

/-- C17 (counterexample): the sample store satisfies the invariant (every record
has `createTime` 5 and `updateTime` 6). Importing into it, while the clock reads
1000, a record that supplies `createTime` 5000 succeeds and stores that record
with `createTime` 5000 and `updateTime` 1000; and updating the record `a` at the
clock reading 1000 with a patch that carries `createTime` 5000 succeeds and stores
`createTime` 5000 with `updateTime` 1000. The clock never went backwards. -/
theorem C17_counterexample :
    timesOrdered sampleStore = true ∧
    (importData Quota.unlimited sampleStore (some futureDocument) true fixedOracle).1.success
      = true ∧
    timesOrdered (importData Quota.unlimited sampleStore (some futureDocument) true
      fixedOracle).2 = false ∧
    (updatePrompt Quota.unlimited sampleStore (some (.str "a"))
      (some (.obj [("createTime", .num 5000)])) 1000).1 =
      .obj [("id", .str "a"), ("title", .str "A"), ("content", .str "x"),
        ("tags", .arr [.str "工作"]), ("createTime", .num 5000), ("updateTime", .num 1000)] ∧
    timesOrdered (updatePrompt Quota.unlimited sampleStore (some (.str "a"))
      (some (.obj [("createTime", .num 5000)])) 1000).2 = false := by
  refine ⟨by decide, by decide, by decide, rfl, by decide⟩

/-- C17 (amended): on a store whose persisted collection satisfies the invariant
(every record has numeric timestamps with `updateTime >= createTime`), the
invariant holds again (1) after a successful `addPrompt` whose two clock readings
do not go backwards; (2) after a successful `updatePrompt` whose patch has no
`createTime` field, when no stored record was created later than the clock
reading of the update; (3) after a successful `importData` of any document, in
either mode, when for every record the reading for `createTime` is not after the
one for `updateTime`, and every truthy `createTime` that an incoming record
supplies is a number no later than the clock readings of the import. -/
theorem C17_time_order_preserved (q : Quota) (st : Store) (h0 : timesOrdered st = true) :
    (∀ (promptData : Option JVal) (idSuffix : String) (t1 t2 : Int), t1 ≤ t2 →
      (addPrompt q st promptData idSuffix t1 t2).1 ≠ .null →
      timesOrdered (addPrompt q st promptData idSuffix t1 t2).2 = true) ∧
    (∀ (id updateData : Option JVal) (now : Int),
      lookup "createTime" (ownEntries updateData) = none →
      (∀ ps, getAllPrompts st = .arr ps → ∀ p ∈ ps, createdBy now p = true) →
      (updatePrompt q st id updateData now).1 ≠ .null →
      timesOrdered (updatePrompt q st id updateData now).2 = true) ∧
    (∀ (data : Option JVal) (merge : Bool) (orc : Nat → Oracle),
      (∀ k, (orc k).createNow ≤ (orc k).updateNow) →
      (∀ incoming, getProp data "prompts" = .ok (some (.arr incoming)) →
        ∀ d ∈ incoming, ∀ k, suppliedCreateTimeBy (orc k).updateNow d = true) →
      (importData q st data merge orc).1.success = true →
      timesOrdered (importData q st data merge orc).2 = true) := by
  obtain ⟨ps, hps, hinv⟩ := timesOrdered_arr st h0
  refine ⟨?_, ?_, ?_⟩
  · intro promptData idSuffix t1 t2 ht hok
    unfold addPrompt at hok ⊢
    cases hb : addPromptBody q st promptData idSuffix t1 t2 with
    | error e => simp [hb] at hok
    | ok res =>
      obtain ⟨r, st2⟩ := res
      obtain ⟨rf, ps2, hr, hps2, hst, hc, hu⟩ := addPromptBody_ok q st promptData idSuffix t1 t2 r st2 hb
      simp only []
      rw [hst]
      apply timesOrdered_set
      rw [hps] at hps2
      cases hps2
      intro p hp
      rcases List.mem_cons.1 hp with hp | hp
      · subst hp
        simp [timeOrdered, hc, hu, ht]
      · exact hinv p hp
  · intro id updateData now hct hcb hok
    unfold updatePrompt at hok ⊢
    cases hb : updatePromptBody q st id updateData now with
    | error e => simp [hb] at hok
    | ok res =>
      obtain ⟨r, st2⟩ := res
      obtain ⟨ps2, i, p, merged, hps2, _, hp, hr, hst, hl⟩ :=
        updatePromptBody_ok q st id updateData now r st2 hb
      simp only []
      rw [hst]
      apply timesOrdered_set
      rw [hps] at hps2
      cases hps2
      have hpm : p ∈ ps := List.get?_mem hp
      have hcp := hcb ps hps p hpm
      have hr_ord : timeOrdered r = true := by
        cases p with
        | obj fs =>
          have h1 := hl "createTime" (by decide) (by decide)
          have h2 := hl "updateTime" (by decide) (by decide)
          have hown : ownEntries (some (JVal.obj fs)) = fs := rfl
          rw [lookup_append, lookup_append, hct, hown] at h1
          rw [lookup_append] at h2
          have hnow : lookup "updateTime" [("updateTime", JVal.num now)] = some (.num now) := rfl
          have hno : lookup "createTime" [("updateTime", JVal.num now)] = none := rfl
          rw [hnow] at h2
          rw [hno] at h1
          simp only [createdBy] at hcp
          cases hc : lookup "createTime" fs with
          | none => simp [hc] at hcp
          | some v =>
            cases v with
            | num c =>
              simp only [hc, decide_eq_true_eq] at hcp
              rw [hr]
              simp [timeOrdered, h1, h2, hc, lookup, Option.or, hcp]
            | _ => simp [hc] at hcp
        | _ => simp [createdBy] at hcp
      intro x hx
      rcases List.mem_or_eq_of_mem_set hx with hx | hx
      · exact hinv x hx
      · rw [hx]; exact hr_ord
  · intro data merge orc horc hsup hs
    by_cases hex : ∃ incoming, getProp data "prompts" = .ok (some (.arr incoming))
    · obtain ⟨incoming, hp⟩ := hex
      obtain ⟨w, ids, hw, hids, _, _, hget⟩ := importData_ok q st data merge orc incoming hp hs
      have hwinv : ∀ p ∈ w, timeOrdered p = true := by
        cases merge with
        | true =>
          simp only [startingPrompts, ↓reduceIte, hps, arrayItems, Except.ok.injEq] at hw
          subst hw
          exact hinv
        | false =>
          simp only [startingPrompts, Bool.false_eq_true, ↓reduceIte, Except.ok.injEq] at hw
          subst hw
          intro p hp
          cases hp
      rw [(importLoop_eq st ids orc incoming 0 (ImportState.init w)).1] at hget
      simp only [timesOrdered, hget, List.all_eq_true]
      intro x hx
      rcases List.mem_append.1 hx with hx | hx
      · simp only [acceptedRecords, List.mem_reverse, List.mem_map] at hx
        obtain ⟨⟨d, r⟩, hmem, hxr⟩ := hx
        simp only at hxr
        subst hxr
        have hmem2 : (d, r) ∈ acceptedPairs st ids orc 0 w incoming := hmem
        have hd := acceptedPairs_mem_incoming st ids orc incoming 0 w d r hmem2
        obtain ⟨ex2, k2, hacc⟩ := acceptedPairs_mem st ids orc incoming 0 w d r hmem2
        obtain ⟨fs, rf, hdf, hrf, hc, hu⟩ := importOneBody_accepted_times st ids ex2 (orc k2) d r hacc
        have hsd := hsup incoming hp d hd k2
        have hor := horc k2
        subst hdf
        subst hrf
        simp only [suppliedCreateTimeBy] at hsd
        cases hl : lookup "createTime" fs with
        | none => simp [timeOrdered, hc, hu, hl, truthy, hor]
        | some v =>
          cases v with
          | num c =>
            simp only [hl, Bool.or_eq_true, beq_iff_eq, decide_eq_true_eq] at hsd
            by_cases hc0 : c = 0
            · simp [timeOrdered, hc, hu, hl, truthy, hc0, hor]
            · have hcle : c ≤ (orc k2).updateNow := by
                rcases hsd with hsd | hsd
                · exact absurd hsd hc0
                · exact hsd
              simp [timeOrdered, hc, hu, hl, truthy, hc0, hcle]
          | _ =>
            simp only [hl, Bool.not_eq_true'] at hsd
            simp [timeOrdered, hc, hu, hl, hsd, hor]
      · exact hwinv x hx
    · have hno : ∀ incoming, getProp data "prompts" ≠ .ok (some (.arr incoming)) :=
        fun incoming he => hex ⟨incoming, he⟩
      exact timesOrdered_of_data st _ (importData_without_prompts q st data merge orc hno) h0

/-- C17 (amended) on the sample store: adding a prompt with the clock readings
1000 and 1001, updating the title of `a` at the reading 1000, and importing three
records without a `createTime` at the reading 1000 all keep the invariant. -/
theorem C17_time_order_preserved_witness :
    timesOrdered sampleStore = true ∧
    timesOrdered (addPrompt Quota.unlimited sampleStore (some plainInput) "k" 1000 1001).2
      = true ∧
    timesOrdered (updatePrompt Quota.unlimited sampleStore (some (.str "a"))
      (some samplePatch) 1000).2 = true ∧
    timesOrdered (importData Quota.unlimited sampleStore (some mergeDocument) true
      fixedOracle).2 = true :=
  ⟨by decide,
   (C17_time_order_preserved Quota.unlimited sampleStore (by decide)).1 (some plainInput) "k"
     1000 1001 (by decide) (by intro h; cases h),
   (C17_time_order_preserved Quota.unlimited sampleStore (by decide)).2.1 (some (.str "a"))
     (some samplePatch) 1000 rfl
     (by intro ps hps; cases hps; decide)
     (by intro h; cases h),
   (C17_time_order_preserved Quota.unlimited sampleStore (by decide)).2.2 (some mergeDocument)
     true fixedOracle (fun _ => le_refl (1000 : Int))
     (by
      intro incoming h d hd k
      cases h
      revert d
      show ∀ d ∈ _, suppliedCreateTimeBy 1000 d = true
      decide)
     rfl⟩

/-! ### Cloud sync: reading and writing the sync state -/

theorem getSyncState_settled {σ : Type} (env : SyncEnv σ) (w : World σ)
    (fs : List (String × JVal)) (h : Settled w.store fs) :
    getSyncState env w = (.ok (.obj (viewOf fs ((lookup "deviceId" fs).getD .null))), w) := by
  obtain ⟨h1, h2⟩ := h
  simp [getSyncState, bind, SyncM.bind, SyncM.readStore, SyncM.ofExcept, readLocal, Store.get,
    h1, getProp, h2, pure, viewOf]

theorem getSyncState_fresh {σ : Type} (env : SyncEnv σ) (w : World σ)
    (fs : List (String × JVal)) (h1 : w.store.syncState = some (.obj fs))
    (h2 : truthy (lookup "deviceId" fs) = false)
    (hq : ∀ st v, env.quota st .syncState v = true) :
    getSyncState env w =
      (.ok (.obj (viewOf fs (.str ("device_" ++ env.deviceSuffix w.generated)))),
        { w with generated := w.generated + 1,
                 store := w.store.set .syncState
                   (.obj (setField "deviceId" (.str ("device_" ++ env.deviceSuffix w.generated))
                     fs)) }) := by
  have ho : ∀ d, orElse (some (JVal.obj fs)) d = .obj fs := fun _ => rfl
  simp [getSyncState, bind, SyncM.bind, SyncM.readStore, SyncM.ofExcept, readLocal, Store.get,
    h1, getProp, h2, pure, viewOf, ensureDeviceId, ho, writeLocal, hq]

theorem SameOutside.refl {σ : Type} (w : World σ) : SameOutside w w :=
  ⟨Eq.refl _, Eq.refl _, Eq.refl _, Eq.refl _, Eq.refl _⟩

theorem SameOutside.trans {σ : Type} {a b c : World σ} (h1 : SameOutside a b)
    (h2 : SameOutside b c) : SameOutside a c :=
  ⟨h2.1.trans h1.1, h2.2.1.trans h1.2.1, h2.2.2.1.trans h1.2.2.1, h2.2.2.2.1.trans h1.2.2.2.1,
    h2.2.2.2.2.trans h1.2.2.2.2⟩

theorem truthy_device (s : String) : truthy (some (.str ("device_" ++ s))) = true := by
  have : "device_" ++ s ≠ "" := by
    intro h
    have h2 := congrArg String.data h
    rw [String.data_append] at h2
    have h3 : "device_".data = ['d', 'e', 'v', 'i', 'c', 'e', '_'] := rfl
    have h4 : "".data = [] := rfl
    rw [h3, h4] at h2
    cases h2
  simp [truthy, this]

theorem orElse_of_truthy (v : JVal) (d : JVal) (h : truthy (some v) = true) :
    orElse (some v) d = v := by
  simp [orElse, h]

theorem orElse_idem (v : Option JVal) (d : JVal) : orElse (some (orElse v d)) d = orElse v d := by
  unfold orElse
  by_cases h : truthy v = true
  · cases v with
    | none => simp [truthy] at h
    | some x => simp [h]
  · simp [h]

/-- Reading the sync state of a store that holds an object, when the write of the
sync state is accepted: afterwards the stored object has a device id and the
same other fields, and nothing else has changed. -/
theorem getSyncState_obj {σ : Type} (env : SyncEnv σ) (w : World σ)
    (fs : List (String × JVal)) (h1 : w.store.syncState = some (.obj fs))
    (hq : ∀ st v, env.quota st .syncState v = true) :
    ∃ fs1 w1, getSyncState env w =
        (.ok (.obj (viewOf fs1 ((lookup "deviceId" fs1).getD .null))), w1) ∧
      Settled w1.store fs1 ∧ (∀ k, k ≠ "deviceId" → lookup k fs1 = lookup k fs) ∧
      SameOutside w w1 := by
  by_cases h2 : truthy (lookup "deviceId" fs) = true
  · exact ⟨fs, w, getSyncState_settled env w fs ⟨h1, h2⟩, ⟨h1, h2⟩, fun _ _ => rfl,
      SameOutside.refl w⟩
  · have h2f : truthy (lookup "deviceId" fs) = false := by simpa using h2
    refine ⟨setField "deviceId" (.str ("device_" ++ env.deviceSuffix w.generated)) fs,
      { w with generated := w.generated + 1,
               store := w.store.set .syncState
                 (.obj (setField "deviceId" (.str ("device_" ++ env.deviceSuffix w.generated))
                   fs)) }, ?_, ?_, ?_, ?_⟩
    · rw [getSyncState_fresh env w fs h1 h2f hq]
      simp [viewOf, lookup_setField]
    · exact ⟨by simp [Store.set], by simp [lookup_setField, truthy_device]⟩
    · intro k hk
      simp [lookup_setField, hk]
    · exact ⟨by simp [Store.set], by simp [Store.set], by simp [Store.set], rfl, rfl⟩

/-- Saving a patch on a settled sync state, when the write is accepted. -/
theorem saveSyncState_settled {σ : Type} (env : SyncEnv σ) (w : World σ)
    (fs : List (String × JVal)) (patch : List (String × Option JVal)) (h : Settled w.store fs)
    (hq : ∀ st v, env.quota st .syncState v = true) :
    saveSyncState env patch w =
      (.ok (), w.withStore (w.store.set .syncState
        (.obj (patched (viewOf fs ((lookup "deviceId" fs).getD .null)) patch)))) := by
  simp [saveSyncState, bind, SyncM.bind, getSyncState_settled env w fs h, ownEntries, writeLocal,
    hq, pure, World.withStore]

theorem updateSyncStatusUI_settled {σ : Type} (env : SyncEnv σ) (w : World σ)
    (fs : List (String × JVal)) (h : Settled w.store fs) :
    updateSyncStatusUI env w = (.ok (), w) := by
  simp [updateSyncStatusUI, SyncM.attempt, getSyncState_settled env w fs h]

/-- The persisted sync state after `saveSyncState({ status: 'syncing', lastError: '' })`
on a settled state. -/
theorem patched_syncing (fs : List (String × JVal)) (dev : JVal) :
    patched (viewOf fs dev) [("status", some (.str "syncing")), ("lastError", some (.str ""))] =
      [("gistId", orElse (lookup "gistId" fs) (.str "")),
       ("lastETag", orElse (lookup "lastETag" fs) (.str "")),
       ("lastSyncAt", orElse (lookup "lastSyncAt" fs) (.num 0)),
       ("deviceId", dev), ("status", .str "syncing"), ("lastError", .str "")] := by
  simp [patched, viewOf, setField, hasKey]

theorem fetchRemote_not_modified {σ : Type} (env : SyncEnv σ) (w : World σ) (pat gid : JVal)
    (tag : Option JVal) (res : Response) (rem : σ)
    (hf : env.fetch w.remote (getRequest pat gid tag) = (.ok res, rem))
    (h304 : res.status = 304) :
    fetchRemote env pat gid tag w =
      (.ok { status := 304, etag := tag, data := none },
        { w with remote := rem, sent := (getRequest pat gid tag, w.store) :: w.sent }) := by
  simp [fetchRemote, bind, SyncM.bind, send, hf, h304, pure]

theorem saveSyncState_syncing {σ : Type} (env : SyncEnv σ) (w : World σ)
    (fs : List (String × JVal)) (d : JVal) (h : w.store.syncState = some (.obj fs))
    (hd : lookup "deviceId" fs = some d) (hdt : truthy (some d) = true)
    (hq : ∀ st v, env.quota st .syncState v = true) :
    saveSyncState env [("status", some (.str "syncing")), ("lastError", some (.str ""))] w =
      (.ok (), w.withStore (w.store.set .syncState (.obj (syncingFields fs d)))) := by
  have hs : Settled w.store fs := ⟨h, by rw [hd]; exact hdt⟩
  rw [saveSyncState_settled env w fs _ hs hq, patched_syncing, hd]
  rfl

theorem settled_syncing {σ : Type} (w : World σ) (fs : List (String × JVal)) (d : JVal)
    (hdt : truthy (some d) = true) :
    Settled (w.withStore (w.store.set .syncState (.obj (syncingFields fs d)))).store
      (syncingFields fs d) :=
  ⟨by simp [World.withStore, Store.set], by simpa [syncingFields, lookup] using hdt⟩

/-- What the part of `pullOverrideLocal()` after the configuration check does on a
settled sync state when the store answers "not modified". -/
theorem pullConfigured_not_modified {σ : Type} (env : SyncEnv σ) (w : World σ) (now : Int)
    (orc : Nat → Oracle) (fs : List (String × JVal)) (pat gid d : JVal) (tag : Option JVal)
    (res : Response) (rem : σ)
    (hs : w.store.syncState = some (.obj fs))
    (hd : lookup "deviceId" fs = some d) (hdt : truthy (some d) = true)
    (hq : ∀ st v, env.quota st .syncState v = true)
    (hf : env.fetch w.remote (getRequest pat gid tag) = (.ok res, rem))
    (h304 : res.status = 304) :
    pullConfigured env pat (some gid) tag now orc w =
      (.ok (.obj [("updated", .bool false)]),
        { w with
          store := w.store.set .syncState (.obj [
            ("gistId", orElse (lookup "gistId" fs) (.str "")),
            ("lastETag", orElse (lookup "lastETag" fs) (.str "")),
            ("lastSyncAt", .num now),
            ("deviceId", d), ("status", .str "ok"), ("lastError", .str "")]),
          remote := rem,
          sent := (getRequest pat gid tag,
            w.store.set .syncState (.obj (syncingFields fs d))) :: w.sent }) := by
  have h1 := saveSyncState_syncing env w fs d hs hd hdt hq
  have hset2 := settled_syncing w fs d hdt
  have h2 := updateSyncStatusUI_settled env _ _ hset2
  have hf2 : env.fetch (w.withStore (w.store.set .syncState (.obj (syncingFields fs d)))).remote
      (getRequest pat gid tag) = (.ok res, rem) := hf
  have h3 := fetchRemote_not_modified env _ pat gid tag res rem hf2 h304
  have hset3 : Settled ({ w.withStore (w.store.set .syncState (.obj (syncingFields fs d))) with
      remote := rem,
      sent := (getRequest pat gid tag,
        (w.withStore (w.store.set .syncState (.obj (syncingFields fs d)))).store) ::
          (w.withStore (w.store.set .syncState (.obj (syncingFields fs d)))).sent } :
        World σ).store (syncingFields fs d) := hset2
  have h4 := saveSyncState_settled env _ _
    [("status", some (.str "ok")), ("lastSyncAt", some (.num now))] hset3 hq
  have hp : patched (viewOf (syncingFields fs d)
      ((lookup "deviceId" (syncingFields fs d)).getD .null))
      [("status", some (.str "ok")), ("lastSyncAt", some (.num now))] =
      [("gistId", orElse (lookup "gistId" fs) (.str "")),
       ("lastETag", orElse (lookup "lastETag" fs) (.str "")),
       ("lastSyncAt", .num now),
       ("deviceId", d), ("status", .str "ok"), ("lastError", .str "")] := by
    simp [patched, viewOf, syncingFields, setField, hasKey, lookup, orElse_idem]
    simp [orElse, truthy]
  rw [hp] at h4
  have hset4 : Settled (({ w.withStore (w.store.set .syncState (.obj (syncingFields fs d))) with
      remote := rem,
      sent := (getRequest pat gid tag,
        (w.withStore (w.store.set .syncState (.obj (syncingFields fs d)))).store) ::
          (w.withStore (w.store.set .syncState (.obj (syncingFields fs d)))).sent } :
        World σ).withStore
        ((w.withStore (w.store.set .syncState (.obj (syncingFields fs d)))).store.set .syncState
          (.obj [("gistId", orElse (lookup "gistId" fs) (.str "")),
       ("lastETag", orElse (lookup "lastETag" fs) (.str "")),
       ("lastSyncAt", .num now),
       ("deviceId", d), ("status", .str "ok"), ("lastError", .str "")]))).store
      [("gistId", orElse (lookup "gistId" fs) (.str "")),
       ("lastETag", orElse (lookup "lastETag" fs) (.str "")),
       ("lastSyncAt", .num now),
       ("deviceId", d), ("status", .str "ok"), ("lastError", .str "")] :=
    ⟨by simp [World.withStore, Store.set], by simpa [lookup] using hdt⟩
  have h5 := updateSyncStatusUI_settled env _ _ hset4
  simp only [pullConfigured, bind, SyncM.bind, Option.getD_some, h1, h2, h3, h4, h5, ↓reduceIte, pure]
  simp [World.withStore, Store.set]

theorem lookup_viewOf (fs : List (String × JVal)) (d : JVal) :
    lookup "gistId" (viewOf fs d) = some (orElse (lookup "gistId" fs) (.str "")) ∧
    lookup "lastETag" (viewOf fs d) = some (orElse (lookup "lastETag" fs) (.str "")) ∧
    lookup "deviceId" (viewOf fs d) = some d := by
  simp [viewOf, lookup]

/-- What `pullOverrideLocal()` does on a store with a credential and a bound id
when the store answers "not modified" and the writes of the sync state are
accepted. -/
theorem pullOverrideLocal_not_modified {σ : Type} (env : SyncEnv σ) (w : World σ) (now : Int)
    (orc : Nat → Oracle) (fs : List (String × JVal)) (gid : JVal) (res : Response) (rem : σ)
    (hpat : truthy (some (getPat w.store)) = true)
    (hs : w.store.syncState = some (.obj fs))
    (hg : lookup "gistId" fs = some gid) (hgt : truthy (some gid) = true)
    (hq : ∀ st v, env.quota st .syncState v = true)
    (hf : env.fetch w.remote
      (getRequest (getPat w.store) gid (some (orElse (lookup "lastETag" fs) (.str "")))) =
        (.ok res, rem))
    (h304 : res.status = 304) :
    ∃ w4 d, pullOverrideLocal env now orc w = (.ok (.obj [("updated", .bool false)]), w4) ∧
      w4.store.data = w.store.data ∧ w4.store.settings = w.store.settings ∧
      w4.store.pat = w.store.pat ∧ w4.remote = rem ∧
      w4.store.syncState = some (.obj [
        ("gistId", gid),
        ("lastETag", orElse (lookup "lastETag" fs) (.str "")),
        ("lastSyncAt", .num now),
        ("deviceId", d), ("status", .str "ok"), ("lastError", .str "")]) := by
  obtain ⟨fs1, w1, h1, hset1, hk1, ho1⟩ := getSyncState_obj env w fs hs hq
  have hg1 : lookup "gistId" fs1 = some gid := by rw [hk1 _ (by decide), hg]
  have he1 : lookup "lastETag" fs1 = lookup "lastETag" fs := hk1 _ (by decide)
  have hgid : orElse (lookup "gistId" fs1) (.str "") = gid := by
    rw [hg1]; exact orElse_of_truthy gid _ hgt
  cases hd : lookup "deviceId" fs1 with
  | none =>
    have := hset1.2
    rw [hd] at this
    simp [truthy] at this
  | some d =>
    have hdt : truthy (some d) = true := by
      have := hset1.2
      rwa [hd] at this
    rw [hd] at h1
    have hf1 : env.fetch w1.remote
        (getRequest (getPat w.store) gid (some (orElse (lookup "lastETag" fs1) (.str "")))) =
        (.ok res, rem) := by
      rw [ho1.2.2.2.1, he1]; exact hf
    have h2 := pullConfigured_not_modified env w1 now orc fs1 (getPat w.store) gid d
      (some (orElse (lookup "lastETag" fs1) (.str ""))) res rem hset1.1 hd hdt hq hf1 h304
    refine ⟨(pullConfigured env (getPat w.store) (some gid)
      (some (orElse (lookup "lastETag" fs1) (.str ""))) now orc w1).2, d, ?_, ?_, ?_, ?_, ?_, ?_⟩
    · simp only [pullOverrideLocal, bind, SyncM.bind, SyncM.readStore, h1, SyncM.ofExcept,
        getProp, (lookup_viewOf fs1 _).1, (lookup_viewOf fs1 _).2.1, hgid, hpat, hgt,
        Bool.not_true, Bool.or_self, Bool.false_eq_true, ↓reduceIte]
      rw [h2]
    · rw [h2]; simp [Store.set, ho1.1]
    · rw [h2]; simp [Store.set, ho1.2.1]
    · rw [h2]; simp [Store.set, ho1.2.2.1]
    · rw [h2]
    · rw [h2]; simp [Store.set, hgid, he1]

/-! ### Pull when the remote store is unchanged (C18) -/

/-- C18: when `pullOverrideLocal()` runs on a store with a credential and a sync
state bound to a gist id, the writes of the sync state are accepted, and the
remote store answers the conditional request with status 304, the call returns
`{ updated: false }`; the persisted prompt collection, the settings and the
credential are what they were before the call; and the persisted sync state has
status `ok`, `lastSyncAt` equal to the clock reading, the gist id it had, and
the `lastETag` that `getSyncState()` read before the call. -/
theorem C18_pull_not_modified {σ : Type} (env : SyncEnv σ) (w : World σ) (now : Int)
    (orc : Nat → Oracle) (fs : List (String × JVal)) (gid : JVal) (res : Response) (rem : σ)
    (hpat : truthy (some (getPat w.store)) = true)
    (hs : w.store.syncState = some (.obj fs))
    (hg : lookup "gistId" fs = some gid) (hgt : truthy (some gid) = true)
    (hq : ∀ st v, env.quota st .syncState v = true)
    (hf : env.fetch w.remote
      (getRequest (getPat w.store) gid (some (orElse (lookup "lastETag" fs) (.str "")))) =
        (.ok res, rem))
    (h304 : res.status = 304) :
    (pullOverrideLocal env now orc w).1 = .ok (.obj [("updated", .bool false)]) ∧
    getAllPrompts (pullOverrideLocal env now orc w).2.store = getAllPrompts w.store ∧
    getSettings (pullOverrideLocal env now orc w).2.store = getSettings w.store ∧
    (pullOverrideLocal env now orc w).2.store.data = w.store.data ∧
    (pullOverrideLocal env now orc w).2.store.settings = w.store.settings ∧
    (pullOverrideLocal env now orc w).2.store.pat = w.store.pat ∧
    persistedStatus (pullOverrideLocal env now orc w).2.store = .str "ok" ∧
    ∃ s, (pullOverrideLocal env now orc w).2.store.syncState = some (.obj s) ∧
      lookup "status" s = some (.str "ok") ∧
      lookup "lastSyncAt" s = some (.num now) ∧
      lookup "gistId" s = lookup "gistId" fs ∧
      lookup "lastETag" s = some (orElse (lookup "lastETag" fs) (.str "")) := by
  obtain ⟨w4, d, h, h1, h2, h3, _, h5⟩ :=
    pullOverrideLocal_not_modified env w now orc fs gid res rem hpat hs hg hgt hq hf h304
  rw [h]
  refine ⟨rfl, ?_, ?_, h1, h2, h3, ?_, _, h5, ?_, ?_, ?_, ?_⟩
  · simp [getAllPrompts, getStorageData, Store.get, h1]
  · simp [getSettings, getStorageData, Store.get, h2]
  · simp [persistedStatus, readLocal, Store.get, h5, lookup, orElse, truthy]
  · simp [lookup]
  · simp [lookup]
  · simp [lookup, hg]
  · simp [lookup]

/-- C18 on the sample store, bound to `g1` with the tag `rev0`, against the
contract store at revision 0, at the clock reading 20. -/
theorem C18_pull_not_modified_witness :
    (pullOverrideLocal sampleEnv 20 fixedOracle (sampleWorld syncedStore)).1 =
      .ok (.obj [("updated", .bool false)]) ∧
    getAllPrompts (pullOverrideLocal sampleEnv 20 fixedOracle (sampleWorld syncedStore)).2.store =
      .arr [sampleRecord "b" "B" "y", sampleRecord "a" "A" "x"] ∧
    (pullOverrideLocal sampleEnv 20 fixedOracle (sampleWorld syncedStore)).2.store.syncState =
      some (.obj [("gistId", .str "g1"), ("lastETag", .str "rev0"), ("lastSyncAt", .num 20),
        ("deviceId", .str "device_d0"), ("status", .str "ok"), ("lastError", .str "")]) :=
  ⟨(C18_pull_not_modified sampleEnv (sampleWorld syncedStore) 20 fixedOracle _ (.str "g1") _ _
      rfl rfl rfl rfl (fun _ _ => rfl) rfl rfl).1, rfl, rfl⟩

/-! ### The status while a request is on its way (C20) -/

/-- C20 (evaluation at the failing input): on a store with the credential `tok`
and no sync state, `createAndBindGist()` passes its configuration check, issues
its `POST` while the persisted status is `idle`, and succeeds with the id `doc1`;
nothing writes `syncing` before the request. On the same store bound to `g1`,
`pushOverrideRemote()` and `pullOverrideLocal()` issue their requests while the
persisted status is `syncing`. -/
theorem C20_bind_sends_while_idle :
    persistedStatus unboundStore = .str "idle" ∧
    (createAndBindGist sampleEnv 7 8 (sampleWorld unboundStore)).1 = .ok (some (.str "doc1")) ∧
    sentStatuses (createAndBindGist sampleEnv 7 8 (sampleWorld unboundStore)).2 =
      [("POST", .str "idle")] ∧
    sentStatuses (pushOverrideRemote sampleEnv 7 8 9 (sampleWorld boundStore)).2 =
      [("PATCH", .str "syncing")] ∧
    sentStatuses (pullOverrideLocal sampleEnv 20 fixedOracle (sampleWorld boundStore)).2 =
      [("GET", .str "syncing")] := by
  refine ⟨rfl, rfl, rfl, rfl, rfl⟩

/-! ### Cloud sync: push -/

theorem exportData_congr (st1 st2 : Store) (now : Int) (h1 : st1.data = st2.data)
    (h2 : st1.settings = st2.settings) : exportData st1 now = exportData st2 now := by
  simp [exportData, exportDataBody, getAllPrompts, getSettings, getStorageData, Store.get, h1, h2]

theorem buildPayload_settled {σ : Type} (env : SyncEnv σ) (w : World σ)
    (fs : List (String × JVal)) (d : JVal) (exportNow updatedAt : Int)
    (hs : w.store.syncState = some (.obj fs))
    (hd : lookup "deviceId" fs = some d) (hdt : truthy (some d) = true) :
    buildPayload env exportNow updatedAt w = (.ok (payloadOf w.store d exportNow updatedAt), w) := by
  have hset : Settled w.store fs := ⟨hs, by rw [hd]; exact hdt⟩
  simp [buildPayload, bind, SyncM.bind, getSyncState_settled env w fs hset, SyncM.readStore,
    SyncM.ofExcept, getProp, (lookup_viewOf fs _).2.2, hd, pure, payloadOf]

theorem updateRemote_ok {σ : Type} (env : SyncEnv σ) (w : World σ) (pat gid payload : JVal)
    (res : Response) (rem : σ)
    (hf : env.fetch w.remote (patchRequest pat gid payload) = (.ok res, rem))
    (hok : res.ok = true) :
    updateRemote env pat gid payload w =
      (.ok (res.etag.getD ""),
        { w with remote := rem, sent := (patchRequest pat gid payload, w.store) :: w.sent }) := by
  simp [updateRemote, bind, SyncM.bind, send, hf, hok, pure]

/-- What the part of `pushOverrideRemote()` after the configuration check does on
a settled sync state when the store accepts the new content. -/
theorem pushConfigured_ok {σ : Type} (env : SyncEnv σ) (w : World σ)
    (exportNow updatedAt now : Int) (fs : List (String × JVal)) (pat gid d : JVal)
    (res : Response) (rem : σ)
    (hs : w.store.syncState = some (.obj fs))
    (hd : lookup "deviceId" fs = some d) (hdt : truthy (some d) = true)
    (hq : ∀ st v, env.quota st .syncState v = true)
    (hf : env.fetch w.remote (patchRequest pat gid (payloadOf w.store d exportNow updatedAt)) =
      (.ok res, rem))
    (hok : res.ok = true) :
    pushConfigured env pat (some gid) exportNow updatedAt now w =
      (.ok (.obj [("pushed", .bool true)]),
        { w with
          store := w.store.set .syncState (.obj [
            ("gistId", orElse (lookup "gistId" fs) (.str "")),
            ("lastETag", .str (res.etag.getD "")),
            ("lastSyncAt", .num now),
            ("deviceId", d), ("status", .str "ok"), ("lastError", .str "")]),
          remote := rem,
          sent := (patchRequest pat gid (payloadOf w.store d exportNow updatedAt),
            w.store.set .syncState (.obj (syncingFields fs d))) :: w.sent }) := by
  have h1 := saveSyncState_syncing env w fs d hs hd hdt hq
  have hset2 := settled_syncing w fs d hdt
  have h2 := updateSyncStatusUI_settled env _ _ hset2
  have hd2 : lookup "deviceId" (syncingFields fs d) = some d := by simp [syncingFields, lookup]
  have h3 := buildPayload_settled env _ (syncingFields fs d) d exportNow updatedAt hset2.1 hd2 hdt
  have hpay : payloadOf (w.withStore (w.store.set .syncState (.obj (syncingFields fs d)))).store
      d exportNow updatedAt = payloadOf w.store d exportNow updatedAt := by
    simp only [payloadOf]
    rw [exportData_congr _ w.store exportNow (by simp [World.withStore, Store.set])
      (by simp [World.withStore, Store.set])]
  rw [hpay] at h3
  have hf2 : env.fetch (w.withStore (w.store.set .syncState (.obj (syncingFields fs d)))).remote
      (patchRequest pat gid (payloadOf w.store d exportNow updatedAt)) = (.ok res, rem) := hf
  have h4 := updateRemote_ok env _ pat gid _ res rem hf2 hok
  have hset5 : Settled ({ w.withStore (w.store.set .syncState (.obj (syncingFields fs d))) with
      remote := rem,
      sent := (patchRequest pat gid (payloadOf w.store d exportNow updatedAt),
        (w.withStore (w.store.set .syncState (.obj (syncingFields fs d)))).store) ::
          (w.withStore (w.store.set .syncState (.obj (syncingFields fs d)))).sent } :
        World σ).store (syncingFields fs d) := hset2
  have h5 := saveSyncState_settled env _ _
    [("lastETag", some (.str (res.etag.getD ""))), ("lastSyncAt", some (.num now)),
      ("status", some (.str "ok"))] hset5 hq
  have hp : patched (viewOf (syncingFields fs d)
      ((lookup "deviceId" (syncingFields fs d)).getD .null))
      [("lastETag", some (.str (res.etag.getD ""))), ("lastSyncAt", some (.num now)),
        ("status", some (.str "ok"))] =
      [("gistId", orElse (lookup "gistId" fs) (.str "")),
       ("lastETag", .str (res.etag.getD "")),
       ("lastSyncAt", .num now),
       ("deviceId", d), ("status", .str "ok"), ("lastError", .str "")] := by
    simp [patched, viewOf, syncingFields, setField, hasKey, lookup, orElse_idem]
    simp [orElse, truthy]
  rw [hp] at h5
  have hset6 : Settled (({ w.withStore (w.store.set .syncState (.obj (syncingFields fs d))) with
      remote := rem,
      sent := (patchRequest pat gid (payloadOf w.store d exportNow updatedAt),
        (w.withStore (w.store.set .syncState (.obj (syncingFields fs d)))).store) ::
          (w.withStore (w.store.set .syncState (.obj (syncingFields fs d)))).sent } :
        World σ).withStore
        ((w.withStore (w.store.set .syncState (.obj (syncingFields fs d)))).store.set .syncState
          (.obj [("gistId", orElse (lookup "gistId" fs) (.str "")),
       ("lastETag", .str (res.etag.getD "")),
       ("lastSyncAt", .num now),
       ("deviceId", d), ("status", .str "ok"), ("lastError", .str "")]))).store
      [("gistId", orElse (lookup "gistId" fs) (.str "")),
       ("lastETag", .str (res.etag.getD "")),
       ("lastSyncAt", .num now),
       ("deviceId", d), ("status", .str "ok"), ("lastError", .str "")] :=
    ⟨by simp [World.withStore, Store.set], by simpa [lookup] using hdt⟩
  have h6 := updateSyncStatusUI_settled env _ _ hset6
  simp only [pushConfigured, bind, SyncM.bind, Option.getD_some, h1, h2, h3, h4, h5, h6, pure]
  simp [World.withStore, Store.set]

/-- What `pushOverrideRemote()` does on a store with a credential and a bound id
when the store accepts the new content and the writes of the sync state are
accepted. -/
theorem pushOverrideRemote_ok {σ : Type} (env : SyncEnv σ) (w : World σ)
    (exportNow updatedAt now : Int) (fs : List (String × JVal)) (gid : JVal)
    (respond : JVal → Response) (next : JVal → σ)
    (hpat : truthy (some (getPat w.store)) = true)
    (hs : w.store.syncState = some (.obj fs))
    (hg : lookup "gistId" fs = some gid) (hgt : truthy (some gid) = true)
    (hq : ∀ st v, env.quota st .syncState v = true)
    (hf : ∀ payload, env.fetch w.remote (patchRequest (getPat w.store) gid payload) =
      (.ok (respond payload), next payload))
    (hok : ∀ payload, (respond payload).ok = true) :
    ∃ w5 d, pushOverrideRemote env exportNow updatedAt now w =
        (.ok (.obj [("pushed", .bool true)]), w5) ∧
      w5.store.data = w.store.data ∧ w5.store.settings = w.store.settings ∧
      w5.store.pat = w.store.pat ∧
      w5.remote = next (payloadOf w.store d exportNow updatedAt) ∧
      w5.store.syncState = some (.obj [
        ("gistId", gid),
        ("lastETag", .str ((respond (payloadOf w.store d exportNow updatedAt)).etag.getD "")),
        ("lastSyncAt", .num now),
        ("deviceId", d), ("status", .str "ok"), ("lastError", .str "")]) := by
  obtain ⟨fs1, w1, h1, hset1, hk1, ho1⟩ := getSyncState_obj env w fs hs hq
  have hg1 : lookup "gistId" fs1 = some gid := by rw [hk1 _ (by decide), hg]
  have hgid : orElse (lookup "gistId" fs1) (.str "") = gid := by
    rw [hg1]; exact orElse_of_truthy gid _ hgt
  cases hd : lookup "deviceId" fs1 with
  | none =>
    have := hset1.2
    rw [hd] at this
    simp [truthy] at this
  | some d =>
    have hdt : truthy (some d) = true := by
      have := hset1.2
      rwa [hd] at this
    rw [hd] at h1
    have hpay : payloadOf w1.store d exportNow updatedAt =
        payloadOf w.store d exportNow updatedAt := by
      simp only [payloadOf]
      rw [exportData_congr w1.store w.store exportNow ho1.1 ho1.2.1]
    have hf1 : env.fetch w1.remote
        (patchRequest (getPat w.store) gid (payloadOf w1.store d exportNow updatedAt)) =
        (.ok (respond (payloadOf w.store d exportNow updatedAt)),
          next (payloadOf w.store d exportNow updatedAt)) := by
      rw [ho1.2.2.2.1, hpay]; exact hf _
    have h2 := pushConfigured_ok env w1 exportNow updatedAt now fs1 (getPat w.store) gid d
      _ _ hset1.1 hd hdt hq hf1 (hok _)
    refine ⟨(pushConfigured env (getPat w.store) (some gid) exportNow updatedAt now w1).2, d,
      ?_, ?_, ?_, ?_, ?_, ?_⟩
    · simp only [pushOverrideRemote, bind, SyncM.bind, SyncM.readStore, h1, SyncM.ofExcept,
        getProp, (lookup_viewOf fs1 _).1, hgid, hpat, hgt,
        Bool.not_true, Bool.or_self, Bool.false_eq_true, ↓reduceIte]
      rw [h2]
    · rw [h2]; simp [Store.set, ho1.1]
    · rw [h2]; simp [Store.set, ho1.2.1]
    · rw [h2]; simp [Store.set, ho1.2.2.1]
    · rw [h2]
    · rw [h2]; simp [Store.set, hgid]

/-! ### Push, then pull (C19) -/

theorem contract_replace (render : JVal → String) (r : Remote) (pat payload : JVal) :
    contractFetch render r (patchRequest pat (.str r.docId) payload) =
      (.ok { status := 200, statusText := "OK",
             etag := some ("rev" ++ toString (r.rev + 1)), text := .ok "",
             json := .ok (.obj [("id", .str r.docId)]) },
        { r with payload := payload, rev := r.rev + 1 }) := by
  simp [contractFetch, patchRequest, Remote.tag]

theorem truthy_tag (r : Remote) : truthy (some (.str r.tag)) = true := by
  have : r.tag ≠ "" := by
    intro h
    have h2 := congrArg String.data h
    simp only [Remote.tag] at h2
    rw [String.data_append] at h2
    have h3 : "rev".data = ['r', 'e', 'v'] := rfl
    rw [h3] at h2
    exact absurd h2 (by simp)
  simp [truthy, this]

theorem contract_not_modified (render : JVal → String) (r : Remote) (pat : JVal) :
    contractFetch render r (getRequest pat (.str r.docId) (some (.str r.tag))) =
      (.ok { status := 304, statusText := "Not Modified", etag := some r.tag, text := .ok "",
             json := .error "no body" }, r) := by
  simp [contractFetch, getRequest, truthy_tag r, toJsString]

/-- C19 (counterexample): against the contract store, with every write accepted,
`pushOverrideRemote()` on the sample store succeeds and pushes a document with
the prompts `b` and `a`. The prompt `a` is then deleted locally. The following
`pullOverrideLocal()` succeeds with `{ updated: false }`, because the store
answers "not modified" to the tag recorded by the push, and the local collection
is still the edited one: `b` alone, not the pushed prompts. -/
theorem C19_counterexample :
    (pushOverrideRemote sampleEnv 7 8 9 (sampleWorld boundStore)).1 =
      .ok (.obj [("pushed", .bool true)]) ∧
    pushedPrompts (pushOverrideRemote sampleEnv 7 8 9 (sampleWorld boundStore)).2.remote.payload =
      some (.arr [sampleRecord "b" "B" "y", sampleRecord "a" "A" "x"]) ∧
    (deletePrompt Quota.unlimited
      (pushOverrideRemote sampleEnv 7 8 9 (sampleWorld boundStore)).2.store (some (.str "a"))).1
      = true ∧
    (pullOverrideLocal sampleEnv 20 fixedOracle
      ((pushOverrideRemote sampleEnv 7 8 9 (sampleWorld boundStore)).2.withStore
        (deletePrompt Quota.unlimited
          (pushOverrideRemote sampleEnv 7 8 9 (sampleWorld boundStore)).2.store
          (some (.str "a"))).2)).1 = .ok (.obj [("updated", .bool false)]) ∧
    getAllPrompts (pullOverrideLocal sampleEnv 20 fixedOracle
      ((pushOverrideRemote sampleEnv 7 8 9 (sampleWorld boundStore)).2.withStore
        (deletePrompt Quota.unlimited
          (pushOverrideRemote sampleEnv 7 8 9 (sampleWorld boundStore)).2.store
          (some (.str "a"))).2)).2.store = .arr [sampleRecord "b" "B" "y"] ∧
    some (getAllPrompts (pullOverrideLocal sampleEnv 20 fixedOracle
      ((pushOverrideRemote sampleEnv 7 8 9 (sampleWorld boundStore)).2.withStore
        (deletePrompt Quota.unlimited
          (pushOverrideRemote sampleEnv 7 8 9 (sampleWorld boundStore)).2.store
          (some (.str "a"))).2)).2.store) ≠
      pushedPrompts (pushOverrideRemote sampleEnv 7 8 9 (sampleWorld boundStore)).2.remote.payload := by
  refine ⟨rfl, rfl, rfl, rfl, rfl, ?_⟩
  intro h
  have h2 : some (JVal.arr [sampleRecord "b" "B" "y"]) =
      some (.arr [sampleRecord "b" "B" "y", sampleRecord "a" "A" "x"]) := h
  simp at h2

/-- C19 (amended): against a remote store that follows the abstract transport
contract, with no other writer, on a local state with a credential and a sync
state bound to the id of the remote document, when the writes of the sync state
are accepted: `pushOverrideRemote()` succeeds, the content of the remote document
becomes the payload built from the export of the local state, and the local
prompt collection is not touched; and whatever the prompt collection and the
settings are when `pullOverrideLocal()` runs next (unchanged, or edited between
the two calls), the pull is answered "not modified", returns `{ updated: false }`
and leaves the collection and the settings exactly as they were when it
started. -/
theorem C19_push_then_pull (env : SyncEnv Remote) (render : JVal → String) (w : World Remote)
    (exportNow updatedAt pushedAt now : Int) (orc : Nat → Oracle) (fs : List (String × JVal))
    (hfetch : env.fetch = contractFetch render)
    (hpat : truthy (some (getPat w.store)) = true)
    (hs : w.store.syncState = some (.obj fs))
    (hg : lookup "gistId" fs = some (.str w.remote.docId)) (hne : w.remote.docId ≠ "")
    (hq : ∀ st v, env.quota st .syncState v = true) :
    (pushOverrideRemote env exportNow updatedAt pushedAt w).1 =
      .ok (.obj [("pushed", .bool true)]) ∧
    (∃ d, (pushOverrideRemote env exportNow updatedAt pushedAt w).2.remote.payload =
      payloadOf w.store d exportNow updatedAt) ∧
    (pushOverrideRemote env exportNow updatedAt pushedAt w).2.store.data = w.store.data ∧
    ∀ data settings : Option JVal,
      (pullOverrideLocal env now orc
        ((pushOverrideRemote env exportNow updatedAt pushedAt w).2.edited data settings)).1 =
        .ok (.obj [("updated", .bool false)]) ∧
      (pullOverrideLocal env now orc
        ((pushOverrideRemote env exportNow updatedAt pushedAt w).2.edited data settings)).2.store.data
        = data ∧
      (pullOverrideLocal env now orc
        ((pushOverrideRemote env exportNow updatedAt pushedAt w).2.edited data
          settings)).2.store.settings = settings := by
  have hgt : truthy (some (JVal.str w.remote.docId)) = true := by simp [truthy, hne]
  obtain ⟨w5, d, h5, hdata, _, hpat5, hrem, hsync⟩ := pushOverrideRemote_ok env w exportNow
    updatedAt pushedAt fs (.str w.remote.docId)
    (fun _ => ({ status := 200, statusText := "OK",
                 etag := some ("rev" ++ toString (w.remote.rev + 1)), text := Except.ok "",
                 json := Except.ok (JVal.obj [("id", JVal.str w.remote.docId)]) } : Response))
    (fun payload => ({ w.remote with payload := payload, rev := w.remote.rev + 1 } : Remote))
    hpat hs hg hgt hq
    (fun payload => by rw [hfetch]; exact contract_replace render w.remote _ payload)
    (fun _ => rfl)
  rw [h5]
  refine ⟨rfl, ⟨d, by rw [hrem]⟩, hdata, ?_⟩
  intro data settings
  simp only [Option.getD_some] at hsync
  have hpat6 : truthy (some (getPat (w5.edited data settings).store)) = true := by
    have : getPat (w5.edited data settings).store = getPat w.store := by
      simp [getPat, readLocal, Store.get, World.edited, hpat5]
    rw [this]; exact hpat
  have hs6 : (w5.edited data settings).store.syncState = some (.obj [
        ("gistId", .str w.remote.docId),
        ("lastETag", .str ("rev" ++ toString (w.remote.rev + 1))),
        ("lastSyncAt", .num pushedAt),
        ("deviceId", d), ("status", .str "ok"), ("lastError", .str "")]) := by
    simp [World.edited, hsync]
  have hrem6 : (w5.edited data settings).remote =
      { w.remote with payload := payloadOf w.store d exportNow updatedAt,
                      rev := w.remote.rev + 1 } := by
    simp [World.edited, hrem]
  have hnm := contract_not_modified render
    { w.remote with payload := payloadOf w.store d exportNow updatedAt, rev := w.remote.rev + 1 }
    (getPat (w5.edited data settings).store)
  obtain ⟨w7, d7, h7, hd7, hs7, _, _, _⟩ := pullOverrideLocal_not_modified env
    (w5.edited data settings) now orc _ (.str w.remote.docId) _ _ hpat6 hs6
    (by simp [lookup]) hgt hq
    (by
      rw [hfetch, hrem6]
      have he : orElse (lookup "lastETag" [
        ("gistId", JVal.str w.remote.docId),
        ("lastETag", .str ("rev" ++ toString (w.remote.rev + 1))),
        ("lastSyncAt", .num pushedAt),
        ("deviceId", d), ("status", .str "ok"), ("lastError", .str "")]) (.str "") =
          .str ("rev" ++ toString (w.remote.rev + 1)) := by
        have hl : lookup "lastETag" [
            ("gistId", JVal.str w.remote.docId),
            ("lastETag", .str ("rev" ++ toString (w.remote.rev + 1))),
            ("lastSyncAt", .num pushedAt),
            ("deviceId", d), ("status", .str "ok"), ("lastError", .str "")] =
            some (.str ("rev" ++ toString (w.remote.rev + 1))) := by simp [lookup]
        rw [hl]
        exact orElse_of_truthy _ _ (truthy_tag
          { w.remote with payload := payloadOf w.store d exportNow updatedAt,
                          rev := w.remote.rev + 1 })
      rw [he]
      exact hnm)
    rfl
  rw [h7]
  exact ⟨rfl, by rw [hd7]; rfl, by rw [hs7]; rfl⟩

/-- C19 (amended) on the sample store bound to `g1`, against the contract store:
the push succeeds, and a pull that runs after the local collection was replaced
by the prompt `b` alone leaves that collection. -/
theorem C19_push_then_pull_witness :
    (pushOverrideRemote sampleEnv 7 8 9 (sampleWorld boundStore)).1 =
      .ok (.obj [("pushed", .bool true)]) ∧
    ((pullOverrideLocal sampleEnv 20 fixedOracle
        ((pushOverrideRemote sampleEnv 7 8 9 (sampleWorld boundStore)).2.edited
          (some (.arr [sampleRecord "b" "B" "y"])) none)).1 =
        .ok (.obj [("updated", .bool false)]) ∧
      (pullOverrideLocal sampleEnv 20 fixedOracle
        ((pushOverrideRemote sampleEnv 7 8 9 (sampleWorld boundStore)).2.edited
          (some (.arr [sampleRecord "b" "B" "y"])) none)).2.store.data =
        some (.arr [sampleRecord "b" "B" "y"]) ∧
      (pullOverrideLocal sampleEnv 20 fixedOracle
        ((pushOverrideRemote sampleEnv 7 8 9 (sampleWorld boundStore)).2.edited
          (some (.arr [sampleRecord "b" "B" "y"])) none)).2.store.settings = none) :=
  ⟨(C19_push_then_pull sampleEnv (fun _ => "") (sampleWorld boundStore) 7 8 9 20 fixedOracle _
      rfl rfl rfl rfl (by decide) (fun _ _ => rfl)).1,
   (C19_push_then_pull sampleEnv (fun _ => "") (sampleWorld boundStore) 7 8 9 20 fixedOracle _
      rfl rfl rfl rfl (by decide) (fun _ _ => rfl)).2.2.2 (some (.arr [sampleRecord "b" "B" "y"]))
      none⟩

/-! ### Import: titles that differ by white space (C23) -/

theorem titleOf_of_getProp (p : JVal) (v : Option JVal)
    (h : getProp (some p) "title" = .ok v) : titleOf p = v := by
  cases p <;> simp [getProp] at h <;> simp [titleOf, h]

/-- The loop keeps the titles of the working collection pairwise different when
every incoming string title is already trimmed. -/
theorem importLoop_titles_distinct (st : Store) (ids : List (Option JVal)) (orc : Nat → Oracle)
    (ds : List JVal)
    (htr : ∀ d ∈ ds, ∀ t, getProp (some d) "title" = .ok (some (.str t)) → trim t = t) :
    ∀ (k : Nat) (s : ImportState), TitlesDistinct s.existingPrompts →
      TitlesDistinct (importLoop st ids orc k s ds).existingPrompts := by
  induction ds with
  | nil => intro k s h; exact h
  | cons d ds ih =>
    intro k s h
    simp only [importLoop]
    apply ih (fun x hx => htr x (List.mem_cons_of_mem _ hx))
    cases hb : importOneBody st ids s.existingPrompts (orc k) d with
    | error e => simpa [importOne, hb] using h
    | ok out =>
      cases out with
      | accepted r =>
        have hs : (importOne st ids (orc k) s d).existingPrompts = r :: s.existingPrompts := by
          simp [importOne, hb]
        rw [hs]
        obtain ⟨t, c, id, ht, _, _, _, _, _, hno, hrt, _⟩ :=
          importOneBody_accepted st ids s.existingPrompts (orc k) d r hb
        have htrim := htr d (List.mem_cons_self _ _) t ht
        rw [htrim] at hrt
        have hr := titleOf_of_getProp r _ hrt
        simp only [TitlesDistinct, List.map_cons, List.nodup_cons]
        refine ⟨?_, h⟩
        intro hmem
        obtain ⟨p, hp, hpt⟩ := List.mem_map.1 hmem
        obtain ⟨v, hv, hne⟩ := someTitleEq_false _ _ hno p hp
        rw [titleOf_of_getProp p v hv, hr] at hpt
        rw [hpt] at hne
        simp [strictEq] at hne
      | skipped => simpa [importOne, hb] using h
      | invalid => simpa [importOne, hb] using h

/-- What the duplicate test does achieve: after a successful import in overwrite
mode of a document whose string titles are all trimmed already, no two records
of the persisted collection have the same title. -/
theorem importData_trimmed_titles_distinct (q : Quota) (st : Store) (data : Option JVal)
    (orc : Nat → Oracle) (incoming : List JVal)
    (hp : getProp data "prompts" = .ok (some (.arr incoming)))
    (htr : ∀ d ∈ incoming, ∀ t, getProp (some d) "title" = .ok (some (.str t)) → trim t = t)
    (h : (importData q st data false orc).1.success = true) :
    ∃ ps, getAllPrompts (importData q st data false orc).2 = .arr ps ∧ TitlesDistinct ps := by
  obtain ⟨w, ids, hw, _, _, _, hget⟩ := importData_ok q st data false orc incoming hp h
  have hw2 : w = [] := by simpa [startingPrompts] using hw.symm
  subst hw2
  exact ⟨_, hget, importLoop_titles_distinct st ids orc incoming htr 0 (ImportState.init [])
    (by simp [TitlesDistinct, ImportState.init])⟩

/-- C23 (evaluation at the failing input): the duplicate test compares the incoming
title as it is with the stored titles, which are trimmed, and the record is then
stored with the trimmed title. Importing the titles `A` and `A` followed by a
blank into an empty store in overwrite mode succeeds, imports both and skips
none, and the persisted collection holds two records titled `A`. -/
theorem C23_padded_title_stored_twice :
    (importData Quota.unlimited Store.empty (some paddedTitleDocument) false fixedOracle).1 =
      { success := true, message := "导入完成：成功2条，跳过0条，错误0条",
        stats := { imported := 2, skipped := 0, errors := 0 } } ∧
    titleList (getAllPrompts
      (importData Quota.unlimited Store.empty (some paddedTitleDocument) false fixedOracle).2) =
      [some (.str "A"), some (.str "A")] ∧
    titleContentPairs (getAllPrompts
      (importData Quota.unlimited Store.empty (some paddedTitleDocument) false fixedOracle).2) =
      [(some (.str "A"), some (.str "y")), (some (.str "A"), some (.str "x"))] := by
  refine ⟨?_, rfl, rfl⟩
  decide

/-! ### Cloud sync: what reading the sync state leaves alone -/

/-- Whatever the sync state and the answers of the storage, `getSyncState()`
touches nothing but the sync state and the count of generated device ids. -/
theorem getSyncState_frame {σ : Type} (env : SyncEnv σ) (w : World σ) :
    SameOutside w (getSyncState env w).2 := by
  have key : ∀ v : JVal, SameOutside w (writeLocal env .syncState v
      { w with generated := w.generated + 1 }).2 := by
    intro v
    unfold writeLocal
    split <;> exact ⟨rfl, rfl, rfl, rfl, rfl⟩
  cases hs : w.store.syncState with
  | none =>
    simp [getSyncState, bind, SyncM.bind, SyncM.readStore, SyncM.ofExcept, readLocal, Store.get,
      hs, getProp, lookup, truthy, ensureDeviceId, pure]
    exact key _
  | some v =>
    cases v with
    | null =>
      simp [getSyncState, bind, SyncM.bind, SyncM.readStore, SyncM.ofExcept, readLocal,
        Store.get, hs, getProp]
      exact SameOutside.refl w
    | obj fs =>
      by_cases hd : truthy (lookup "deviceId" fs) = true
      · simp [getSyncState, bind, SyncM.bind, SyncM.readStore, SyncM.ofExcept, readLocal,
          Store.get, hs, getProp, hd, pure]
        exact SameOutside.refl w
      · simp [getSyncState, bind, SyncM.bind, SyncM.readStore, SyncM.ofExcept, readLocal,
          Store.get, hs, getProp, hd, ensureDeviceId, pure]
        exact key _
    | _ =>
      simp [getSyncState, bind, SyncM.bind, SyncM.readStore, SyncM.ofExcept, readLocal,
        Store.get, hs, getProp, truthy, ensureDeviceId, pure]
      exact key _

/-- The object `getSyncState()` returns depends on the stored sync state and on
the device-id draw only. -/
theorem getSyncState_value_congr {σ : Type} (env : SyncEnv σ) (w w2 : World σ)
    (hs : w2.store.syncState = w.store.syncState) (hg : w2.generated = w.generated) :
    (getSyncState env w2).1 = (getSyncState env w).1 := by
  cases hv : w.store.syncState with
  | none =>
    rw [hv] at hs
    simp [getSyncState, bind, SyncM.bind, SyncM.readStore, SyncM.ofExcept, readLocal, Store.get,
      hs, hv, hg, getProp, lookup, truthy, ensureDeviceId, pure]
  | some v =>
    rw [hv] at hs
    cases v with
    | null =>
      simp [getSyncState, bind, SyncM.bind, SyncM.readStore, SyncM.ofExcept, readLocal,
        Store.get, hs, hv, getProp]
    | obj fs =>
      by_cases hd : truthy (lookup "deviceId" fs) = true
      · simp [getSyncState, bind, SyncM.bind, SyncM.readStore, SyncM.ofExcept, readLocal,
          Store.get, hs, hv, getProp, hd, pure]
      · simp [getSyncState, bind, SyncM.bind, SyncM.readStore, SyncM.ofExcept, readLocal,
          Store.get, hs, hv, hg, getProp, hd, ensureDeviceId, pure]
    | _ =>
      simp [getSyncState, bind, SyncM.bind, SyncM.readStore, SyncM.ofExcept, readLocal,
        Store.get, hs, hv, hg, getProp, truthy, ensureDeviceId, pure]

/-- The result of `buildPayload()` in terms of the one of `getSyncState()`. -/
theorem buildPayload_value {σ : Type} (env : SyncEnv σ) (w : World σ)
    (exportNow updatedAt : Int) :
    (buildPayload env exportNow updatedAt w).1 =
      match (getSyncState env w).1 with
      | .ok state =>
        match getProp (some state) "deviceId" with
        | .ok deviceId => .ok (payloadOf w.store (deviceId.getD .null) exportNow updatedAt)
        | .error e => .error e
      | .error e => .error e := by
  have hf := getSyncState_frame env w
  cases h : getSyncState env w with
  | mk r w1 =>
    rw [h] at hf
    cases r with
    | error e => simp [buildPayload, bind, SyncM.bind, h]
    | ok state =>
      have he : exportData w1.store exportNow = exportData w.store exportNow :=
        exportData_congr _ _ _ hf.1 hf.2.1
      cases hd : getProp (some state) "deviceId" with
      | error e => simp [buildPayload, bind, SyncM.bind, h, SyncM.readStore, SyncM.ofExcept, hd]
      | ok d =>
        simp [buildPayload, bind, SyncM.bind, h, SyncM.readStore, SyncM.ofExcept, hd, pure,
          payloadOf, he]

/-- The document `exportData()` returns has the four fields of the export format,
or is `null`. -/
theorem exportData_shape (st : Store) (now : Int) :
    exportData st now = .null ∨
    ∃ ps, exportData st now = .obj [("prompts", .arr ps), ("settings", getSettings st),
      ("exportTime", .num now), ("version", .str "1.0.0")] := by
  unfold exportData
  cases h : exportDataBody st now with
  | error e => exact Or.inl rfl
  | ok doc =>
    right
    unfold exportDataBody at h
    obtain ⟨prompts, _, h⟩ := bind_eq_ok h
    obtain ⟨ps, _, h⟩ := bind_eq_ok h
    simp only [pure, Except.pure, Except.ok.injEq] at h
    exact ⟨ps, h.symm⟩

/-! ### The credential stays out of the export and of the payload (C22) -/

/-- C22: for every state and every other value, or none, under the credential
key, with the same clock readings and the same device-id draw: `exportData()`
returns the same document, which is `null` or has exactly the fields `prompts`,
`settings`, `exportTime` and `version`, the settings being those of the settings
key; `buildPayload()` returns the same payload or throws the same error, and a
payload has exactly the fields `version`, `updatedAt`, `deviceId` and `data`,
the last one being the export document. -/
theorem C22_credential_not_exported {σ : Type} (env : SyncEnv σ) (w : World σ)
    (pat2 : Option JVal) (now exportNow updatedAt : Int) :
    exportData (w.withPat pat2).store now = exportData w.store now ∧
    (exportData w.store now = .null ∨
      ∃ ps, exportData w.store now = .obj [("prompts", .arr ps), ("settings", getSettings w.store),
        ("exportTime", .num now), ("version", .str "1.0.0")]) ∧
    getSettings (w.withPat pat2).store = getSettings w.store ∧
    (buildPayload env exportNow updatedAt (w.withPat pat2)).1 =
      (buildPayload env exportNow updatedAt w).1 ∧
    (∀ payload, (buildPayload env exportNow updatedAt w).1 = .ok payload →
      ∃ d, payload = .obj [("version", .num 1), ("updatedAt", .num updatedAt), ("deviceId", d),
        ("data", exportData w.store exportNow)]) := by
  refine ⟨exportData_congr _ _ _ rfl rfl, exportData_shape _ _, rfl, ?_, ?_⟩
  · rw [buildPayload_value, buildPayload_value,
      getSyncState_value_congr env w (w.withPat pat2) rfl rfl]
    have : payloadOf (w.withPat pat2).store = payloadOf w.store := by
      funext d e u
      simp only [payloadOf]
      rw [exportData_congr (w.withPat pat2).store w.store e rfl rfl]
    rw [this]
  · intro payload h
    rw [buildPayload_value] at h
    cases hs : (getSyncState env w).1 with
    | error e => rw [hs] at h; cases h
    | ok state =>
      rw [hs] at h
      simp only [] at h
      cases hd : getProp (some state) "deviceId" with
      | error e => rw [hd] at h; cases h
      | ok d =>
        rw [hd] at h
        simp only [Except.ok.injEq] at h
        exact ⟨d.getD .null, h.symm⟩

/-! ### Cloud sync: what every operation preserves -/

theorem advances_refl {σ : Type} (w : World σ) : Advances w w :=
  ⟨id, id, Eq.refl _, Nat.le_refl _⟩

theorem advances_trans {σ : Type} {a b c : World σ} (h1 : Advances a b) (h2 : Advances b c) :
    Advances a c :=
  ⟨fun h => h2.1 (h1.1 h), fun h => h2.2.1 (h1.2.1 h), h2.2.2.1.trans h1.2.2.1,
    Nat.le_trans h1.2.2.2 h2.2.2.2⟩

theorem advancing_pure {σ α : Type} (a : α) : Advancing (pure a : SyncM σ α) :=
  fun w => advances_refl w

theorem advancing_fail {σ α : Type} (msg : String) : Advancing (SyncM.fail msg : SyncM σ α) :=
  fun w => advances_refl w

theorem advancing_ofExcept {σ α : Type} (x : Except String α) :
    Advancing (SyncM.ofExcept x : SyncM σ α) :=
  fun w => advances_refl w

theorem advancing_readStore {σ : Type} : Advancing (SyncM.readStore : SyncM σ Store) :=
  fun w => advances_refl w

theorem advancing_bind {σ α β : Type} (x : SyncM σ α) (f : α → SyncM σ β)
    (hx : Advancing x) (hf : ∀ a, Advancing (f a)) : Advancing (x >>= f) := by
  intro w
  show Advances w (SyncM.bind x f w).2
  unfold SyncM.bind
  have h1 := hx w
  cases h : x w with
  | mk r w1 =>
    rw [h] at h1
    cases r with
    | error e => exact h1
    | ok a => exact advances_trans h1 (hf a w1)

theorem advancing_attempt {σ α : Type} (x : SyncM σ α) (hx : Advancing x) :
    Advancing (SyncM.attempt x) :=
  fun w => hx w

theorem advancing_tryCatch {σ α : Type} (x : SyncM σ α) (handler : String → SyncM σ α)
    (hx : Advancing x) (hh : ∀ e, Advancing (handler e)) : Advancing (SyncM.tryCatch x handler) := by
  intro w
  unfold SyncM.tryCatch
  have h1 := hx w
  cases h : x w with
  | mk r w1 =>
    rw [h] at h1
    cases r with
    | error e => exact advances_trans h1 (hh e w1)
    | ok a => exact h1

theorem sending_bind {σ α β : Type} (x : SyncM σ α) (f : α → SyncM σ β)
    (hx : Sending x) (hf : ∀ a, Advancing (f a)) : Sending (x >>= f) := by
  intro w
  show Advances w (SyncM.bind x f w).2 ∧ w.sent.length < (SyncM.bind x f w).2.sent.length
  unfold SyncM.bind
  have h1 := hx w
  cases h : x w with
  | mk r w1 =>
    rw [h] at h1
    cases r with
    | error e => exact h1
    | ok a => exact ⟨advances_trans h1.1 (hf a w1), Nat.lt_of_lt_of_le h1.2 (hf a w1).2.2.2⟩

theorem advancing_send {σ : Type} (env : SyncEnv σ) (req : Request) : Advancing (send env req) :=
  fun w => ⟨id, id, rfl, by simp [send]⟩

theorem sending_send {σ : Type} (env : SyncEnv σ) (req : Request) : Sending (send env req) :=
  fun w => ⟨advancing_send env req w, by simp [send]⟩

theorem advancing_writeLocal {σ : Type} (env : SyncEnv σ) (fs : List (String × JVal)) :
    Advancing (writeLocal env .syncState (.obj fs)) := by
  intro w
  unfold writeLocal
  split
  · exact ⟨fun _ => by simp [Readable, Store.set], fun _ => ⟨fs, by simp [Store.set]⟩,
      by simp [Store.set], Nat.le_refl _⟩
  · exact advances_refl w

/-- The value `ensureDeviceId` writes back is never `null`, and is an object when
the stored value is one. -/
theorem deviceState_spec (stored : JVal) (id : String) :
    (match orElse (some stored) (.obj []) with
      | .obj fs => JVal.obj (setField "deviceId" (.str id) fs)
      | v => v) ≠ .null ∧
    ((∃ fs, stored = .obj fs) →
      ∃ fs, (match orElse (some stored) (.obj []) with
        | .obj fs => JVal.obj (setField "deviceId" (.str id) fs)
        | v => v) = .obj fs) := by
  cases stored with
  | null => simp [orElse, truthy]
  | bool b => cases b <;> simp [orElse, truthy]
  | num n =>
    by_cases h : n = 0
    · simp [orElse, truthy, h]
    · simp [orElse, truthy, h]
  | str t =>
    by_cases h : t = ""
    · simp [orElse, truthy, h]
    · simp [orElse, truthy, h]
  | arr xs => simp [orElse, truthy]
  | obj fs => simp [orElse, truthy]

theorem advancing_ensureDeviceId {σ : Type} (env : SyncEnv σ) (existing : Option JVal) :
    Advancing (ensureDeviceId env existing) := by
  intro w
  unfold ensureDeviceId
  split
  · exact advances_refl w
  · simp only []
    have hspec := deviceState_spec (readLocal w.store .syncState (.obj []))
      ("device_" ++ env.deviceSuffix w.generated)
    unfold writeLocal
    split
    · refine ⟨fun _ => ?_, fun h => ?_, by simp [Store.set], Nat.le_refl _⟩
      · simp only [Readable, Store.set, ne_eq, Option.some.injEq]
        exact hspec.1
      · obtain ⟨fs, hfs⟩ := h
        obtain ⟨fs2, h2⟩ := hspec.2 ⟨fs, by simp [readLocal, Store.get, hfs]⟩
        exact ⟨fs2, congrArg some h2⟩
    · exact ⟨id, id, rfl, Nat.le_refl _⟩

theorem advancing_getSyncState {σ : Type} (env : SyncEnv σ) : Advancing (getSyncState env) := by
  unfold getSyncState
  apply advancing_bind _ _ advancing_readStore
  intro st
  apply advancing_bind _ _ (advancing_ofExcept _)
  intro gistId
  apply advancing_bind _ _ (advancing_ofExcept _)
  intro lastETag
  apply advancing_bind _ _ (advancing_ofExcept _)
  intro lastSyncAt
  apply advancing_bind _ _ (advancing_ofExcept _)
  intro deviceId
  have tail : ∀ d : JVal, Advancing (do
      let status ← SyncM.ofExcept (getProp (some (readLocal st Key.syncState (JVal.obj []))) "status")
      let lastError ← SyncM.ofExcept
        (getProp (some (readLocal st Key.syncState (JVal.obj []))) "lastError")
      (pure (JVal.obj
        [("gistId", orElse gistId (JVal.str "")), ("lastETag", orElse lastETag (JVal.str "")),
          ("lastSyncAt", orElse lastSyncAt (JVal.num 0)), ("deviceId", d),
          ("status", orElse status (JVal.str "idle")),
          ("lastError", orElse lastError (JVal.str ""))]) : SyncM σ JVal)) := by
    intro d
    apply advancing_bind _ _ (advancing_ofExcept _)
    intro status
    apply advancing_bind _ _ (advancing_ofExcept _)
    intro lastError
    exact advancing_pure _
  simp only []
  split
  · exact advancing_bind _ _ (advancing_pure _) tail
  · exact advancing_bind _ _ (advancing_ensureDeviceId env _) tail

theorem advancing_saveSyncState {σ : Type} (env : SyncEnv σ)
    (patch : List (String × Option JVal)) : Advancing (saveSyncState env patch) := by
  unfold saveSyncState
  apply advancing_bind _ _ (advancing_getSyncState env)
  intro current
  apply advancing_bind _ _ (advancing_writeLocal env _)
  intro _
  exact advancing_pure _

theorem advancing_updateSyncStatusUI {σ : Type} (env : SyncEnv σ) :
    Advancing (updateSyncStatusUI env) :=
  advancing_attempt _ (advancing_getSyncState env)

theorem importPrompts_keeps (q : Quota) (st st1 : Store) (prompts : Option JVal) (merge : Bool)
    (orc : Nat → Oracle) (s : ImportState)
    (h : importPrompts q st prompts merge orc = .ok (s, st1)) :
    st1.syncState = st.syncState ∧ st1.pat = st.pat := by
  unfold importPrompts at h
  split at h
  · obtain ⟨ex, _, h⟩ := bind_eq_ok h
    obtain ⟨ids, _, h⟩ := bind_eq_ok h
    simp only [] at h
    rw [saveAllPrompts_arr] at h
    split at h
    · simp only [↓reduceIte, pure, Except.pure, Except.ok.injEq, Prod.mk.injEq] at h
      rw [← h.2]
      exact ⟨rfl, rfl⟩
    · simp [throw, throwThe, MonadExceptOf.throw] at h
  · simp only [pure, Except.pure, Except.ok.injEq, Prod.mk.injEq] at h
    rw [← h.2]
    exact ⟨rfl, rfl⟩

theorem importSettings_keeps (q : Quota) (st st2 : Store) (data : Option JVal) (merge : Bool)
    (h : importSettings q st data merge = .ok st2) :
    st2.syncState = st.syncState ∧ st2.pat = st.pat := by
  unfold importSettings at h
  split at h
  · obtain ⟨settings, _, h⟩ := bind_eq_ok h
    simp only [pure, Except.pure, Except.ok.injEq] at h
    subst h
    split
    · exact (saveSettings_keeps q st settings).2
    · exact ⟨rfl, rfl⟩
  · simp only [pure, Except.pure, Except.ok.injEq] at h
    rw [h]
    exact ⟨rfl, rfl⟩

/-- An import never touches the sync state or the credential. -/
theorem importData_keeps (q : Quota) (st : Store) (data : Option JVal) (merge : Bool)
    (orc : Nat → Oracle) :
    (importData q st data merge orc).2.syncState = st.syncState ∧
      (importData q st data merge orc).2.pat = st.pat := by
  unfold importData
  cases hb : importDataBody q st data merge orc with
  | error e => exact ⟨rfl, rfl⟩
  | ok res =>
    simp only []
    unfold importDataBody at hb
    split at hb
    · simp [throw, throwThe, MonadExceptOf.throw] at hb
    obtain ⟨prompts, _, hb⟩ := bind_eq_ok hb
    obtain ⟨⟨s, st1⟩, hmid, hb⟩ := bind_eq_ok hb
    obtain ⟨st2, hset, hb⟩ := bind_eq_ok hb
    simp only [pure, Except.pure, Except.ok.injEq] at hb
    subst hb
    have h1 := importPrompts_keeps q st st1 prompts merge orc s hmid
    have h2 := importSettings_keeps q st1 st2 data merge hset
    exact ⟨h2.1.trans h1.1, h2.2.trans h1.2⟩

theorem advancing_importLocal {σ : Type} (env : SyncEnv σ) (data : Option JVal)
    (orc : Nat → Oracle) : Advancing (importLocal env data orc) := by
  intro w
  have hk := importData_keeps env.quota w.store data false orc
  refine ⟨fun h => ?_, fun h => ?_, hk.2, Nat.le_refl _⟩
  · simp only [Readable, importLocal] at h ⊢
    rw [hk.1]
    exact h
  · obtain ⟨fs, hfs⟩ := h
    exact ⟨fs, by simp only [importLocal]; rw [hk.1, hfs]⟩

theorem advancing_readContent {σ : Type} (env : SyncEnv σ) (file : Option JVal) :
    Advancing (readContent env file) := by
  unfold readContent
  apply advancing_bind _ _ (advancing_ofExcept _)
  intro rawUrl
  split
  · apply advancing_bind _ _ (advancing_send env _)
    intro rawRes
    split
    · exact advancing_fail _
    · exact advancing_ofExcept _
  · apply advancing_bind _ _ (advancing_ofExcept _)
    intro content
    split
    · exact advancing_pure _
    · exact advancing_fail _

theorem advancing_readRemote {σ : Type} (env : SyncEnv σ) (res : Response) :
    Advancing (readRemote env res) := by
  unfold readRemote
  apply advancing_bind _ _ (advancing_ofExcept _)
  intro json
  apply advancing_bind _ _ (advancing_ofExcept _)
  intro files
  simp only []
  split
  all_goals
    apply advancing_bind
    · exact fun w0 => advances_refl w0
    intro file
    split
    · exact advancing_fail _
    · apply advancing_bind _ _ (advancing_readContent env _)
      intro contentText
      split
      · exact advancing_fail _
      · exact advancing_pure _

theorem sending_fetchRemote {σ : Type} (env : SyncEnv σ) (pat gistId : JVal)
    (lastETag : Option JVal) : Sending (fetchRemote env pat gistId lastETag) := by
  unfold fetchRemote
  apply sending_bind _ _ (sending_send env _)
  intro res
  split
  · exact advancing_pure _
  · split
    · exact advancing_fail _
    · split
      · exact advancing_fail _
      · exact advancing_readRemote env res

theorem advancing_applyRemote {σ : Type} (env : SyncEnv σ) (r : Fetched) (now : Int)
    (orc : Nat → Oracle) : Advancing (applyRemote env r now orc) := by
  unfold applyRemote
  split
  · exact advancing_fail _
  · apply advancing_bind _ _ (advancing_ofExcept _)
    intro inner
    split
    · exact advancing_fail _
    · apply advancing_bind _ _ (advancing_importLocal env _ _)
      intro result
      split
      · exact advancing_fail _
      · apply advancing_bind _ _ (advancing_saveSyncState env _)
        intro _
        apply advancing_bind _ _ (advancing_updateSyncStatusUI env)
        intro _
        exact advancing_pure _

/-- The part of the pull from the request on: it issues a request. -/
theorem sending_pullFromFetch {σ : Type} (env : SyncEnv σ) (pat : JVal)
    (gistId lastETag : Option JVal) (now : Int) (orc : Nat → Oracle) :
    Sending (do
      let r ← fetchRemote env pat (gistId.getD .null) lastETag
      if r.status = 304 then do
        saveSyncState env [("status", some (.str "ok")), ("lastSyncAt", some (.num now))]
        updateSyncStatusUI env
        (pure (.obj [("updated", .bool false)]) : SyncM σ JVal)
      else applyRemote env r now orc) := by
  apply sending_bind _ _ (sending_fetchRemote env _ _ _)
  intro r
  split
  · apply advancing_bind _ _ (advancing_saveSyncState env _)
    intro _
    apply advancing_bind _ _ (advancing_updateSyncStatusUI env)
    intro _
    exact advancing_pure _
  · exact advancing_applyRemote env r now orc

theorem advancing_of_sending {σ α : Type} (x : SyncM σ α) (h : Sending x) : Advancing x :=
  fun w => (h w).1

theorem advancing_pullConfigured {σ : Type} (env : SyncEnv σ) (pat : JVal)
    (gistId lastETag : Option JVal) (now : Int) (orc : Nat → Oracle) :
    Advancing (pullConfigured env pat gistId lastETag now orc) := by
  unfold pullConfigured
  apply advancing_bind _ _ (advancing_saveSyncState env _)
  intro _
  apply advancing_bind _ _ (advancing_updateSyncStatusUI env)
  intro _
  exact advancing_of_sending _ (sending_pullFromFetch env pat gistId lastETag now orc)

theorem advancing_pullOverrideLocal {σ : Type} (env : SyncEnv σ) (now : Int)
    (orc : Nat → Oracle) : Advancing (pullOverrideLocal env now orc) := by
  unfold pullOverrideLocal
  apply advancing_bind _ _ advancing_readStore
  intro st
  apply advancing_bind _ _ (advancing_getSyncState env)
  intro state
  apply advancing_bind _ _ (advancing_ofExcept _)
  intro gistId
  apply advancing_bind _ _ (advancing_ofExcept _)
  intro lastETag
  split
  · exact advancing_fail _
  · exact advancing_pullConfigured env _ _ _ now orc

/-! ### Cloud sync: the start-up pull -/

theorem truthy_orElse_empty (v : Option JVal) :
    truthy (some (orElse v (.str ""))) = truthy v := by
  unfold orElse
  by_cases h : truthy v = true
  · cases v with
    | none => simp [truthy] at h
    | some x => simp [h]
  · have h2 : truthy v = false := by simpa using h
    rw [h2]
    rfl

theorem deviceState_gistId (stored : JVal) (id : String) :
    lookup "gistId" (fieldsOf (match orElse (some stored) (.obj []) with
      | .obj fs => JVal.obj (setField "deviceId" (.str id) fs)
      | v => v)) = lookup "gistId" (fieldsOf stored) := by
  cases stored with
  | null => simp [orElse, truthy, fieldsOf, lookup_setField, lookup]
  | bool b => cases b <;> simp [orElse, truthy, fieldsOf, lookup_setField, lookup]
  | num n =>
    by_cases h : n = 0
    · simp [orElse, truthy, h, fieldsOf, lookup_setField, lookup]
    · simp [orElse, truthy, h, fieldsOf, lookup_setField, lookup]
  | str t =>
    by_cases h : t = ""
    · simp [orElse, truthy, h, fieldsOf, lookup_setField, lookup]
    · simp [orElse, truthy, h, fieldsOf, lookup_setField, lookup]
  | arr xs => simp [orElse, truthy, fieldsOf]
  | obj fs => simp [orElse, truthy, fieldsOf, lookup_setField]

theorem ensureDeviceId_gistId {σ : Type} (env : SyncEnv σ) (existing : Option JVal)
    (w : World σ) :
    lookup "gistId" (storedFields (ensureDeviceId env existing w).2.store) =
      lookup "gistId" (storedFields w.store) := by
  unfold ensureDeviceId
  split
  · rfl
  · simp only []
    unfold writeLocal
    split
    · exact deviceState_gistId (readLocal w.store .syncState (.obj [])) _
    · rfl

/-- The world `getSyncState()` leaves is the one it started in, or the one its
call of `ensureDeviceId` leaves. -/
theorem getSyncState_world {σ : Type} (env : SyncEnv σ) (w : World σ) :
    (getSyncState env w).2 = w ∨ ∃ ex, (getSyncState env w).2 = (ensureDeviceId env ex w).2 := by
  cases hs : w.store.syncState with
  | none =>
    right
    refine ⟨none, ?_⟩
    simp [getSyncState, bind, SyncM.bind, SyncM.readStore, SyncM.ofExcept,
      readLocal, Store.get, hs, getProp, lookup, truthy, pure]
    generalize ensureDeviceId env none w = x
    obtain ⟨r, w1⟩ := x
    cases r <;> rfl
  | some v =>
    cases v with
    | null =>
      left
      simp [getSyncState, bind, SyncM.bind, SyncM.readStore, SyncM.ofExcept, readLocal,
        Store.get, hs, getProp]
    | obj fs =>
      by_cases hd : truthy (lookup "deviceId" fs) = true
      · left
        simp [getSyncState, bind, SyncM.bind, SyncM.readStore, SyncM.ofExcept, readLocal,
          Store.get, hs, getProp, hd, pure]
      · right
        refine ⟨lookup "deviceId" fs, ?_⟩
        simp [getSyncState, bind, SyncM.bind, SyncM.readStore,
          SyncM.ofExcept, readLocal, Store.get, hs, getProp, hd, pure]
        generalize ensureDeviceId env (lookup "deviceId" fs) w = x
        obtain ⟨r, w1⟩ := x
        cases r <;> rfl
    | _ =>
      right
      refine ⟨none, ?_⟩
      simp [getSyncState, bind, SyncM.bind, SyncM.readStore, SyncM.ofExcept,
        readLocal, Store.get, hs, getProp, truthy, pure]
      generalize ensureDeviceId env none w = x
      obtain ⟨r, w1⟩ := x
      cases r <;> rfl

theorem getSyncState_gistId {σ : Type} (env : SyncEnv σ) (w : World σ) :
    lookup "gistId" (storedFields (getSyncState env w).2.store) =
      lookup "gistId" (storedFields w.store) := by
  rcases getSyncState_world env w with h | ⟨ex, h⟩
  · rw [h]
  · rw [h]; exact ensureDeviceId_gistId env ex w

/-- On a readable sync state `getSyncState()` returns the view of the stored
fields. -/
theorem getSyncState_readable {σ : Type} (env : SyncEnv σ) (w : World σ)
    (h : Readable w.store) :
    ∃ d, (getSyncState env w).1 = .ok (.obj (viewOf (storedFields w.store) d)) := by
  cases hs : w.store.syncState with
  | none =>
    have hf : storedFields w.store = [] := by
      simp [storedFields, fieldsOf, readLocal, Store.get, hs]
    rw [hf]
    simp [getSyncState, bind, SyncM.bind, SyncM.readStore, SyncM.ofExcept, readLocal,
      Store.get, hs, getProp, lookup, truthy, ensureDeviceId, pure, viewOf]
  | some v =>
    cases v with
    | null => exact absurd hs h
    | obj fs =>
      have hf : storedFields w.store = fs := by
        simp [storedFields, fieldsOf, readLocal, Store.get, hs]
      rw [hf]
      by_cases hd : truthy (lookup "deviceId" fs) = true
      · simp [getSyncState, bind, SyncM.bind, SyncM.readStore, SyncM.ofExcept, readLocal,
          Store.get, hs, getProp, hd, pure, viewOf]
      · simp [getSyncState, bind, SyncM.bind, SyncM.readStore, SyncM.ofExcept, readLocal,
          Store.get, hs, getProp, hd, ensureDeviceId, pure, viewOf]
    | _ =>
      have hf : storedFields w.store = [] := by
        simp [storedFields, fieldsOf, readLocal, Store.get, hs]
      rw [hf]
      simp [getSyncState, bind, SyncM.bind, SyncM.readStore, SyncM.ofExcept, readLocal,
        Store.get, hs, getProp, lookup, truthy, ensureDeviceId, pure, viewOf]

theorem saveSyncState_total {σ : Type} (env : SyncEnv σ) (w : World σ)
    (patch : List (String × Option JVal)) (h : Readable w.store) :
    (saveSyncState env patch w).1 = .ok () := by
  obtain ⟨d, hd⟩ := getSyncState_readable env w h
  cases hg : getSyncState env w with
  | mk r w1 =>
    rw [hg] at hd
    simp only at hd
    subst hd
    simp only [saveSyncState, bind, SyncM.bind, hg, writeLocal]
    by_cases hq : env.quota w1.store Key.syncState
        (JVal.obj (patched (ownEntries (some (JVal.obj (viewOf (storedFields w.store) d))))
          patch)) = true
    · simp [hq, pure]
    · simp [hq, pure]

theorem pullConfigured_sends {σ : Type} (env : SyncEnv σ) (w : World σ) (pat : JVal)
    (gistId lastETag : Option JVal) (now : Int) (orc : Nat → Oracle) (h : Readable w.store) :
    w.sent.length < (pullConfigured env pat gistId lastETag now orc w).2.sent.length := by
  have h1 := saveSyncState_total env w
    [("status", some (.str "syncing")), ("lastError", some (.str ""))] h
  have a1 := advancing_saveSyncState env
    [("status", some (.str "syncing")), ("lastError", some (.str ""))] w
  cases hs : saveSyncState env
      [("status", some (.str "syncing")), ("lastError", some (.str ""))] w with
  | mk r wa =>
    rw [hs] at h1 a1
    simp only at h1
    subst h1
    have a2 := advancing_updateSyncStatusUI env wa
    have h3 := sending_pullFromFetch env pat gistId lastETag now orc
      (updateSyncStatusUI env wa).2
    have he : pullConfigured env pat gistId lastETag now orc w =
        (do
          let r ← fetchRemote env pat (gistId.getD .null) lastETag
          if r.status = 304 then do
            saveSyncState env [("status", some (.str "ok")), ("lastSyncAt", some (.num now))]
            updateSyncStatusUI env
            (pure (.obj [("updated", .bool false)]) : SyncM σ JVal)
          else applyRemote env r now orc) (updateSyncStatusUI env wa).2 := by
      simp only [pullConfigured, bind, SyncM.bind, hs, updateSyncStatusUI, SyncM.attempt]
    rw [he]
    exact Nat.lt_of_le_of_lt (Nat.le_trans a1.2.2.2 a2.2.2.2) h3.2

theorem getPat_congr (st1 st2 : Store) (h : st1.pat = st2.pat) : getPat st1 = getPat st2 := by
  simp [getPat, readLocal, Store.get, h]

/-- The configuration test of the sync operations, in terms of the store. -/
theorem configured_test {σ : Type} (env : SyncEnv σ) (w : World σ) (h : Readable w.store) :
    ∃ d, (getSyncState env w).1 = .ok (.obj (viewOf (storedFields w.store) d)) ∧
      (!truthy (some (getPat w.store)) ||
        !truthy (lookup "gistId" (viewOf (storedFields w.store) d))) = !Configured w.store := by
  obtain ⟨d, hd⟩ := getSyncState_readable env w h
  refine ⟨d, hd, ?_⟩
  rw [(lookup_viewOf _ d).1, truthy_orElse_empty]
  simp [Configured]

/-- A pull on a configured store with a readable sync state issues a request. -/
theorem pullOverrideLocal_sends {σ : Type} (env : SyncEnv σ) (w : World σ) (now : Int)
    (orc : Nat → Oracle) (h : Readable w.store) (hc : Configured w.store = true) :
    w.sent.length < (pullOverrideLocal env now orc w).2.sent.length := by
  obtain ⟨d, hd, ht⟩ := configured_test env w h
  have a1 := advancing_getSyncState env w
  cases hg : getSyncState env w with
  | mk r w1 =>
    rw [hg] at hd a1
    simp only at hd
    subst hd
    rw [hc] at ht
    have hsend := pullConfigured_sends env w1 (getPat w.store)
      (lookup "gistId" (viewOf (storedFields w.store) d))
      (lookup "lastETag" (viewOf (storedFields w.store) d)) now orc (a1.1 h)
    have he : pullOverrideLocal env now orc w =
        pullConfigured env (getPat w.store) (lookup "gistId" (viewOf (storedFields w.store) d))
          (lookup "lastETag" (viewOf (storedFields w.store) d)) now orc w1 := by
      simp only [pullOverrideLocal, bind, SyncM.bind, SyncM.readStore, hg, SyncM.ofExcept,
        getProp, ht, Bool.not_true, Bool.false_eq_true, ↓reduceIte]
    rw [he]
    exact Nat.lt_of_le_of_lt a1.2.2.2 hsend

theorem patched_error (fs : List (String × JVal)) (dev : JVal) (t : String) :
    patched (viewOf fs dev) [("status", some (.str "error")), ("lastError", some (.str t))] =
      [("gistId", orElse (lookup "gistId" fs) (.str "")),
       ("lastETag", orElse (lookup "lastETag" fs) (.str "")),
       ("lastSyncAt", orElse (lookup "lastSyncAt" fs) (.num 0)),
       ("deviceId", dev), ("status", .str "error"), ("lastError", .str t)] := by
  simp [patched, viewOf, setField, hasKey]

/-- The `catch` block of `initOnLoad()` on a sync state that is an object, when the
writes of the sync state are accepted. -/
theorem recordError_obj {σ : Type} (env : SyncEnv σ) (w : World σ) (t : String)
    (h : HoldsObject w.store) (hq : ∀ st v, env.quota st .syncState v = true) :
    ∃ s, ((do
        saveSyncState env [("status", some (.str "error")), ("lastError", some (.str t))]
        updateSyncStatusUI env : SyncM σ Unit) w).2.store.syncState = some (.obj s) ∧
      lookup "status" s = some (.str "error") ∧ lookup "lastError" s = some (.str t) := by
  obtain ⟨fs, hfs⟩ := h
  obtain ⟨fs1, w1, h1, hset1, _, _⟩ := getSyncState_obj env w fs hfs hq
  cases hd : lookup "deviceId" fs1 with
  | none =>
    have := hset1.2
    rw [hd] at this
    simp [truthy] at this
  | some d =>
    have hdt : truthy (some d) = true := by
      have := hset1.2
      rwa [hd] at this
    have h2 := saveSyncState_settled env w1 fs1
      [("status", some (.str "error")), ("lastError", some (.str t))] hset1 hq
    rw [hd, Option.getD_some, patched_error] at h2
    rw [hd, Option.getD_some] at h1
    have hs : saveSyncState env [("status", some (.str "error")), ("lastError", some (.str t))] w
        = saveSyncState env [("status", some (.str "error")), ("lastError", some (.str t))] w1 := by
      have hw1 := getSyncState_settled env w1 fs1 hset1
      rw [hd, Option.getD_some] at hw1
      simp only [saveSyncState, bind, SyncM.bind, h1, hw1]
    have hset2 : Settled (w1.withStore (w1.store.set .syncState (.obj
        [("gistId", orElse (lookup "gistId" fs1) (.str "")),
         ("lastETag", orElse (lookup "lastETag" fs1) (.str "")),
         ("lastSyncAt", orElse (lookup "lastSyncAt" fs1) (.num 0)),
         ("deviceId", d), ("status", .str "error"), ("lastError", .str t)]))).store
        [("gistId", orElse (lookup "gistId" fs1) (.str "")),
         ("lastETag", orElse (lookup "lastETag" fs1) (.str "")),
         ("lastSyncAt", orElse (lookup "lastSyncAt" fs1) (.num 0)),
         ("deviceId", d), ("status", .str "error"), ("lastError", .str t)] :=
      ⟨by simp [World.withStore, Store.set], by simpa [lookup] using hdt⟩
    have h3 := updateSyncStatusUI_settled env _ _ hset2
    refine ⟨[("gistId", orElse (lookup "gistId" fs1) (.str "")),
         ("lastETag", orElse (lookup "lastETag" fs1) (.str "")),
         ("lastSyncAt", orElse (lookup "lastSyncAt" fs1) (.num 0)),
         ("deviceId", d), ("status", .str "error"), ("lastError", .str t)], ?_, ?_, ?_⟩
    · simp only [bind, SyncM.bind, hs, h2, h3]
      simp [World.withStore, Store.set]
    · simp [lookup]
    · simp [lookup]

theorem recordError_total {σ : Type} (env : SyncEnv σ) (w : World σ) (t : String)
    (h : Readable w.store) :
    ((do
        saveSyncState env [("status", some (.str "error")), ("lastError", some (.str t))]
        updateSyncStatusUI env : SyncM σ Unit) w).1 = .ok () := by
  have h1 := saveSyncState_total env w
    [("status", some (.str "error")), ("lastError", some (.str t))] h
  cases hs : saveSyncState env
      [("status", some (.str "error")), ("lastError", some (.str t))] w with
  | mk r wa =>
    rw [hs] at h1
    simp only at h1
    subst h1
    simp only [bind, SyncM.bind, hs, updateSyncStatusUI, SyncM.attempt]

theorem advancing_recordError {σ : Type} (env : SyncEnv σ) (t : String) :
    Advancing (do
        saveSyncState env [("status", some (.str "error")), ("lastError", some (.str t))]
        updateSyncStatusUI env : SyncM σ Unit) := by
  apply advancing_bind _ _ (advancing_saveSyncState env _)
  intro _
  exact advancing_updateSyncStatusUI env

/-- The function `initOnLoad()` on a readable sync state, in terms of the
configuration of the store. -/
theorem initOnLoad_eq {σ : Type} (env : SyncEnv σ) (w : World σ) (now : Int)
    (orc : Nat → Oracle) (h : Readable w.store) :
    initOnLoad env now orc w =
      if Configured w.store = true then
        SyncM.tryCatch
          (do
            let _ ← pullOverrideLocal env now orc
            pure ())
          (fun e => do
            saveSyncState env [("status", some (.str "error")),
              ("lastError", some (.str (errorText e)))]
            updateSyncStatusUI env)
          (getSyncState env w).2
      else (.ok (), (getSyncState env w).2) := by
  obtain ⟨d, hd, ht⟩ := configured_test env w h
  cases hg : getSyncState env w with
  | mk r w1 =>
    rw [hg] at hd
    simp only at hd
    subst hd
    simp only [initOnLoad, bind, SyncM.bind, SyncM.readStore, hg, SyncM.ofExcept, getProp, ht]
    by_cases hc : Configured w.store = true
    · simp [hc]
    · have hc2 : Configured w.store = false := by simpa using hc
      simp [hc2, pure]

theorem configured_holdsObject (st : Store) (h : Configured st = true) : HoldsObject st := by
  simp only [Configured, Bool.and_eq_true] at h
  have h2 := h.2
  unfold storedFields readLocal at h2
  simp only [Store.get] at h2
  cases hs : st.syncState with
  | none => rw [hs] at h2; simp [fieldsOf, lookup, truthy] at h2
  | some v =>
    cases v with
    | obj fs => exact ⟨fs, hs⟩
    | _ => rw [hs] at h2; simp [fieldsOf, lookup, truthy] at h2

theorem configured_after_read {σ : Type} (env : SyncEnv σ) (w : World σ) :
    Configured (getSyncState env w).2.store = Configured w.store := by
  have hf := getSyncState_frame env w
  have hg := getSyncState_gistId env w
  simp only [Configured, hg, getPat_congr _ _ hf.2.2.1]

/-! ### The start-up pull never fails (C21) -/

/-- C21: on every store whose sync state is not the JSON value `null`, whatever
the storage and the remote store answer: `initOnLoad()` completes normally; it
issues a request, the one of `pullOverrideLocal()`, if and only if both a
credential and a bound gist id are stored; and when they are, the pull fails with
the message `msg`, and the writes of the sync state are accepted, the persisted
sync state ends as an object with status `error` and `lastError` equal to the
text of the failure, which is `msg` itself unless `msg` is empty. -/
theorem C21_initOnLoad {σ : Type} (env : SyncEnv σ) (w : World σ) (now : Int)
    (orc : Nat → Oracle) (h : Readable w.store) :
    (initOnLoad env now orc w).1 = .ok () ∧
    (Configured w.store = true ↔
      w.sent.length < (initOnLoad env now orc w).2.sent.length) ∧
    (∀ msg, Configured w.store = true →
      (pullOverrideLocal env now orc (getSyncState env w).2).1 = .error msg →
      (∀ st v, env.quota st .syncState v = true) →
      ∃ s, (initOnLoad env now orc w).2.store.syncState = some (.obj s) ∧
        lookup "status" s = some (.str "error") ∧
        lookup "lastError" s = some (.str (errorText msg)) ∧
        (msg ≠ "" → errorText msg = msg)) := by
  have heq := initOnLoad_eq env w now orc h
  have a1 := advancing_getSyncState env w
  have hf := getSyncState_frame env w
  have a2 := advancing_pullOverrideLocal env now orc (getSyncState env w).2
  by_cases hc : Configured w.store = true
  · rw [if_pos hc] at heq
    have hsend := pullOverrideLocal_sends env (getSyncState env w).2 now orc (a1.1 h)
      (by rw [configured_after_read]; exact hc)
    rw [hf.2.2.2.2] at hsend
    cases hp : pullOverrideLocal env now orc (getSyncState env w).2 with
    | mk r w2 =>
      rw [hp] at a2 hsend
      cases r with
      | ok v =>
        have he2 : initOnLoad env now orc w = (.ok (), w2) := by
          rw [heq]
          simp only [SyncM.tryCatch, bind, SyncM.bind, hp, pure]
        rw [he2]
        refine ⟨rfl, ⟨fun _ => hsend, fun _ => hc⟩, ?_⟩
        intro msg _ hm
        cases hm
      | error e =>
        have he2 : initOnLoad env now orc w = (do
            saveSyncState env [("status", some (.str "error")),
              ("lastError", some (.str (errorText e)))]
            updateSyncStatusUI env : SyncM σ Unit) w2 := by
          rw [heq]
          simp only [SyncM.tryCatch, bind, SyncM.bind, hp]
        rw [he2]
        have hr2 : Readable w2.store := a2.1 (a1.1 h)
        have a3 := advancing_recordError env (errorText e) w2
        refine ⟨recordError_total env w2 _ hr2,
          ⟨fun _ => Nat.lt_of_lt_of_le hsend a3.2.2.2, fun _ => hc⟩, ?_⟩
        intro msg _ hm hq
        simp only [Except.error.injEq] at hm
        subst hm
        have ho2 : HoldsObject w2.store := a2.2.1 (a1.2.1 (configured_holdsObject _ hc))
        obtain ⟨s, hs1, hs2, hs3⟩ := recordError_obj env w2 (errorText e) ho2 hq
        exact ⟨s, hs1, hs2, hs3, fun hne => by simp [errorText, hne]⟩
  · rw [if_neg hc] at heq
    rw [heq]
    refine ⟨rfl, ⟨fun h1 => absurd h1 hc, fun h1 => ?_⟩, fun msg h1 => absurd h1 hc⟩
    simp only [hf.2.2.2.2] at h1
    exact absurd h1 (Nat.lt_irrefl _)

/-- C21 on the sample store bound to a document that the remote store does not
hold: the pull fails with the message of the 404 answer, `initOnLoad()` completes
normally and persists status `error` with that message; bound to the document
`g1`, whose content has no text, the failure is the one of the decoding; on the
sample store without credential no request is issued. -/
theorem C21_initOnLoad_witness :
    (initOnLoad sampleEnv 20 fixedOracle (sampleWorld lostStore)).1 = .ok () ∧
    (∃ s, (initOnLoad sampleEnv 20 fixedOracle (sampleWorld lostStore)).2.store.syncState =
        some (.obj s) ∧
      lookup "status" s = some (.str "error") ∧
      lookup "lastError" s = some (.str (errorText "找不到对应 Gist（404）")) ∧
      ("找不到对应 Gist（404）" ≠ "" → errorText "找不到对应 Gist（404）" = "找不到对应 Gist（404）")) ∧
    (initOnLoad sampleEnv 20 fixedOracle (sampleWorld lostStore)).2.store.syncState =
      some (.obj [("gistId", .str "zz"), ("lastETag", .str ""), ("lastSyncAt", .num 0),
        ("deviceId", .str "device_d0"), ("status", .str "error"),
        ("lastError", .str "找不到对应 Gist（404）")]) ∧
    (initOnLoad sampleEnv 20 fixedOracle (sampleWorld lostStore)).2.sent.length = 1 ∧
    lookup "lastError"
        (storedFields (initOnLoad sampleEnv 20 fixedOracle (sampleWorld boundStore)).2.store) =
      some (.str "无法获取 Gist 文件内容") ∧
    Configured sampleStore = false ∧
    (initOnLoad sampleEnv 20 fixedOracle (sampleWorld sampleStore)).2.sent = [] :=
  ⟨(C21_initOnLoad sampleEnv (sampleWorld lostStore) 20 fixedOracle
      (by intro h; cases h)).1,
   (C21_initOnLoad sampleEnv (sampleWorld lostStore) 20 fixedOracle
      (by intro h; cases h)).2.2 "找不到对应 Gist（404）" rfl rfl (fun _ _ => rfl),
   rfl, rfl, rfl, rfl, rfl⟩

end PromptManager
